import Mathlib

/-!
# Volunteer chooser: the allocation engine of `main.go`

A shallow embedding of `assignVolunteers` and of the helpers it calls
(`filterVolunteersByEvent`, `filterByTeacher`, `nameKey`, `rand.Shuffle`),
of the seeding of the two generators in `main`, of `FormatPhoneNumber` and of
`sanitizeSheetName`, followed by theorems about the assignment table and the
strings they return.

Modelling conventions.

* A Go map is a total function: looking up an absent key in Go yields the zero
  value (`nil` slice, `false`), which is what the function returns for keys
  never written.  `make(map...)` stored under a key is the update of that key
  to the constantly-zero function.
* `int` is `Int`; the counters `assigned` only count up from `0` and are `Nat`.
* The two package-level generators `rnd` and `rnd2` are explicit arguments.  A
  generator is a stream of raw values together with a read position; a bounded
  draw reduces the next raw value modulo the bound.  Every run of
  `rand.Shuffle` is the Fisher-Yates loop of the Go library over such draws, so
  quantifying over all generators quantifies over all outcomes of the shuffles.
* The party loop and the field-trip loop of `assignVolunteers` have the same
  body up to the event type string, the deduplication map they use
  (`usedForParty` / `usedForFieldTrip`, `usedAsAlternate` /
  `usedAsAlternateTrip`) and the teacher list they iterate; the embedding has
  one copy of each loop, indexed by a `Category`.
* A Go string is a sequence of bytes.  `FormatPhoneNumber` takes the runes of
  a valid UTF-8 input and returns the bytes of its result, each byte a `Nat`;
  `sanitizeSheetName` takes and returns bytes.
* The library functions `strings.ToLower` and `unicode.IsDigit` are parameters,
  `ToLower` and `IsDigit`: the theorems hold for every value of them.  Where a
  run is evaluated on a concrete input, `ToLower` is `asciiToLower`, the value
  of `strings.ToLower` on ASCII strings, and all names of the input are ASCII.
-/

namespace VolunteerChooser

/-! ## Data model -/

/-- The record `Volunteer` of `main.go`. -/
structure Volunteer where
  Name : String
  Email : String
  Phone : String
  Teacher : String
  EventType : String
  EventName : String
  Alternate : Bool
  deriving DecidableEq, Repr

/-- The record `EventConfig` of `main.go`. -/
structure EventConfig where
  Name : String
  Count : Int
  deriving DecidableEq, Repr

/-- The type `PartyConfig` of `main.go`, declared as `type PartyConfig EventConfig`. -/
abbrev PartyConfig := EventConfig

/-- The record `FieldTripConfig` of `main.go`: an embedded `EventConfig` and a teacher list. -/
structure FieldTripConfig extends EventConfig where
  Teachers : List String
  deriving DecidableEq, Repr

/-- The two event categories, with their own deduplication maps. -/
inductive Category where
  | party
  | fieldtrip
  deriving DecidableEq, Repr

/-- The string stored in `Volunteer.EventType` for a category. -/
def Category.eventType : Category → String
  | .party => "party"
  | .fieldtrip => "fieldtrip"

/-! ## Helper functions -/

/-- The function `nameKey` of `main.go`: `strings.ToLower(name)`.  The library function
`strings.ToLower` is the parameter `ToLower`; the loops below pass it on to every place where a
name is normalized, and the theorems hold for every `ToLower`. -/
def nameKey (ToLower : String → String) (name : String) : String :=
  ToLower name

/-- The value of `strings.ToLower` on strings of ASCII characters: the letters `A`..`Z` become
`a`..`z` and every other ASCII character is kept.  It stands for `ToLower` where a run is
evaluated on a concrete input, all of whose names are ASCII. -/
def asciiToLower (name : String) : String :=
  String.mk (name.data.map Char.toLower)

/-- The function `filterVolunteersByEvent` of `main.go`: a loop appending the matching records. -/
def filterVolunteersByEvent (volunteers : List Volunteer) (eventType eventName : String) :
    List Volunteer :=
  volunteers.foldl
    (fun filtered v =>
      if v.EventType = eventType ∧ v.EventName = eventName then filtered ++ [v] else filtered)
    []

/-- The function `filterByTeacher` of `main.go`: a loop appending the matching records. -/
def filterByTeacher (volunteers : List Volunteer) (teacher : String) : List Volunteer :=
  volunteers.foldl
    (fun filtered v => if v.Teacher = teacher then filtered ++ [v] else filtered)
    []

/-! ## The pseudo-random generator and `Shuffle` -/

/-- A generator of `math/rand`: the stream of raw values it will produce and how many of them
have been consumed. -/
structure Rand where
  src : Nat → Nat
  pos : Nat

/-- A bounded draw (`r.int31n(n)` / `r.Int63n(n)`): a value below `n` and the advanced generator. -/
def Rand.intn (r : Rand) (n : Nat) : Nat × Rand :=
  (r.src r.pos % n, { r with pos := r.pos + 1 })

/-- The swap callback passed to `Shuffle`:
`candidates[i], candidates[j] = candidates[j], candidates[i]`. -/
def swap {α : Type} (l : List α) (i j : Nat) : List α :=
  match l[i]?, l[j]? with
  | some a, some b => (l.set i b).set j a
  | _, _ => l

/-- The loop of `(*Rand).Shuffle`: for `i` from `n - 1` down to `1`, draw `j` below `i + 1` and
swap positions `i` and `j`.  The first argument is the current `i`. -/
def shuffleLoop {α : Type} : Nat → Rand → List α → List α × Rand
  | 0, r, l => (l, r)
  | i + 1, r, l => shuffleLoop i (r.intn (i + 2)).2 (swap l (i + 1) (r.intn (i + 2)).1)

/-- The call `r.Shuffle(len(l), swap)` on the slice `l`. -/
def Rand.Shuffle {α : Type} (r : Rand) (l : List α) : List α × Rand :=
  shuffleLoop (l.length - 1) r l

/-! ## The maps of `assignVolunteers` -/

/-- The assignment table: event name, then teacher, then the ordered list of volunteers. -/
abbrev Table := String → String → List Volunteer

/-- The local maps of `assignVolunteers`. -/
structure Maps where
  assignments : Table
  usedForParty : String → Bool
  usedForFieldTrip : String → Bool
  usedForThisEvent : String → String → Bool
  usedAsAlternate : String → Bool
  usedAsAlternateTrip : String → Bool

/-- The maps as created at the top of `assignVolunteers`: all empty. -/
def Maps.empty : Maps where
  assignments := fun _ _ => []
  usedForParty := fun _ => false
  usedForFieldTrip := fun _ => false
  usedForThisEvent := fun _ _ => false
  usedAsAlternate := fun _ => false
  usedAsAlternateTrip := fun _ => false

/-- The primary deduplication map of a category: `usedForParty` or `usedForFieldTrip`. -/
def Maps.usedFor (m : Maps) : Category → String → Bool
  | .party => m.usedForParty
  | .fieldtrip => m.usedForFieldTrip

/-- The alternate deduplication map of a category: `usedAsAlternate` or `usedAsAlternateTrip`. -/
def Maps.usedAlt (m : Maps) : Category → String → Bool
  | .party => m.usedAsAlternate
  | .fieldtrip => m.usedAsAlternateTrip

/-- The statement `table[event][teacher] = append(table[event][teacher], v)`. -/
def appendTo (a : Table) (event teacher : String) (v : Volunteer) : Table :=
  fun e t => if e = event ∧ t = teacher then a e t ++ [v] else a e t

/-- The statement `set[name] = true`. -/
def mark (s : String → Bool) (name : String) : String → Bool :=
  fun k => if k = name then true else s k

/-- The two statements opening an event of a primary loop:
`assignments[event] = make(...)` and `usedForThisEvent[event] = make(...)`. -/
def Maps.resetEvent (m : Maps) (event : String) : Maps :=
  { m with
    assignments := fun e => if e = event then fun _ => [] else m.assignments e
    usedForThisEvent := fun e => if e = event then fun _ => false else m.usedForThisEvent e }

/-- The body of the `if` of a primary loop: append `v`, mark its name in the category map and in
the map of the event. -/
def Maps.addPrimary (ToLower : String → String) (m : Maps) (c : Category) (event teacher : String)
    (v : Volunteer) : Maps :=
  match c with
  | .party =>
    { m with
      assignments := appendTo m.assignments event teacher v
      usedForParty := mark m.usedForParty (nameKey ToLower v.Name)
      usedForThisEvent := fun e =>
        if e = event then mark (m.usedForThisEvent e) (nameKey ToLower v.Name)
        else m.usedForThisEvent e }
  | .fieldtrip =>
    { m with
      assignments := appendTo m.assignments event teacher v
      usedForFieldTrip := mark m.usedForFieldTrip (nameKey ToLower v.Name)
      usedForThisEvent := fun e =>
        if e = event then mark (m.usedForThisEvent e) (nameKey ToLower v.Name)
        else m.usedForThisEvent e }

/-- The body of the `if` of an alternate loop: set `v.Alternate`, append the copy, mark the name in
the alternate map of the category. -/
def Maps.addAlternate (ToLower : String → String) (m : Maps) (c : Category) (event teacher : String)
    (v : Volunteer) : Maps :=
  match c with
  | .party =>
    { m with
      assignments := appendTo m.assignments event teacher { v with Alternate := true }
      usedAsAlternate := mark m.usedAsAlternate (nameKey ToLower v.Name) }
  | .fieldtrip =>
    { m with
      assignments := appendTo m.assignments event teacher { v with Alternate := true }
      usedAsAlternateTrip := mark m.usedAsAlternateTrip (nameKey ToLower v.Name) }

/-! ## The loops of `assignVolunteers` -/

/-- The loop `for _, v := range teacherCandidates` of a primary pass, with the counter
`assigned` and the `break` on `assigned >= count`. -/
def primaryLoop (ToLower : String → String) (c : Category) (event : String) (count : Int)
    (teacher : String) :
    List Volunteer → Nat → Maps → Maps
  | [], _, m => m
  | v :: vs, assigned, m =>
    if (assigned : Int) ≥ count then m
    else if !m.usedFor c (nameKey ToLower v.Name) then
      primaryLoop ToLower c event count teacher vs (assigned + 1)
        (m.addPrimary ToLower c event teacher v)
    else primaryLoop ToLower c event count teacher vs assigned m

/-- The labelled loop `for _, v := range teacherCandidates` of an alternate pass for one value of
`unique`; it returns the counter `assigned` together with the maps. -/
def alternateLoop (ToLower : String → String) (c : Category) (event teacher : String)
    (unique : Bool) :
    List Volunteer → Nat → Maps → Nat × Maps
  | [], assigned, m => (assigned, m)
  | v :: vs, assigned, m =>
    if assigned ≥ 2 then (assigned, m)
    else if (!unique || !m.usedFor c (nameKey ToLower v.Name))
        && !m.usedForThisEvent event (nameKey ToLower v.Name)
        && !m.usedAlt c (nameKey ToLower v.Name) then
      alternateLoop ToLower c event teacher unique vs (assigned + 1)
        (m.addAlternate ToLower c event teacher v)
    else alternateLoop ToLower c event teacher unique vs assigned m

/-- The body of the teacher loop of an alternate pass: the loop with `unique = true`, and when it
ends with `assigned < 2` the `goto` back into the same loop with `unique = false`, the counter
being kept. -/
def alternateTeacher (ToLower : String → String) (c : Category) (event teacher : String)
    (teacherCandidates : List Volunteer)
    (m : Maps) : Maps :=
  let strict := alternateLoop ToLower c event teacher true teacherCandidates 0 m
  if strict.1 < 2 then
    (alternateLoop ToLower c event teacher false teacherCandidates strict.1 strict.2).2
  else strict.2

/-- An event as the loops see it: its name, its per-teacher count and the teachers iterated. -/
structure Event where
  name : String
  count : Int
  teachers : List String
  deriving DecidableEq, Repr

/-- The teacher list of a field trip: `allTeachers` when the configured list is the single entry
`ALL`, the configured list otherwise. -/
def tripTeachers (teachers allTeachers : List String) : List String :=
  if teachers.length = 1 ∧ teachers[0]? = some "ALL" then allTeachers else teachers

/-- The parties as events: every party iterates `allTeachers`. -/
def partyEvents (parties : List PartyConfig) (allTeachers : List String) : List Event :=
  parties.map fun party => ⟨party.Name, party.Count, allTeachers⟩

/-- The field trips as events, with their teacher lists resolved. -/
def tripEvents (fieldTrips : List FieldTripConfig) (allTeachers : List String) : List Event :=
  fieldTrips.map fun trip => ⟨trip.Name, trip.Count, tripTeachers trip.Teachers allTeachers⟩

/-- The body of an event loop of a primary pass: reset the two maps of the event, filter and
shuffle the candidates with `rnd`, then run the teacher loop. -/
def primaryEvent (ToLower : String → String) (c : Category) (volunteers : List Volunteer)
    (st : Maps × Rand) (ev : Event) :
    Maps × Rand :=
  let shuffled := st.2.Shuffle (filterVolunteersByEvent volunteers c.eventType ev.name)
  (ev.teachers.foldl
      (fun m teacher =>
        primaryLoop ToLower c ev.name ev.count teacher (filterByTeacher shuffled.1 teacher) 0 m)
      (st.1.resetEvent ev.name),
    shuffled.2)

/-- The body of an event loop of an alternate pass: filter and shuffle the candidates with
`rnd2`, then run the teacher loop. -/
def alternateEvent (ToLower : String → String) (c : Category) (volunteers : List Volunteer)
    (st : Maps × Rand) (ev : Event) :
    Maps × Rand :=
  let shuffled := st.2.Shuffle (filterVolunteersByEvent volunteers c.eventType ev.name)
  (ev.teachers.foldl
      (fun m teacher =>
        alternateTeacher ToLower c ev.name teacher (filterByTeacher shuffled.1 teacher) m)
      st.1,
    shuffled.2)

/-- The maps after the two primary passes: parties first, then field trips, both with `rnd`. -/
def primaryPasses (ToLower : String → String) (rnd : Rand) (volunteers : List Volunteer)
    (parties : List PartyConfig)
    (fieldTrips : List FieldTripConfig) (allTeachers : List String) : Maps × Rand :=
  (tripEvents fieldTrips allTeachers).foldl (primaryEvent ToLower .fieldtrip volunteers)
    ((partyEvents parties allTeachers).foldl (primaryEvent ToLower .party volunteers)
      (Maps.empty, rnd))

/-- The maps at the `return` of `assignVolunteers`: the primary passes, then the alternate pass
of the parties and the alternate pass of the field trips, both with `rnd2`. -/
def assignMaps (ToLower : String → String) (rnd rnd2 : Rand) (volunteers : List Volunteer)
    (parties : List PartyConfig)
    (fieldTrips : List FieldTripConfig) (allTeachers : List String) : Maps :=
  ((tripEvents fieldTrips allTeachers).foldl (alternateEvent ToLower .fieldtrip volunteers)
    ((partyEvents parties allTeachers).foldl (alternateEvent ToLower .party volunteers)
      ((primaryPasses ToLower rnd volunteers parties fieldTrips allTeachers).1, rnd2))).1

/-- The function `assignVolunteers` of `main.go`. -/
def assignVolunteers (ToLower : String → String) (rnd rnd2 : Rand) (volunteers : List Volunteer)
    (parties : List PartyConfig)
    (fieldTrips : List FieldTripConfig) (allTeachers : List String) : Table :=
  (assignMaps ToLower rnd rnd2 volunteers parties fieldTrips allTeachers).assignments

/-! ## Vocabulary of the statements -/

/-- A volunteer record is a candidate of `(event, teacher)` in a category. -/
def SignedUp (volunteers : List Volunteer) (c : Category) (event teacher : String)
    (v : Volunteer) : Prop :=
  v ∈ volunteers ∧ v.EventType = c.eventType ∧ v.EventName = event ∧ v.Teacher = teacher

/-- The events of a category, as iterated by the loops over `parties` and `fieldTrips`: the
parties, each with the teacher set `allTeachers`, or the field trips, each with its configured
teacher list (`allTeachers` when that list is the single entry `ALL`). -/
def events (c : Category) (parties : List PartyConfig) (fieldTrips : List FieldTripConfig)
    (allTeachers : List String) : List Event :=
  match c with
  | .party => partyEvents parties allTeachers
  | .fieldtrip => tripEvents fieldTrips allTeachers

/-- What holds of the maps throughout the two primary passes. -/
structure PrimInv (ToLower : String → String) (volunteers : List Volunteer)
    (parties : List PartyConfig)
    (fieldTrips : List FieldTripConfig) (allTeachers : List String) (m : Maps) : Prop where
  sound : ∀ E t e, e ∈ m.assignments E t →
    ∃ c ev, ev ∈ events c parties fieldTrips allTeachers ∧ ev.name = E ∧
      SignedUp volunteers c E t e
  usedEvent : ∀ E t e, e ∈ m.assignments E t →
    m.usedForThisEvent E (nameKey ToLower e.Name) = true
  usedEvent_witness : ∀ E k, m.usedForThisEvent E k = true →
    ∃ t e, e ∈ m.assignments E t ∧ nameKey ToLower e.Name = k
  used : ∀ (c : Category) E t e, e ∈ m.assignments E t → e.EventType = c.eventType →
    m.usedFor c (nameKey ToLower e.Name) = true
  uniq : ∀ (c : Category) E₁ t₁ E₂ t₂ e₁ e₂, ¬ (E₁ = E₂ ∧ t₁ = t₂) →
    e₁ ∈ m.assignments E₁ t₁ → e₂ ∈ m.assignments E₂ t₂ →
    e₁.EventType = c.eventType → e₂.EventType = c.eventType →
    nameKey ToLower e₁.Name ≠ nameKey ToLower e₂.Name
  noAlt : ∀ (c : Category) k, m.usedAlt c k = false

/-- What holds of the maps throughout the two alternate passes: `m₀` are the maps after the
primary passes, `B` is the table of the entries appended since. -/
structure AltInv (ToLower : String → String) (volunteers : List Volunteer)
    (parties : List PartyConfig)
    (fieldTrips : List FieldTripConfig) (allTeachers : List String) (m₀ m : Maps) (B : Table) :
    Prop where
  app : ∀ E t, m.assignments E t = m₀.assignments E t ++ B E t
  usedFor_eq : ∀ c, m.usedFor c = m₀.usedFor c
  usedEvent_eq : m.usedForThisEvent = m₀.usedForThisEvent
  sound : ∀ E t e, e ∈ B E t →
    ∃ c ev v, ev ∈ events c parties fieldTrips allTeachers ∧ ev.name = E ∧
      SignedUp volunteers c E t v ∧ e = { v with Alternate := true }
  notUsedEvent : ∀ E t e, e ∈ B E t → m₀.usedForThisEvent E (nameKey ToLower e.Name) = false
  usedAlt : ∀ (c : Category) E t e, e ∈ B E t → e.EventType = c.eventType →
    m.usedAlt c (nameKey ToLower e.Name) = true
  usedAlt_witness : ∀ (c : Category) k, m.usedAlt c k = true →
    ∃ E t e, e ∈ B E t ∧ e.EventType = c.eventType ∧ nameKey ToLower e.Name = k
  uniq : ∀ (c : Category) E₁ t₁ E₂ t₂ e₁ e₂, ¬ (E₁ = E₂ ∧ t₁ = t₂) →
    e₁ ∈ B E₁ t₁ → e₂ ∈ B E₂ t₂ →
    e₁.EventType = c.eventType → e₂.EventType = c.eventType →
    nameKey ToLower e₁.Name ≠ nameKey ToLower e₂.Name

/-- Event names are pairwise distinct across parties and field trips. -/
def DistinctEventNames (parties : List PartyConfig) (fieldTrips : List FieldTripConfig) : Prop :=
  (parties.map (fun p => p.Name) ++ fieldTrips.map (fun f => f.Name)).Nodup

/-- No field trip has the name of a party. -/
def NoSharedName (parties : List PartyConfig) (fieldTrips : List FieldTripConfig) : Prop :=
  ∀ p ∈ parties, ∀ f ∈ fieldTrips, p.Name ≠ f.Name

/-- Neither `allTeachers` nor the teacher list of a field trip repeats a teacher. -/
def NoRepeatedTeacher (fieldTrips : List FieldTripConfig) (allTeachers : List String) : Prop :=
  allTeachers.Nodup ∧ ∀ f ∈ fieldTrips, f.Teachers.Nodup

/-- The number of primary entries (`Alternate = false`) of a list. -/
def primaryCount (l : List Volunteer) : Nat :=
  l.countP (fun e => !e.Alternate)

/-- The number of alternate entries (`Alternate = true`) of a list. -/
def alternateCount (l : List Volunteer) : Nat :=
  l.countP (fun e => e.Alternate)

/-- A list is a block of at most `count` primary entries followed by a block of at most 2
alternate entries. -/
def BlockShape (l : List Volunteer) (count : Int) : Prop :=
  ∃ primaries alternates, l = primaries ++ alternates ∧
    (∀ e ∈ primaries, e.Alternate = false) ∧ (∀ e ∈ alternates, e.Alternate = true) ∧
    (primaries.length : Int) ≤ count ∧ alternates.length ≤ 2

/-- The generator whose raw values are all `0`: every draw of a shuffle is `0`. -/
def Rand.zero : Rand := ⟨fun _ => 0, 0⟩

/-- Claim C1 as stated: every list of a configured event holds at most `Count` primary
entries. -/
def PrimaryQuota (table : Table) (parties : List PartyConfig)
    (fieldTrips : List FieldTripConfig) : Prop :=
  (∀ p ∈ parties, ∀ T, (primaryCount (table p.Name T) : Int) ≤ p.Count) ∧
  (∀ f ∈ fieldTrips, ∀ T, (primaryCount (table f.Name T) : Int) ≤ f.Count)

/-- Claim C2 as stated: every list of a configured event holds at most 2 alternate entries. -/
def AlternateQuota (table : Table) (parties : List PartyConfig)
    (fieldTrips : List FieldTripConfig) : Prop :=
  (∀ p ∈ parties, ∀ T, alternateCount (table p.Name T) ≤ 2) ∧
  (∀ f ∈ fieldTrips, ∀ T, alternateCount (table f.Name T) ≤ 2)

/-- No normalized name is carried, with the given value of the `Alternate` flag, by entries of
the category `c` (records with the `EventType` of `c`) stored under two different event names. -/
def UniqueInCategory (ToLower : String → String) (flag : Bool) (c : Category) (table : Table) :
    Prop :=
  ∀ E₁ E₂, E₁ ≠ E₂ → ∀ T₁ T₂ e₁ e₂, e₁ ∈ table E₁ T₁ → e₂ ∈ table E₂ T₂ →
    e₁.EventType = c.eventType → e₂.EventType = c.eventType →
    e₁.Alternate = flag → e₂.Alternate = flag →
    nameKey ToLower e₁.Name ≠ nameKey ToLower e₂.Name

/-- The normalized name `k` is carried by a primary entry of the event named `E`. -/
def PrimaryIn (ToLower : String → String) (table : Table) (E k : String) : Prop :=
  ∃ T e, e ∈ table E T ∧ e.Alternate = false ∧ nameKey ToLower e.Name = k

/-- The normalized name `k` is carried by an alternate entry of the event named `E`. -/
def AlternateIn (ToLower : String → String) (table : Table) (E k : String) : Prop :=
  ∃ T e, e ∈ table E T ∧ e.Alternate = true ∧ nameKey ToLower e.Name = k

/-- The state of the alternate passes in which the list of `(E, t)` either holds 2 alternate
entries or every candidate of `(E, t)` is excluded by the map of the event or by the alternate
map of the category. -/
def AltFilled (ToLower : String → String) (volunteers : List Volunteer) (c : Category)
    (E t : String) (m : Maps) : Prop :=
  alternateCount (m.assignments E t) < 2 → ∀ v, SignedUp volunteers c E t v →
    m.usedForThisEvent E (nameKey ToLower v.Name) = true ∨
      m.usedAlt c (nameKey ToLower v.Name) = true

/-- Every name marked in a primary deduplication map is carried by a stored entry of that
category. -/
def UsedHasEntry (ToLower : String → String) (m : Maps) : Prop :=
  ∀ (c : Category) k, m.usedFor c k = true →
    ∃ E t e, e ∈ m.assignments E t ∧ e.EventType = c.eventType ∧ nameKey ToLower e.Name = k

/-- The state of the passes in which the list of `(E, t)` either holds `count` primary entries
or every candidate of `(E, t)` is marked in the primary map of the category. -/
def PrimFilled (ToLower : String → String) (volunteers : List Volunteer) (c : Category)
    (E t : String) (count : Int)
    (m : Maps) : Prop :=
  (primaryCount (m.assignments E t) : Int) < count → ∀ v, SignedUp volunteers c E t v →
    m.usedFor c (nameKey ToLower v.Name) = true

/-- The state of the alternate passes for the list of `(E, t)`: the names marked for the event
are marked in the primary map of the category, and if the list holds an alternate entry whose
name is marked in the primary map then every candidate of `(E, t)` not marked there is marked in
the alternate map. -/
def StrictFirst (ToLower : String → String) (volunteers : List Volunteer) (c : Category)
    (E t : String) (m : Maps) : Prop :=
  (∀ k, m.usedForThisEvent E k = true → m.usedFor c k = true) ∧
  ((∃ a ∈ m.assignments E t,
      a.Alternate = true ∧ m.usedFor c (nameKey ToLower a.Name) = true) →
    ∀ v, SignedUp volunteers c E t v → m.usedFor c (nameKey ToLower v.Name) = false →
      m.usedAlt c (nameKey ToLower v.Name) = true)

/-! ## The seeds of `main` -/

/-- The value of an `int64` computation: the mathematical result reduced to the range
`-2^63 .. 2^63 - 1` by two's-complement wrap-around. -/
def wrapInt64 (x : Int) : Int :=
  (x + 9223372036854775808) % 18446744073709551616 - 9223372036854775808

/-- The two seeds `main` passes to `rand.NewSource`: `*seed` for `rnd` and `*seed * 2` for
`rnd2`. -/
def mainSeeds (seed : Int) : Int × Int :=
  (seed, wrapInt64 (seed * 2))

/-! ## Vocabulary of the later statements -/

/-- Claim C11 as stated: every list of a party with `Count = 0` is empty. -/
def ZeroCountEmpty (table : Table) (parties : List PartyConfig) : Prop :=
  ∀ p ∈ parties, p.Count = 0 → ∀ T, table p.Name T = []

/-- Every stored entry sits under an event name and a teacher such that some configured event
of that name iterates that teacher. -/
def TeacherInv (parties : List PartyConfig) (fieldTrips : List FieldTripConfig)
    (allTeachers : List String) (m : Maps) : Prop :=
  ∀ E t e, e ∈ m.assignments E t →
    ∃ c ev, ev ∈ events c parties fieldTrips allTeachers ∧ ev.name = E ∧ t ∈ ev.teachers

/-- Two entries of the same `EventType` carry different normalized names. -/
def SameTypeDistinct (ToLower : String → String) (e₁ e₂ : Volunteer) : Prop :=
  e₁.EventType = e₂.EventType → nameKey ToLower e₁.Name ≠ nameKey ToLower e₂.Name

/-- In every list of the table, the entries of one `EventType` carry pairwise different
normalized names. -/
def RowsDistinct (ToLower : String → String) (a : Table) : Prop :=
  ∀ E t, (a E t).Pairwise (SameTypeDistinct ToLower)

/-- A record of scenario A: a party volunteer signed up for `Fall Fest` under `Smith`. -/
def SmithSignup (v : Volunteer) : Prop :=
  v.EventType = "party" ∧ v.EventName = "Fall Fest" ∧ v.Teacher = "Smith"

/-- Two generators that will deliver the same raw values. -/
def SameStream (r r' : Rand) : Prop :=
  ∀ i, r.src (r.pos + i) = r'.src (r'.pos + i)

/-- Two states of a pass with the same maps and generators delivering the same values. -/
def SameState (st st' : Maps × Rand) : Prop :=
  st.1 = st'.1 ∧ SameStream st.2 st'.2

/-- The part of the maps the party loops read and write, for the party names `names`: the lists
and the per-event maps under these names, and the two party deduplication maps. -/
def PartyView (names : List String) (m m' : Maps) : Prop :=
  (∀ E ∈ names, m.assignments E = m'.assignments E) ∧
  (∀ E ∈ names, m.usedForThisEvent E = m'.usedForThisEvent E) ∧
  m.usedForParty = m'.usedForParty ∧ m.usedAsAlternate = m'.usedAsAlternate

/-- Two states of a party pass: the same party view and the same generator. -/
def PartyState (names : List String) (st st' : Maps × Rand) : Prop :=
  PartyView names st.1 st'.1 ∧ st.2 = st'.2

/-! ## `FormatPhoneNumber` -/

/-- The UTF-8 encoding of one rune, as `strings.Builder.WriteRune` writes it: 1 to 4 bytes. -/
def utf8Char (c : Char) : List Nat :=
  if c.toNat < 128 then [c.toNat]
  else if c.toNat < 2048 then [192 + c.toNat / 64, 128 + c.toNat % 64]
  else if c.toNat < 65536 then
    [224 + c.toNat / 4096, 128 + c.toNat / 64 % 64, 128 + c.toNat % 64]
  else
    [240 + c.toNat / 262144, 128 + c.toNat / 4096 % 64, 128 + c.toNat / 64 % 64,
      128 + c.toNat % 64]

/-- The bytes of a Go string holding the given runes. -/
def utf8 : List Char → List Nat
  | [] => []
  | c :: cs => utf8Char c ++ utf8 cs

/-- The slice expression `s[lo:hi]` on the bytes of a string. -/
def byteSlice (s : List Nat) (lo hi : Nat) : List Nat :=
  (s.take hi).drop lo

/-- The function `FormatPhoneNumber` of `main.go`, on the runes of a valid UTF-8 input and
returning the bytes of the result.  The library predicate `unicode.IsDigit` is the parameter
`IsDigit`.  The loop writes the runes accepted by `IsDigit` to the builder, `len(phoneDigits)`
is the number of bytes written, and the three slices are byte slices.  The bytes 40, 41, 32 and
45 are the opening bracket, the closing bracket, the space and the hyphen of the format string
`(%s) %s-%s`. -/
def FormatPhoneNumber (IsDigit : Char → Bool) (input : List Char) : List Nat :=
  let phoneDigits := utf8 (input.filter IsDigit)
  if phoneDigits.length ≠ 10 then utf8 input
  else
    [40] ++ byteSlice phoneDigits 0 3 ++ [41, 32] ++ byteSlice phoneDigits 3 6 ++ [45] ++
      byteSlice phoneDigits 6 10

/-- The result Claim C18 describes: with exactly 10 digit characters `d1..d10` in the input the
string `(d1d2d3) d4d5d6-d7d8d9d10`, and otherwise the input. -/
def formatTenDigits (IsDigit : Char → Bool) (input : List Char) : List Nat :=
  match input.filter IsDigit with
  | [d1, d2, d3, d4, d5, d6, d7, d8, d9, d10] =>
    [40] ++ utf8 [d1, d2, d3] ++ [41, 32] ++ utf8 [d4, d5, d6] ++ [45] ++ utf8 [d7, d8, d9, d10]
  | _ => utf8 input

/-! ## `sanitizeSheetName` -/

/-- The call `strings.ReplaceAll(s, old, new)` on the bytes of `s` for a pattern `old` of one
byte, as in every call of `sanitizeSheetName`: each occurrence of the byte is replaced by the
bytes of `new`. -/
def ReplaceAll (s : List Nat) (old : Nat) (new : List Nat) : List Nat :=
  match s with
  | [] => []
  | b :: bs => (if b = old then new else [b]) ++ ReplaceAll bs old new

/-- The function `sanitizeSheetName` of `main.go` on the bytes of a string.  The bytes 47, 92,
63, 42, 91, 93 and 58 are the slash, the backslash, the question mark, the asterisk, the opening
and the closing square bracket and the colon; 45 is the hyphen.  `len(name)` is the number of
bytes and `name[:31]` a byte slice. -/
def sanitizeSheetName (name : List Nat) : List Nat :=
  let name := ReplaceAll name 47 [45]
  let name := ReplaceAll name 92 [45]
  let name := ReplaceAll name 63 []
  let name := ReplaceAll name 42 []
  let name := ReplaceAll name 91 []
  let name := ReplaceAll name 93 []
  let name := ReplaceAll name 58 []
  if name.length > 31 then byteSlice name 0 31 else name

/-! ## Filters and shuffle -/

theorem filterVolunteersByEvent_eq_filter (volunteers : List Volunteer)
    (eventType eventName : String) :
    filterVolunteersByEvent volunteers eventType eventName =
      volunteers.filter (fun v => decide (v.EventType = eventType ∧ v.EventName = eventName)) := by
  have h : ∀ (l acc : List Volunteer),
      l.foldl (fun filtered v =>
        if v.EventType = eventType ∧ v.EventName = eventName then filtered ++ [v] else filtered) acc
      = acc ++ l.filter (fun v => decide (v.EventType = eventType ∧ v.EventName = eventName)) := by
    intro l
    induction l with
    | nil => intro acc; simp
    | cons v vs ih =>
      intro acc
      by_cases hv : v.EventType = eventType ∧ v.EventName = eventName
      · simp [List.foldl_cons, ih, hv, List.filter_cons]
      · simp [List.foldl_cons, ih, hv, List.filter_cons]
  simpa [filterVolunteersByEvent] using h volunteers []

theorem filterByTeacher_eq_filter (volunteers : List Volunteer) (teacher : String) :
    filterByTeacher volunteers teacher = volunteers.filter (fun v => decide (v.Teacher = teacher)) := by
  have h : ∀ (l acc : List Volunteer),
      l.foldl (fun filtered v => if v.Teacher = teacher then filtered ++ [v] else filtered) acc
      = acc ++ l.filter (fun v => decide (v.Teacher = teacher)) := by
    intro l
    induction l with
    | nil => intro acc; simp
    | cons v vs ih =>
      intro acc
      by_cases hv : v.Teacher = teacher
      · simp [List.foldl_cons, ih, hv, List.filter_cons]
      · simp [List.foldl_cons, ih, hv, List.filter_cons]
  simpa [filterByTeacher] using h volunteers []

theorem set_cons_perm {α : Type} (x : α) :
    ∀ (l : List α) (j : Nat) (y : α), l[j]? = some y → (y :: l.set j x).Perm (x :: l)
  | [], j, y, h => by simp at h
  | z :: zs, 0, y, h => by
    simp at h
    subst h
    simpa using List.Perm.swap x z zs
  | z :: zs, j + 1, y, h => by
    simp at h
    have ih := set_cons_perm x zs j y h
    simp only [List.set_cons_succ]
    exact (List.Perm.swap z y _).trans (((List.Perm.cons z ih).trans (List.Perm.swap x z zs)))

theorem swap_perm {α : Type} : ∀ (l : List α) (i j : Nat), (swap l i j).Perm l
  | [], i, j => by simp [swap]
  | x :: xs, 0, 0 => by simp [swap]
  | x :: xs, 0, j + 1 => by
    unfold swap
    cases h : xs[j]? with
    | none => simp [h]
    | some b => simpa [h] using set_cons_perm x xs j b h
  | x :: xs, i + 1, 0 => by
    unfold swap
    cases h : xs[i]? with
    | none => simp [h]
    | some a => simpa [h] using set_cons_perm x xs i a h
  | x :: xs, i + 1, j + 1 => by
    have ih := swap_perm xs i j
    unfold swap at ih ⊢
    cases hi : xs[i]? with
    | none => simp [hi]
    | some a =>
      cases hj : xs[j]? with
      | none => simp [hi, hj]
      | some b =>
        simp only [hi, hj] at ih
        simpa [hi, hj] using ih

theorem shuffleLoop_perm {α : Type} : ∀ (i : Nat) (r : Rand) (l : List α), (shuffleLoop i r l).1.Perm l
  | 0, r, l => by simp [shuffleLoop]
  | i + 1, r, l => by
    rw [shuffleLoop]
    exact (shuffleLoop_perm i _ _).trans (swap_perm l _ _)

theorem Shuffle_perm {α : Type} (r : Rand) (l : List α) : (r.Shuffle l).1.Perm l :=
  shuffleLoop_perm _ r l

theorem mem_teacherCandidates (r : Rand) (volunteers : List Volunteer) (c : Category)
    (event teacher : String) (v : Volunteer) :
    v ∈ filterByTeacher (r.Shuffle (filterVolunteersByEvent volunteers c.eventType event)).1 teacher
      ↔ SignedUp volunteers c event teacher v := by
  rw [filterByTeacher_eq_filter, List.mem_filter, (Shuffle_perm r _).mem_iff,
    filterVolunteersByEvent_eq_filter, List.mem_filter]
  simp [SignedUp, and_assoc]

/-! ## Reading the maps after one statement -/

theorem mem_appendTo {a : Table} {event teacher : String} {v x : Volunteer} {e t : String} :
    x ∈ appendTo a event teacher v e t ↔ x ∈ a e t ∨ (e = event ∧ t = teacher ∧ x = v) := by
  unfold appendTo
  split_ifs with h
  · simp [h]
  · simp only [iff_self_or]
    rintro ⟨h1, h2, -⟩
    exact absurd ⟨h1, h2⟩ h

theorem appendTo_of_ne {a : Table} {event teacher : String} {v : Volunteer} {e t : String}
    (h : ¬ (e = event ∧ t = teacher)) : appendTo a event teacher v e t = a e t := by
  simp [appendTo, h]

theorem appendTo_same {a : Table} {event teacher : String} {v : Volunteer} :
    appendTo a event teacher v event teacher = a event teacher ++ [v] := by
  simp [appendTo]

theorem mark_eq_true {s : String → Bool} {name k : String} :
    mark s name k = true ↔ k = name ∨ s k = true := by
  unfold mark
  split_ifs with h <;> simp [h]

theorem mark_eq_false {s : String → Bool} {name k : String} :
    mark s name k = false ↔ k ≠ name ∧ s k = false := by
  unfold mark
  split_ifs with h <;> simp [h]

@[simp] theorem addPrimary_assignments {ToLower : String → String} (m : Maps) (c : Category) (event teacher : String)
    (v : Volunteer) :
    (m.addPrimary ToLower c event teacher v).assignments = appendTo m.assignments event teacher v := by
  cases c <;> rfl

@[simp] theorem addPrimary_usedFor_same {ToLower : String → String} (m : Maps) (c : Category) (event teacher : String)
    (v : Volunteer) :
    (m.addPrimary ToLower c event teacher v).usedFor c = mark (m.usedFor c) (nameKey ToLower v.Name) := by
  cases c <;> rfl

theorem addPrimary_usedFor_of_ne {ToLower : String → String} (m : Maps) {c c' : Category}
    (h : c' ≠ c)
    (event teacher : String) (v : Volunteer) :
    (m.addPrimary ToLower c event teacher v).usedFor c' = m.usedFor c' := by
  cases c <;> cases c' <;> first | rfl | exact absurd rfl h

@[simp] theorem addPrimary_usedAlt {ToLower : String → String} (m : Maps) (c c' : Category) (event teacher : String)
    (v : Volunteer) : (m.addPrimary ToLower c event teacher v).usedAlt c' = m.usedAlt c' := by
  cases c <;> cases c' <;> rfl

@[simp] theorem addPrimary_usedForThisEvent {ToLower : String → String} (m : Maps) (c : Category) (event teacher : String)
    (v : Volunteer) (e : String) :
    (m.addPrimary ToLower c event teacher v).usedForThisEvent e =
      if e = event then mark (m.usedForThisEvent e) (nameKey ToLower v.Name) else m.usedForThisEvent e := by
  cases c <;> rfl

@[simp] theorem addAlternate_assignments {ToLower : String → String} (m : Maps) (c : Category) (event teacher : String)
    (v : Volunteer) :
    (m.addAlternate ToLower c event teacher v).assignments =
      appendTo m.assignments event teacher { v with Alternate := true } := by
  cases c <;> rfl

@[simp] theorem addAlternate_usedFor {ToLower : String → String} (m : Maps) (c c' : Category) (event teacher : String)
    (v : Volunteer) : (m.addAlternate ToLower c event teacher v).usedFor c' = m.usedFor c' := by
  cases c <;> cases c' <;> rfl

@[simp] theorem addAlternate_usedAlt_same {ToLower : String → String} (m : Maps) (c : Category) (event teacher : String)
    (v : Volunteer) :
    (m.addAlternate ToLower c event teacher v).usedAlt c = mark (m.usedAlt c) (nameKey ToLower v.Name) := by
  cases c <;> rfl

theorem addAlternate_usedAlt_of_ne {ToLower : String → String} (m : Maps) {c c' : Category}
    (h : c' ≠ c)
    (event teacher : String) (v : Volunteer) :
    (m.addAlternate ToLower c event teacher v).usedAlt c' = m.usedAlt c' := by
  cases c <;> cases c' <;> first | rfl | exact absurd rfl h

@[simp] theorem addAlternate_usedForThisEvent {ToLower : String → String} (m : Maps) (c : Category) (event teacher : String)
    (v : Volunteer) :
    (m.addAlternate ToLower c event teacher v).usedForThisEvent = m.usedForThisEvent := by
  cases c <;> rfl

@[simp] theorem resetEvent_assignments (m : Maps) (event e : String) :
    (m.resetEvent event).assignments e = if e = event then fun _ => [] else m.assignments e := rfl

@[simp] theorem resetEvent_usedForThisEvent (m : Maps) (event e : String) :
    (m.resetEvent event).usedForThisEvent e =
      if e = event then fun _ => false else m.usedForThisEvent e := rfl

@[simp] theorem resetEvent_usedFor (m : Maps) (event : String) (c : Category) :
    (m.resetEvent event).usedFor c = m.usedFor c := by
  cases c <;> rfl

@[simp] theorem resetEvent_usedAlt (m : Maps) (event : String) (c : Category) :
    (m.resetEvent event).usedAlt c = m.usedAlt c := by
  cases c <;> rfl

@[simp] theorem empty_assignments (e t : String) : Maps.empty.assignments e t = [] := rfl

@[simp] theorem empty_usedFor (c : Category) (k : String) : Maps.empty.usedFor c k = false := by
  cases c <;> rfl

@[simp] theorem empty_usedAlt (c : Category) (k : String) : Maps.empty.usedAlt c k = false := by
  cases c <;> rfl

@[simp] theorem empty_usedForThisEvent (e k : String) :
    Maps.empty.usedForThisEvent e k = false := rfl

/-! ## Loop rules -/

theorem foldl_inv {σ α : Type} (f : σ → α → σ) (P : σ → Prop) :
    ∀ (l : List α), (∀ s a, a ∈ l → P s → P (f s a)) → ∀ s, P s → P (l.foldl f s)
  | [], _, _, hs => hs
  | a :: l, h, s, hs =>
    foldl_inv f P l (fun s b hb => h s b (List.mem_cons_of_mem _ hb)) (f s a)
      (h s a (List.mem_cons_self _ _) hs)

theorem foldl_establish {σ α : Type} (f : σ → α → σ) (Q : σ → Prop) (a : α)
    (est : ∀ s, Q (f s a)) :
    ∀ (l : List α), a ∈ l → (∀ s b, b ∈ l → b ≠ a → Q s → Q (f s b)) → ∀ s, Q (l.foldl f s)
  | [], ha, _, _ => by simp at ha
  | b :: l, ha, pres, s => by
    have step : ∀ s x, x ∈ b :: l → Q s → Q (f s x) := by
      intro s x hx hs
      by_cases hxa : x = a
      · subst hxa; exact est s
      · exact pres s x hx hxa hs
    rcases List.mem_cons.1 ha with rfl | hal
    · exact foldl_inv f Q l (fun s x hx => step s x (List.mem_cons_of_mem _ hx)) _ (est s)
    · exact foldl_establish f Q a est l hal
        (fun s x hx => pres s x (List.mem_cons_of_mem _ hx)) _

theorem primaryLoop_inv {ToLower : String → String} (P : Maps → Prop) (c : Category)
    (event : String) (count : Int)
    (teacher : String) :
    ∀ (cands : List Volunteer),
      (∀ m v, v ∈ cands → m.usedFor c (nameKey ToLower v.Name) = false → P m →
        P (m.addPrimary ToLower c event teacher v)) →
      ∀ assigned m, P m → P (primaryLoop ToLower c event count teacher cands assigned m)
  | [], _, _, _, hm => hm
  | v :: vs, hadd, assigned, m, hm => by
    have ih := primaryLoop_inv P c event count teacher vs
      (fun m x hx => hadd m x (List.mem_cons_of_mem _ hx))
    rw [primaryLoop]
    split_ifs with h1 h2
    · exact hm
    · exact ih _ _ (hadd m v (List.mem_cons_self _ _) (by simpa using h2) hm)
    · exact ih _ _ hm

theorem alternateLoop_inv {ToLower : String → String} (P : Maps → Prop) (c : Category)
    (event teacher : String)
    (unique : Bool) :
    ∀ (cands : List Volunteer),
      (∀ m v, v ∈ cands → m.usedForThisEvent event (nameKey ToLower v.Name) = false →
        m.usedAlt c (nameKey ToLower v.Name) = false → P m → P (m.addAlternate ToLower c event teacher v)) →
      ∀ assigned m, P m → P (alternateLoop ToLower c event teacher unique cands assigned m).2
  | [], _, _, _, hm => hm
  | v :: vs, hadd, assigned, m, hm => by
    have ih := alternateLoop_inv P c event teacher unique vs
      (fun m x hx => hadd m x (List.mem_cons_of_mem _ hx))
    rw [alternateLoop]
    split_ifs with h1 h2
    · exact hm
    · simp only [Bool.and_eq_true, Bool.not_eq_true'] at h2
      exact ih _ _ (hadd m v (List.mem_cons_self _ _) h2.1.2 h2.2 hm)
    · exact ih _ _ hm

theorem alternateTeacher_inv {ToLower : String → String} (P : Maps → Prop) (c : Category)
    (event teacher : String)
    (cands : List Volunteer)
    (hadd : ∀ m v, v ∈ cands → m.usedForThisEvent event (nameKey ToLower v.Name) = false →
        m.usedAlt c (nameKey ToLower v.Name) = false → P m → P (m.addAlternate ToLower c event teacher v))
    (m : Maps) (hm : P m) : P (alternateTeacher ToLower c event teacher cands m) := by
  unfold alternateTeacher
  have h1 := alternateLoop_inv P c event teacher true cands hadd 0 m hm
  dsimp only
  split_ifs
  · exact alternateLoop_inv P c event teacher false cands hadd _ _ h1
  · exact h1

theorem primaryEvent_inv {ToLower : String → String} (P : Maps → Prop) (c : Category)
    (volunteers : List Volunteer)
    (ev : Event)
    (hreset : ∀ m, P m → P (m.resetEvent ev.name))
    (hadd : ∀ m t v, t ∈ ev.teachers → SignedUp volunteers c ev.name t v →
      m.usedFor c (nameKey ToLower v.Name) = false → P m → P (m.addPrimary ToLower c ev.name t v))
    (st : Maps × Rand) (hst : P st.1) : P (primaryEvent ToLower c volunteers st ev).1 := by
  unfold primaryEvent
  apply foldl_inv _ P
  · intro m t ht hm
    exact primaryLoop_inv P c ev.name ev.count t _
      (fun m v hv => hadd m t v ht ((mem_teacherCandidates _ _ _ _ _ _).1 hv)) 0 m hm
  · exact hreset _ hst

theorem alternateEvent_inv {ToLower : String → String} (P : Maps → Prop) (c : Category)
    (volunteers : List Volunteer)
    (ev : Event)
    (hadd : ∀ m t v, t ∈ ev.teachers → SignedUp volunteers c ev.name t v →
      m.usedForThisEvent ev.name (nameKey ToLower v.Name) = false →
      m.usedAlt c (nameKey ToLower v.Name) = false → P m → P (m.addAlternate ToLower c ev.name t v))
    (st : Maps × Rand) (hst : P st.1) : P (alternateEvent ToLower c volunteers st ev).1 := by
  unfold alternateEvent
  apply foldl_inv _ P
  · intro m t ht hm
    exact alternateTeacher_inv P c ev.name t _
      (fun m v hv => hadd m t v ht ((mem_teacherCandidates _ _ _ _ _ _).1 hv)) m hm
  · exact hst

theorem primaryPass_inv {ToLower : String → String} (P : Maps → Prop) (c : Category)
    (volunteers : List Volunteer)
    (evs : List Event)
    (hreset : ∀ m ev, ev ∈ evs → P m → P (m.resetEvent ev.name))
    (hadd : ∀ m ev t v, ev ∈ evs → t ∈ ev.teachers → SignedUp volunteers c ev.name t v →
      m.usedFor c (nameKey ToLower v.Name) = false → P m → P (m.addPrimary ToLower c ev.name t v))
    (st : Maps × Rand) (hst : P st.1) : P (evs.foldl (primaryEvent ToLower c volunteers) st).1 :=
  foldl_inv _ (fun st => P st.1) evs
    (fun st ev hev h => primaryEvent_inv P c volunteers ev (fun m => hreset m ev hev)
      (fun m t v => hadd m ev t v hev) st h) st hst

theorem alternatePass_inv {ToLower : String → String} (P : Maps → Prop) (c : Category)
    (volunteers : List Volunteer)
    (evs : List Event)
    (hadd : ∀ m ev t v, ev ∈ evs → t ∈ ev.teachers → SignedUp volunteers c ev.name t v →
      m.usedForThisEvent ev.name (nameKey ToLower v.Name) = false →
      m.usedAlt c (nameKey ToLower v.Name) = false → P m → P (m.addAlternate ToLower c ev.name t v))
    (st : Maps × Rand) (hst : P st.1) : P (evs.foldl (alternateEvent ToLower c volunteers) st).1 :=
  foldl_inv _ (fun st => P st.1) evs
    (fun st ev hev h => alternateEvent_inv P c volunteers ev
      (fun m t v => hadd m ev t v hev) st h) st hst

/-! ## Invariants of the two phases -/

theorem eventType_injective {c c' : Category} (h : c.eventType = c'.eventType) : c = c' := by
  cases c <;> cases c' <;> first | rfl | (exact absurd h (by decide))

theorem PrimInv.empty {ToLower : String → String} (volunteers : List Volunteer)
    (parties : List PartyConfig)
    (fieldTrips : List FieldTripConfig) (allTeachers : List String) :
    PrimInv ToLower volunteers parties fieldTrips allTeachers Maps.empty where
  sound := by intro E t e h; simp at h
  usedEvent := by intro E t e h; simp at h
  usedEvent_witness := by intro E k h; simp at h
  used := by intro c E t e h; simp at h
  uniq := by intro c E₁ t₁ E₂ t₂ e₁ e₂ _ h; simp at h
  noAlt := by intro c k; simp

theorem PrimInv.afterReset {ToLower : String → String} {volunteers : List Volunteer}
    {parties : List PartyConfig}
    {fieldTrips : List FieldTripConfig} {allTeachers : List String} {m : Maps}
    (h : PrimInv ToLower volunteers parties fieldTrips allTeachers m) (event : String) :
    PrimInv ToLower volunteers parties fieldTrips allTeachers (m.resetEvent event) where
  sound := by
    intro E t e he
    by_cases hE : E = event
    · simp [hE] at he
    · simp only [resetEvent_assignments, hE, if_false] at he
      exact h.sound E t e he
  usedEvent := by
    intro E t e he
    by_cases hE : E = event
    · simp [hE] at he
    · simp only [resetEvent_assignments, hE, if_false] at he
      simpa [hE] using h.usedEvent E t e he
  usedEvent_witness := by
    intro E k hk
    by_cases hE : E = event
    · simp [hE] at hk
    · simp only [resetEvent_usedForThisEvent, hE, if_false] at hk
      obtain ⟨t, e, he, hke⟩ := h.usedEvent_witness E k hk
      exact ⟨t, e, by simpa [hE] using he, hke⟩
  used := by
    intro c E t e he hty
    by_cases hE : E = event
    · simp [hE] at he
    · simp only [resetEvent_assignments, hE, if_false] at he
      simpa using h.used c E t e he hty
  uniq := by
    intro c E₁ t₁ E₂ t₂ e₁ e₂ hne h₁ h₂
    by_cases hE₁ : E₁ = event
    · simp [hE₁] at h₁
    by_cases hE₂ : E₂ = event
    · simp [hE₂] at h₂
    simp only [resetEvent_assignments, hE₁, hE₂, if_false] at h₁ h₂
    exact h.uniq c E₁ t₁ E₂ t₂ e₁ e₂ hne h₁ h₂
  noAlt := by intro c k; simpa using h.noAlt c k

theorem PrimInv.afterPrimary {ToLower : String → String} {volunteers : List Volunteer}
    {parties : List PartyConfig}
    {fieldTrips : List FieldTripConfig} {allTeachers : List String} {m : Maps}
    (h : PrimInv ToLower volunteers parties fieldTrips allTeachers m) {c : Category} {ev : Event}
    {t : String} {v : Volunteer} (hev : ev ∈ events c parties fieldTrips allTeachers)
    (hv : SignedUp volunteers c ev.name t v) (hfresh : m.usedFor c (nameKey ToLower v.Name) = false) :
    PrimInv ToLower volunteers parties fieldTrips allTeachers (m.addPrimary ToLower c ev.name t v) where
  sound := by
    intro E t' e he
    rw [addPrimary_assignments, mem_appendTo] at he
    rcases he with he | ⟨rfl, rfl, rfl⟩
    · exact h.sound E t' e he
    · exact ⟨c, ev, hev, rfl, hv⟩
  usedEvent := by
    intro E t' e he
    rw [addPrimary_assignments, mem_appendTo] at he
    rw [addPrimary_usedForThisEvent]
    rcases he with he | ⟨rfl, rfl, rfl⟩
    · split_ifs
      · exact mark_eq_true.2 (Or.inr (h.usedEvent E t' e he))
      · exact h.usedEvent E t' e he
    · simp [mark_eq_true]
  usedEvent_witness := by
    intro E k hk
    rw [addPrimary_usedForThisEvent] at hk
    have old : m.usedForThisEvent E k = true →
        ∃ t' e, e ∈ (m.addPrimary ToLower c ev.name t v).assignments E t' ∧ nameKey ToLower e.Name = k := by
      intro hk'
      obtain ⟨t', e, he, hke⟩ := h.usedEvent_witness E k hk'
      exact ⟨t', e, by rw [addPrimary_assignments, mem_appendTo]; exact Or.inl he, hke⟩
    split_ifs at hk with hE
    · rcases mark_eq_true.1 hk with rfl | hk'
      · exact ⟨t, v, by rw [addPrimary_assignments, mem_appendTo]; exact Or.inr ⟨hE, rfl, rfl⟩, rfl⟩
      · exact old hk'
    · exact old hk
  used := by
    intro c' E t' e he hty
    rw [addPrimary_assignments, mem_appendTo] at he
    by_cases hc : c' = c
    · subst hc
      rw [addPrimary_usedFor_same, mark_eq_true]
      rcases he with he | ⟨-, -, rfl⟩
      · exact Or.inr (h.used c' E t' e he hty)
      · exact Or.inl rfl
    · rw [addPrimary_usedFor_of_ne m hc]
      rcases he with he | ⟨-, -, rfl⟩
      · exact h.used c' E t' e he hty
      · exact absurd (eventType_injective (hty.symm.trans hv.2.1)) hc
  uniq := by
    intro c' E₁ t₁ E₂ t₂ e₁ e₂ hne h₁ h₂ hty₁ hty₂
    rw [addPrimary_assignments, mem_appendTo] at h₁ h₂
    rcases h₁ with h₁ | ⟨rfl, rfl, rfl⟩ <;> rcases h₂ with h₂ | ⟨rfl, rfl, rfl⟩
    · exact h.uniq c' E₁ t₁ E₂ t₂ e₁ e₂ hne h₁ h₂ hty₁ hty₂
    · have hc : c' = c := eventType_injective (hty₂.symm.trans hv.2.1)
      subst hc
      intro hk
      have := h.used c' E₁ t₁ e₁ h₁ hty₁
      rw [hk, hfresh] at this
      exact absurd this (by decide)
    · have hc : c' = c := eventType_injective (hty₁.symm.trans hv.2.1)
      subst hc
      intro hk
      have := h.used c' E₂ t₂ e₂ h₂ hty₂
      rw [← hk, hfresh] at this
      exact absurd this (by decide)
    · exact absurd ⟨rfl, rfl⟩ hne
  noAlt := by intro c' k; simpa using h.noAlt c' k

theorem primaryPasses_inv (ToLower : String → String) (P : Maps → Prop) (rnd : Rand)
    (volunteers : List Volunteer)
    (parties : List PartyConfig) (fieldTrips : List FieldTripConfig) (allTeachers : List String)
    (h0 : P Maps.empty)
    (hreset : ∀ m c ev, ev ∈ events c parties fieldTrips allTeachers → P m →
      P (m.resetEvent ev.name))
    (hadd : ∀ m c ev t v, ev ∈ events c parties fieldTrips allTeachers → t ∈ ev.teachers →
      SignedUp volunteers c ev.name t v → m.usedFor c (nameKey ToLower v.Name) = false → P m →
      P (m.addPrimary ToLower c ev.name t v)) :
    P (primaryPasses ToLower rnd volunteers parties fieldTrips allTeachers).1 := by
  unfold primaryPasses
  apply primaryPass_inv P .fieldtrip volunteers _ (fun m ev => hreset m .fieldtrip ev)
    (fun m ev t v => hadd m .fieldtrip ev t v)
  exact primaryPass_inv P .party volunteers _ (fun m ev => hreset m .party ev)
    (fun m ev t v => hadd m .party ev t v) _ h0

theorem alternatePasses_inv (ToLower : String → String) (P : Maps → Prop) (rnd rnd2 : Rand)
    (volunteers : List Volunteer)
    (parties : List PartyConfig) (fieldTrips : List FieldTripConfig) (allTeachers : List String)
    (hadd : ∀ m c ev t v, ev ∈ events c parties fieldTrips allTeachers → t ∈ ev.teachers →
      SignedUp volunteers c ev.name t v → m.usedForThisEvent ev.name (nameKey ToLower v.Name) = false →
      m.usedAlt c (nameKey ToLower v.Name) = false → P m → P (m.addAlternate ToLower c ev.name t v))
    (h : P (primaryPasses ToLower rnd volunteers parties fieldTrips allTeachers).1) :
    P (assignMaps ToLower rnd rnd2 volunteers parties fieldTrips allTeachers) := by
  unfold assignMaps
  apply alternatePass_inv P .fieldtrip volunteers _ (fun m ev t v => hadd m .fieldtrip ev t v)
  exact alternatePass_inv P .party volunteers _ (fun m ev t v => hadd m .party ev t v) _ h

theorem primInv_primaryPasses (ToLower : String → String) (rnd : Rand) (volunteers : List Volunteer)
    (parties : List PartyConfig) (fieldTrips : List FieldTripConfig) (allTeachers : List String) :
    PrimInv ToLower volunteers parties fieldTrips allTeachers
      (primaryPasses ToLower rnd volunteers parties fieldTrips allTeachers).1 :=
  primaryPasses_inv ToLower _ rnd volunteers parties fieldTrips allTeachers (PrimInv.empty _ _ _ _)
    (fun _ _ ev _ h => h.afterReset ev.name)
    (fun _ _ _ _ _ hev _ hv hfresh h => h.afterPrimary hev hv hfresh)

theorem AltInv.start {ToLower : String → String} {volunteers : List Volunteer}
    {parties : List PartyConfig}
    {fieldTrips : List FieldTripConfig} {allTeachers : List String} {m₀ : Maps}
    (h : ∀ (c : Category) k, m₀.usedAlt c k = false) :
    AltInv ToLower volunteers parties fieldTrips allTeachers m₀ m₀ (fun _ _ => []) where
  app := by intro E t; simp
  usedFor_eq := fun _ => rfl
  usedEvent_eq := rfl
  sound := by intro E t e he; simp at he
  notUsedEvent := by intro E t e he; simp at he
  usedAlt := by intro c E t e he; simp at he
  usedAlt_witness := by intro c k hk; rw [h c k] at hk; exact absurd hk (by decide)
  uniq := by intro c E₁ t₁ E₂ t₂ e₁ e₂ _ he; simp at he

theorem AltInv.afterAlternate {ToLower : String → String} {volunteers : List Volunteer}
    {parties : List PartyConfig}
    {fieldTrips : List FieldTripConfig} {allTeachers : List String} {m₀ m : Maps} {B : Table}
    (h : AltInv ToLower volunteers parties fieldTrips allTeachers m₀ m B) {c : Category} {ev : Event}
    {t : String} {v : Volunteer} (hev : ev ∈ events c parties fieldTrips allTeachers)
    (hv : SignedUp volunteers c ev.name t v)
    (hevent : m.usedForThisEvent ev.name (nameKey ToLower v.Name) = false)
    (hfresh : m.usedAlt c (nameKey ToLower v.Name) = false) :
    AltInv ToLower volunteers parties fieldTrips allTeachers m₀ (m.addAlternate ToLower c ev.name t v)
      (appendTo B ev.name t { v with Alternate := true }) where
  app := by
    intro E t'
    rw [addAlternate_assignments]
    unfold appendTo
    split_ifs <;> simp [h.app]
  usedFor_eq := by intro c'; rw [addAlternate_usedFor]; exact h.usedFor_eq c'
  usedEvent_eq := by rw [addAlternate_usedForThisEvent]; exact h.usedEvent_eq
  sound := by
    intro E t' e he
    rcases mem_appendTo.1 he with he | ⟨rfl, rfl, rfl⟩
    · exact h.sound E t' e he
    · exact ⟨c, ev, v, hev, rfl, hv, rfl⟩
  notUsedEvent := by
    intro E t' e he
    rcases mem_appendTo.1 he with he | ⟨rfl, rfl, rfl⟩
    · exact h.notUsedEvent E t' e he
    · rw [← h.usedEvent_eq]; exact hevent
  usedAlt := by
    intro c' E t' e he hty
    by_cases hc : c' = c
    · subst hc
      rw [addAlternate_usedAlt_same, mark_eq_true]
      rcases mem_appendTo.1 he with he | ⟨-, -, rfl⟩
      · exact Or.inr (h.usedAlt c' E t' e he hty)
      · exact Or.inl rfl
    · rw [addAlternate_usedAlt_of_ne m hc]
      rcases mem_appendTo.1 he with he | ⟨-, -, rfl⟩
      · exact h.usedAlt c' E t' e he hty
      · exact absurd (eventType_injective (hty.symm.trans hv.2.1)) hc
  usedAlt_witness := by
    intro c' k hk
    have old : m.usedAlt c' k = true →
        ∃ E t' e, e ∈ appendTo B ev.name t { v with Alternate := true } E t' ∧
          e.EventType = c'.eventType ∧ nameKey ToLower e.Name = k := by
      intro hk'
      obtain ⟨E, t', e, he, hty, hke⟩ := h.usedAlt_witness c' k hk'
      exact ⟨E, t', e, mem_appendTo.2 (Or.inl he), hty, hke⟩
    by_cases hc : c' = c
    · subst hc
      rw [addAlternate_usedAlt_same, mark_eq_true] at hk
      rcases hk with rfl | hk
      · exact ⟨ev.name, t, _, mem_appendTo.2 (Or.inr ⟨rfl, rfl, rfl⟩), hv.2.1, rfl⟩
      · exact old hk
    · rw [addAlternate_usedAlt_of_ne m hc] at hk
      exact old hk
  uniq := by
    intro c' E₁ t₁ E₂ t₂ e₁ e₂ hne h₁ h₂ hty₁ hty₂
    replace h₁ := mem_appendTo.1 h₁
    replace h₂ := mem_appendTo.1 h₂
    rcases h₁ with h₁ | ⟨rfl, rfl, rfl⟩ <;> rcases h₂ with h₂ | ⟨rfl, rfl, rfl⟩
    · exact h.uniq c' E₁ t₁ E₂ t₂ e₁ e₂ hne h₁ h₂ hty₁ hty₂
    · have hc : c' = c := eventType_injective (hty₂.symm.trans hv.2.1)
      subst hc
      intro hk
      have := h.usedAlt c' E₁ t₁ e₁ h₁ hty₁
      rw [hk] at this
      exact absurd (this.symm.trans hfresh) (by decide)
    · have hc : c' = c := eventType_injective (hty₁.symm.trans hv.2.1)
      subst hc
      intro hk
      have := h.usedAlt c' E₂ t₂ e₂ h₂ hty₂
      rw [← hk] at this
      exact absurd (this.symm.trans hfresh) (by decide)
    · exact absurd ⟨rfl, rfl⟩ hne

theorem altInv_assignMaps (ToLower : String → String) (rnd rnd2 : Rand)
    (volunteers : List Volunteer)
    (parties : List PartyConfig) (fieldTrips : List FieldTripConfig) (allTeachers : List String) :
    ∃ B, AltInv ToLower volunteers parties fieldTrips allTeachers
      (primaryPasses ToLower rnd volunteers parties fieldTrips allTeachers).1
      (assignMaps ToLower rnd rnd2 volunteers parties fieldTrips allTeachers) B :=
  alternatePasses_inv ToLower
    (fun m => ∃ B, AltInv ToLower volunteers parties fieldTrips allTeachers
      (primaryPasses ToLower rnd volunteers parties fieldTrips allTeachers).1 m B)
    rnd rnd2 volunteers parties fieldTrips allTeachers
    (fun _ _ _ _ _ hev _ hv hevent hfresh ⟨_, h⟩ => ⟨_, h.afterAlternate hev hv hevent hfresh⟩)
    ⟨_, AltInv.start (primInv_primaryPasses ToLower rnd volunteers parties fieldTrips allTeachers).noAlt⟩

/-! ## Counting -/

/-- Folding steps that each change one keyed counter by at most `bound`, over a list whose keys
are pairwise distinct, changes every counter by at most `bound`. -/
theorem foldl_size_le {σ α κ : Type} (f : σ → α → σ) (key : α → κ) (size : κ → σ → Nat)
    (bound : Nat) (hframe : ∀ s a k, k ≠ key a → size k (f s a) = size k s) :
    ∀ (l : List α), (∀ s a, a ∈ l → size (key a) (f s a) ≤ size (key a) s + bound) →
      (l.map key).Nodup → ∀ s k,
      size k (l.foldl f s) ≤ size k s + bound ∧
        (k ∉ l.map key → size k (l.foldl f s) = size k s)
  | [], _, _, s, k => by simp
  | a :: l, hstep, hnd, s, k => by
    rw [List.map_cons, List.nodup_cons] at hnd
    have ih := foldl_size_le f key size bound hframe l
      (fun s b hb => hstep s b (List.mem_cons_of_mem _ hb)) hnd.2 (f s a) k
    rw [List.foldl_cons]
    constructor
    · by_cases hk : k = key a
      · subst hk
        rw [ih.2 hnd.1]
        exact hstep s a (List.mem_cons_self _ _)
      · have := hframe s a k hk
        omega
    · intro hk
      rw [List.map_cons, List.mem_cons, not_or] at hk
      rw [ih.2 hk.2, hframe s a k hk.1]

theorem primaryLoop_frame {ToLower : String → String} (c : Category) (event : String) (count : Int)
    (teacher : String)
    (cands : List Volunteer) (assigned : Nat) (m : Maps) {E t : String}
    (h : ¬ (E = event ∧ t = teacher)) :
    (primaryLoop ToLower c event count teacher cands assigned m).assignments E t = m.assignments E t :=
  primaryLoop_inv (fun m' => m'.assignments E t = m.assignments E t) c event count teacher cands
    (fun m' v _ _ hm' => by
      dsimp only at hm' ⊢
      rw [addPrimary_assignments, appendTo_of_ne h]; exact hm')
    assigned m rfl

theorem primaryLoop_length (ToLower : String → String) (c : Category) (event : String) (count : Int)
    (teacher : String) :
    ∀ (cands : List Volunteer) (assigned : Nat) (m : Maps),
      ((primaryLoop ToLower c event count teacher cands assigned m).assignments event teacher).length ≤
        (m.assignments event teacher).length + (count.toNat - assigned)
  | [], _, _ => by simp [primaryLoop]
  | v :: vs, assigned, m => by
    rw [primaryLoop]
    split_ifs with h1 h2
    · omega
    · have ih := primaryLoop_length ToLower c event count teacher vs (assigned + 1)
        (m.addPrimary ToLower c event teacher v)
      rw [addPrimary_assignments, appendTo_same, List.length_append, List.length_singleton] at ih
      omega
    · exact primaryLoop_length ToLower c event count teacher vs assigned m

theorem primaryEvent_frame {ToLower : String → String} (c : Category) (volunteers : List Volunteer)
    (st : Maps × Rand)
    (ev : Event) {E : String} (h : E ≠ ev.name) (t : String) :
    (primaryEvent ToLower c volunteers st ev).1.assignments E t = st.1.assignments E t :=
  primaryEvent_inv (fun m' => m'.assignments E t = st.1.assignments E t) c volunteers ev
    (fun m' hm' => by simpa [h] using hm')
    (fun m' t' v _ _ _ hm' => by
      dsimp only at hm' ⊢
      rw [addPrimary_assignments, appendTo_of_ne (fun hh => h hh.1)]; exact hm')
    st rfl

theorem primaryEvent_length {ToLower : String → String} (c : Category) (volunteers : List Volunteer)
    (st : Maps × Rand)
    (ev : Event) (hnd : ev.teachers.Nodup) (t : String) :
    ((primaryEvent ToLower c volunteers st ev).1.assignments ev.name t).length ≤ ev.count.toNat := by
  unfold primaryEvent
  have h := (foldl_size_le
    (fun m teacher => primaryLoop ToLower c ev.name ev.count teacher
      (filterByTeacher (st.2.Shuffle
        (filterVolunteersByEvent volunteers c.eventType ev.name)).1 teacher) 0 m)
    id (fun t m => (m.assignments ev.name t).length) ev.count.toNat
    (fun m teacher k hk => by
      simp only [id] at hk
      dsimp only
      rw [primaryLoop_frame _ _ _ _ _ _ _ (fun hh => hk hh.2)])
    ev.teachers
    (fun m teacher _ => by
      simpa using primaryLoop_length ToLower c ev.name ev.count teacher _ 0 m)
    (by simpa using hnd) (st.1.resetEvent ev.name) t).1
  simpa using h

theorem primaryPass_frame {ToLower : String → String} (c : Category) (volunteers : List Volunteer)
    (evs : List Event)
    (st : Maps × Rand) {E : String} (h : E ∉ evs.map Event.name) (t : String) :
    (evs.foldl (primaryEvent ToLower c volunteers) st).1.assignments E t = st.1.assignments E t :=
  foldl_inv _ (fun st' => st'.1.assignments E t = st.1.assignments E t) evs
    (fun st' ev hev hst' => by
      dsimp only at hst' ⊢
      rw [primaryEvent_frame c volunteers st' ev
        (fun hE => h (List.mem_map.2 ⟨ev, hev, hE.symm⟩))]
      exact hst')
    st rfl

theorem name_injOn {evs : List Event} (hnd : (evs.map Event.name).Nodup) {a b : Event}
    (ha : a ∈ evs) (hb : b ∈ evs) (h : a.name = b.name) : a = b :=
  List.inj_on_of_nodup_map hnd ha hb h

theorem primaryPass_length {ToLower : String → String} (c : Category) (volunteers : List Volunteer)
    (evs : List Event)
    (hnames : (evs.map Event.name).Nodup) (ev : Event) (hev : ev ∈ evs)
    (hnd : ev.teachers.Nodup) (st : Maps × Rand) (t : String) :
    ((evs.foldl (primaryEvent ToLower c volunteers) st).1.assignments ev.name t).length ≤
      ev.count.toNat :=
  foldl_establish _ (fun st' => (st'.1.assignments ev.name t).length ≤ ev.count.toNat) ev
    (fun st' => primaryEvent_length c volunteers st' ev hnd t) evs hev
    (fun st' b hb hne hst' => by
      dsimp only at hst' ⊢
      rw [primaryEvent_frame c volunteers st' b
        (fun hE => hne (name_injOn hnames hb hev hE.symm))]
      exact hst')
    st

/-! ## What one run of a loop appends -/

theorem primaryLoop_usedFor_mono {ToLower : String → String} (c : Category) (event : String)
    (count : Int)
    (teacher : String) (cands : List Volunteer) (assigned : Nat) (m : Maps) (c' : Category)
    (k : String) (h : m.usedFor c' k = true) :
    (primaryLoop ToLower c event count teacher cands assigned m).usedFor c' k = true :=
  primaryLoop_inv (fun m' => m'.usedFor c' k = true) c event count teacher cands
    (fun m' v _ _ hm' => by
      dsimp only at hm' ⊢
      by_cases hc : c' = c
      · subst hc; rw [addPrimary_usedFor_same, mark_eq_true]; exact Or.inr hm'
      · rw [addPrimary_usedFor_of_ne m' hc]; exact hm')
    assigned m h

/-- The entries one run of a primary loop appends to its own list: they are candidates, and if
the counter stays below the count, every candidate has its name marked in the category map. -/
theorem primaryLoop_row {ToLower : String → String} (c : Category) (event : String) (count : Int)
    (teacher : String) :
    ∀ (cands : List Volunteer) (assigned : Nat) (m : Maps),
      ∃ B, (primaryLoop ToLower c event count teacher cands assigned m).assignments event teacher =
          m.assignments event teacher ++ B ∧
        (∀ e ∈ B, e ∈ cands) ∧
        (((assigned + B.length : Nat) : Int) < count → ∀ v ∈ cands,
          (primaryLoop ToLower c event count teacher cands assigned m).usedFor c (nameKey ToLower v.Name) = true)
  | [], assigned, m => ⟨[], by simp [primaryLoop]⟩
  | v :: vs, assigned, m => by
    rw [primaryLoop]
    split_ifs with h1 h2
    · exact ⟨[], by simp, by simp, fun h => absurd h (by simpa using h1)⟩
    · obtain ⟨B, hB, hsub, hall⟩ := primaryLoop_row c event count teacher vs (assigned + 1)
        (m.addPrimary ToLower c event teacher v)
      refine ⟨v :: B, ?_, ?_, ?_⟩
      · rw [hB, addPrimary_assignments, appendTo_same]; simp
      · intro e he
        rcases List.mem_cons.1 he with rfl | he
        · exact List.mem_cons_self _ _
        · exact List.mem_cons_of_mem _ (hsub e he)
      · intro hlt x hx
        rcases List.mem_cons.1 hx with rfl | hx
        · apply primaryLoop_usedFor_mono
          rw [addPrimary_usedFor_same, mark_eq_true]
          exact Or.inl rfl
        · exact hall (by simp only [List.length_cons] at hlt; omega) x hx
    · obtain ⟨B, hB, hsub, hall⟩ := primaryLoop_row c event count teacher vs assigned m
      refine ⟨B, hB, fun e he => List.mem_cons_of_mem _ (hsub e he), ?_⟩
      intro hlt x hx
      rcases List.mem_cons.1 hx with rfl | hx
      · apply primaryLoop_usedFor_mono
        simpa using h2
      · exact hall hlt x hx

theorem alternateLoop_frame {ToLower : String → String} (c : Category) (event teacher : String)
    (unique : Bool)
    (cands : List Volunteer) (assigned : Nat) (m : Maps) {E t : String}
    (h : ¬ (E = event ∧ t = teacher)) :
    (alternateLoop ToLower c event teacher unique cands assigned m).2.assignments E t =
      m.assignments E t :=
  alternateLoop_inv (fun m' => m'.assignments E t = m.assignments E t) c event teacher unique
    cands
    (fun m' v _ _ _ hm' => by
      dsimp only at hm' ⊢
      rw [addAlternate_assignments, appendTo_of_ne h]; exact hm')
    assigned m rfl

theorem alternateLoop_usedFor {ToLower : String → String} (c : Category) (event teacher : String)
    (unique : Bool)
    (cands : List Volunteer) (assigned : Nat) (m : Maps) (c' : Category) :
    (alternateLoop ToLower c event teacher unique cands assigned m).2.usedFor c' = m.usedFor c' :=
  alternateLoop_inv (fun m' => m'.usedFor c' = m.usedFor c') c event teacher unique cands
    (fun m' v _ _ _ hm' => by
      dsimp only at hm' ⊢
      rw [addAlternate_usedFor]; exact hm')
    assigned m rfl

theorem alternateLoop_usedForThisEvent {ToLower : String → String} (c : Category)
    (event teacher : String) (unique : Bool)
    (cands : List Volunteer) (assigned : Nat) (m : Maps) :
    (alternateLoop ToLower c event teacher unique cands assigned m).2.usedForThisEvent =
      m.usedForThisEvent :=
  alternateLoop_inv (fun m' => m'.usedForThisEvent = m.usedForThisEvent) c event teacher unique
    cands
    (fun m' v _ _ _ hm' => by
      dsimp only at hm' ⊢
      rw [addAlternate_usedForThisEvent]; exact hm')
    assigned m rfl

theorem addAlternate_usedAlt_mono {ToLower : String → String} (m : Maps) (c : Category)
    (event teacher : String)
    (v : Volunteer) (c' : Category) (k : String) (h : m.usedAlt c' k = true) :
    (m.addAlternate ToLower c event teacher v).usedAlt c' k = true := by
  by_cases hc : c' = c
  · subst hc; rw [addAlternate_usedAlt_same, mark_eq_true]; exact Or.inr h
  · rw [addAlternate_usedAlt_of_ne m hc]; exact h

theorem alternateLoop_usedAlt_mono {ToLower : String → String} (c : Category)
    (event teacher : String) (unique : Bool)
    (cands : List Volunteer) (assigned : Nat) (m : Maps) (c' : Category) (k : String)
    (h : m.usedAlt c' k = true) :
    (alternateLoop ToLower c event teacher unique cands assigned m).2.usedAlt c' k = true :=
  alternateLoop_inv (fun m' => m'.usedAlt c' k = true) c event teacher unique cands
    (fun m' v _ _ _ hm' => addAlternate_usedAlt_mono m' c event teacher v c' k hm')
    assigned m h

/-- The entries one run of an alternate loop appends to its own list: there are as many as the
counter advanced, the counter stays within 2, all carry the flag, in the strict stage none was
marked in the category map, and if the counter ends below 2 every candidate was marked in one of
the maps that exclude it. -/
theorem alternateLoop_row {ToLower : String → String} (c : Category) (event teacher : String)
    (unique : Bool) :
    ∀ (cands : List Volunteer) (assigned : Nat) (m : Maps),
      ∃ B, (alternateLoop ToLower c event teacher unique cands assigned m).2.assignments event teacher =
          m.assignments event teacher ++ B ∧
        assigned + B.length = (alternateLoop ToLower c event teacher unique cands assigned m).1 ∧
        (assigned ≤ 2 → (alternateLoop ToLower c event teacher unique cands assigned m).1 ≤ 2) ∧
        (∀ e ∈ B, e.Alternate = true) ∧
        (unique = true → ∀ e ∈ B, m.usedFor c (nameKey ToLower e.Name) = false) ∧
        ((alternateLoop ToLower c event teacher unique cands assigned m).1 < 2 → ∀ v ∈ cands,
          (unique = true ∧ m.usedFor c (nameKey ToLower v.Name) = true) ∨
          m.usedForThisEvent event (nameKey ToLower v.Name) = true ∨
          (alternateLoop ToLower c event teacher unique cands assigned m).2.usedAlt c
            (nameKey ToLower v.Name) = true)
  | [], assigned, m => ⟨[], by simp [alternateLoop]⟩
  | v :: vs, assigned, m => by
    rw [alternateLoop]
    split_ifs with h1 h2
    · exact ⟨[], by simp, by simp, fun h => h, by simp, by simp,
        fun h => absurd h (by simpa using h1)⟩
    · obtain ⟨B, hB, hlen, hle, halt, hstrict, hall⟩ :=
        alternateLoop_row c event teacher unique vs (assigned + 1)
          (m.addAlternate ToLower c event teacher v)
      simp only [Bool.and_eq_true, Bool.not_eq_true', Bool.or_eq_true] at h2
      refine ⟨{ v with Alternate := true } :: B, ?_, ?_, ?_, ?_, ?_, ?_⟩
      · rw [hB, addAlternate_assignments, appendTo_same]; simp
      · simp only [List.length_cons]; omega
      · intro _; exact hle (by omega)
      · intro e he
        rcases List.mem_cons.1 he with rfl | he
        · rfl
        · exact halt e he
      · intro hu e he
        rcases List.mem_cons.1 he with rfl | he
        · rcases h2.1.1 with h | h
          · rw [hu] at h; exact absurd h (by decide)
          · exact h
        · simpa using hstrict hu e he
      · intro hlt x hx
        rcases List.mem_cons.1 hx with rfl | hx
        · right; right
          apply alternateLoop_usedAlt_mono
          rw [addAlternate_usedAlt_same, mark_eq_true]
          exact Or.inl rfl
        · simpa using hall hlt x hx
    · obtain ⟨B, hB, hlen, hle, halt, hstrict, hall⟩ :=
        alternateLoop_row c event teacher unique vs assigned m
      refine ⟨B, hB, hlen, hle, halt, hstrict, ?_⟩
      intro hlt x hx
      rcases List.mem_cons.1 hx with rfl | hx
      · simp only [Bool.and_eq_true, Bool.not_eq_true', Bool.or_eq_true, not_and] at h2
        by_cases hev : m.usedForThisEvent event (nameKey ToLower x.Name) = true
        · exact Or.inr (Or.inl hev)
        by_cases hal : m.usedAlt c (nameKey ToLower x.Name) = true
        · exact Or.inr (Or.inr (alternateLoop_usedAlt_mono _ _ _ _ _ _ _ _ _ hal))
        by_cases hu : unique = true ∧ m.usedFor c (nameKey ToLower x.Name) = true
        · exact Or.inl hu
        exfalso
        apply hal
        have h3 : ¬ m.usedAlt c (nameKey ToLower x.Name) = false := by
          apply h2
          refine ⟨?_, by simpa using hev⟩
          cases hq : unique
          · exact Or.inl rfl
          · right
            cases hf : m.usedFor c (nameKey ToLower x.Name)
            · rfl
            · exact absurd ⟨hq, hf⟩ hu
        simpa using h3
      · exact hall hlt x hx

/-- The entries one teacher of an alternate pass receives: at most 2, all flagged, and when fewer
than 2 every candidate is excluded by the map of the event or by the alternate map. -/
theorem alternateTeacher_row {ToLower : String → String} (c : Category) (event teacher : String)
    (cands : List Volunteer)
    (m : Maps) :
    ∃ B, (alternateTeacher ToLower c event teacher cands m).assignments event teacher =
        m.assignments event teacher ++ B ∧
      B.length ≤ 2 ∧ (∀ e ∈ B, e.Alternate = true) ∧
      (B.length < 2 → ∀ v ∈ cands,
        m.usedForThisEvent event (nameKey ToLower v.Name) = true ∨
        (alternateTeacher ToLower c event teacher cands m).usedAlt c (nameKey ToLower v.Name) = true) := by
  obtain ⟨B₁, hB₁, hlen₁, hle₁, halt₁, -, -⟩ := alternateLoop_row c event teacher true cands 0 m
  unfold alternateTeacher
  dsimp only
  split_ifs with h
  · obtain ⟨B₂, hB₂, hlen₂, hle₂, halt₂, -, hall₂⟩ := alternateLoop_row c event teacher false cands
      (alternateLoop ToLower c event teacher true cands 0 m).1
      (alternateLoop ToLower c event teacher true cands 0 m).2
    refine ⟨B₁ ++ B₂, ?_, ?_, ?_, ?_⟩
    · rw [hB₂, hB₁, List.append_assoc]
    · have := hle₂ (by omega)
      rw [List.length_append]; omega
    · intro e he
      rcases List.mem_append.1 he with he | he
      · exact halt₁ e he
      · exact halt₂ e he
    · intro hlt v hv
      rw [List.length_append] at hlt
      rcases hall₂ (by omega) v hv with h' | h' | h'
      · exact absurd h'.1 (by decide)
      · rw [alternateLoop_usedForThisEvent] at h'; exact Or.inl h'
      · exact Or.inr h'
  · exact ⟨B₁, hB₁, by have := hle₁ (by omega); omega, halt₁, fun hlt => by omega⟩

theorem alternateTeacher_frame {ToLower : String → String} (c : Category) (event teacher : String)
    (cands : List Volunteer) (m : Maps) {E t : String} (h : ¬ (E = event ∧ t = teacher)) :
    (alternateTeacher ToLower c event teacher cands m).assignments E t = m.assignments E t :=
  alternateTeacher_inv (fun m' => m'.assignments E t = m.assignments E t) c event teacher cands
    (fun m' v _ _ _ hm' => by
      dsimp only at hm' ⊢
      rw [addAlternate_assignments, appendTo_of_ne h]; exact hm')
    m rfl

theorem alternateTeacher_length {ToLower : String → String} (c : Category) (event teacher : String)
    (cands : List Volunteer) (m : Maps) :
    ((alternateTeacher ToLower c event teacher cands m).assignments event teacher).length ≤
      (m.assignments event teacher).length + 2 := by
  obtain ⟨B, hB, hlen, -, -⟩ := alternateTeacher_row c event teacher cands m
  rw [hB, List.length_append]
  omega

theorem alternateEvent_frame {ToLower : String → String} (c : Category)
    (volunteers : List Volunteer) (st : Maps × Rand)
    (ev : Event) {E : String} (h : E ≠ ev.name) (t : String) :
    (alternateEvent ToLower c volunteers st ev).1.assignments E t = st.1.assignments E t :=
  alternateEvent_inv (fun m' => m'.assignments E t = st.1.assignments E t) c volunteers ev
    (fun m' t' v _ _ _ _ hm' => by
      dsimp only at hm' ⊢
      rw [addAlternate_assignments, appendTo_of_ne (fun hh => h hh.1)]; exact hm')
    st rfl

theorem alternateEvent_length {ToLower : String → String} (c : Category)
    (volunteers : List Volunteer) (st : Maps × Rand)
    (ev : Event) (hnd : ev.teachers.Nodup) (t : String) :
    ((alternateEvent ToLower c volunteers st ev).1.assignments ev.name t).length ≤
      (st.1.assignments ev.name t).length + 2 := by
  unfold alternateEvent
  exact (foldl_size_le
    (fun m teacher => alternateTeacher ToLower c ev.name teacher
      (filterByTeacher (st.2.Shuffle
        (filterVolunteersByEvent volunteers c.eventType ev.name)).1 teacher) m)
    id (fun t m => (m.assignments ev.name t).length) 2
    (fun m teacher k hk => by
      simp only [id] at hk
      dsimp only
      rw [alternateTeacher_frame _ _ _ _ _ (fun hh => hk hh.2)])
    ev.teachers
    (fun m teacher _ => alternateTeacher_length c ev.name teacher _ m)
    (by simpa using hnd) st.1 t).1

theorem alternatePass_length (ToLower : String → String) (c : Category)
    (volunteers : List Volunteer) (evs : List Event)
    (hnames : (evs.map Event.name).Nodup) (hnd : ∀ ev ∈ evs, ev.teachers.Nodup)
    (st : Maps × Rand) (E t : String) :
    ((evs.foldl (alternateEvent ToLower c volunteers) st).1.assignments E t).length ≤
        (st.1.assignments E t).length + 2 ∧
      (E ∉ evs.map Event.name →
        ((evs.foldl (alternateEvent ToLower c volunteers) st).1.assignments E t).length =
          (st.1.assignments E t).length) :=
  foldl_size_le (alternateEvent ToLower c volunteers) Event.name
    (fun E st => (st.1.assignments E t).length) 2
    (fun st ev k hk => by
      dsimp only
      rw [alternateEvent_frame c volunteers st ev hk])
    evs
    (fun st ev hev => alternateEvent_length c volunteers st ev (hnd ev hev) t)
    hnames st E

/-! ## The hypotheses on the configuration -/

theorem partyEvents_names (parties : List PartyConfig) (allTeachers : List String) :
    (partyEvents parties allTeachers).map Event.name = parties.map (fun p => p.Name) := by
  simp [partyEvents, List.map_map, Function.comp_def]

theorem tripEvents_names (fieldTrips : List FieldTripConfig) (allTeachers : List String) :
    (tripEvents fieldTrips allTeachers).map Event.name = fieldTrips.map (fun f => f.Name) := by
  simp [tripEvents, List.map_map, Function.comp_def]

theorem tripTeachers_nodup {teachers allTeachers : List String} (h₁ : teachers.Nodup)
    (h₂ : allTeachers.Nodup) : (tripTeachers teachers allTeachers).Nodup := by
  unfold tripTeachers
  split_ifs
  · exact h₂
  · exact h₁

theorem mem_events_party {parties : List PartyConfig} {fieldTrips : List FieldTripConfig}
    {allTeachers : List String} {ev : Event} :
    ev ∈ events .party parties fieldTrips allTeachers ↔
      ∃ p ∈ parties, ev = ⟨p.Name, p.Count, allTeachers⟩ := by
  simp [events, partyEvents, eq_comm]

theorem mem_events_fieldtrip {parties : List PartyConfig} {fieldTrips : List FieldTripConfig}
    {allTeachers : List String} {ev : Event} :
    ev ∈ events .fieldtrip parties fieldTrips allTeachers ↔
      ∃ f ∈ fieldTrips, ev = ⟨f.Name, f.Count, tripTeachers f.Teachers allTeachers⟩ := by
  simp [events, tripEvents, eq_comm]

theorem events_names (c : Category) (parties : List PartyConfig)
    (fieldTrips : List FieldTripConfig) (allTeachers : List String) :
    (events c parties fieldTrips allTeachers).map Event.name =
      match c with
      | .party => parties.map (fun p => p.Name)
      | .fieldtrip => fieldTrips.map (fun f => f.Name) := by
  cases c
  · exact partyEvents_names parties allTeachers
  · exact tripEvents_names fieldTrips allTeachers

theorem DistinctEventNames.noSharedName {parties : List PartyConfig}
    {fieldTrips : List FieldTripConfig} (h : DistinctEventNames parties fieldTrips) :
    NoSharedName parties fieldTrips := by
  intro p hp f hf heq
  exact (List.nodup_append.1 h).2.2 (List.mem_map.2 ⟨p, hp, rfl⟩)
    (List.mem_map.2 ⟨f, hf, heq.symm⟩)

theorem DistinctEventNames.names_nodup {parties : List PartyConfig}
    {fieldTrips : List FieldTripConfig} (h : DistinctEventNames parties fieldTrips)
    (c : Category) (allTeachers : List String) :
    ((events c parties fieldTrips allTeachers).map Event.name).Nodup := by
  rw [events_names]
  cases c
  · exact (List.nodup_append.1 h).1
  · exact (List.nodup_append.1 h).2.1

theorem NoSharedName.ne {parties : List PartyConfig} {fieldTrips : List FieldTripConfig}
    (h : NoSharedName parties fieldTrips) {allTeachers : List String} (c c' : Category)
    (hc : c ≠ c') {ev ev' : Event} (hev : ev ∈ events c parties fieldTrips allTeachers)
    (hev' : ev' ∈ events c' parties fieldTrips allTeachers) : ev.name ≠ ev'.name := by
  cases c <;> cases c'
  · exact absurd rfl hc
  · obtain ⟨p, hp, rfl⟩ := mem_events_party.1 hev
    obtain ⟨f, hf, rfl⟩ := mem_events_fieldtrip.1 hev'
    exact h p hp f hf
  · obtain ⟨f, hf, rfl⟩ := mem_events_fieldtrip.1 hev
    obtain ⟨p, hp, rfl⟩ := mem_events_party.1 hev'
    exact fun heq => h p hp f hf heq.symm
  · exact absurd rfl hc

theorem NoSharedName.not_mem {parties : List PartyConfig} {fieldTrips : List FieldTripConfig}
    (h : NoSharedName parties fieldTrips) {allTeachers : List String} (c c' : Category)
    (hc : c ≠ c') {ev : Event} (hev : ev ∈ events c parties fieldTrips allTeachers) :
    ev.name ∉ (events c' parties fieldTrips allTeachers).map Event.name := by
  intro hmem
  obtain ⟨ev', hev', heq⟩ := List.mem_map.1 hmem
  exact h.ne c c' hc hev hev' heq.symm

theorem NoRepeatedTeacher.teachers_nodup {fieldTrips : List FieldTripConfig}
    {allTeachers : List String}
    (h : NoRepeatedTeacher fieldTrips allTeachers) (parties : List PartyConfig) (c : Category)
    {ev : Event} (hev : ev ∈ events c parties fieldTrips allTeachers) : ev.teachers.Nodup := by
  cases c
  · obtain ⟨p, _, rfl⟩ := mem_events_party.1 hev
    exact h.1
  · obtain ⟨f, hf, rfl⟩ := mem_events_fieldtrip.1 hev
    exact tripTeachers_nodup (h.2 f hf) h.1

/-- With distinct event names and no repeated teacher, the list of a configured event after the
primary passes has at most `count` entries. -/
theorem primaryPasses_length (ToLower : String → String) (rnd : Rand) (volunteers : List Volunteer)
    {parties : List PartyConfig} {fieldTrips : List FieldTripConfig} {allTeachers : List String}
    (hnames : DistinctEventNames parties fieldTrips)
    (hteachers : NoRepeatedTeacher fieldTrips allTeachers) {c : Category} {ev : Event}
    (hev : ev ∈ events c parties fieldTrips allTeachers) (t : String) :
    (((primaryPasses ToLower rnd volunteers parties fieldTrips allTeachers).1.assignments
      ev.name t).length) ≤ ev.count.toNat := by
  unfold primaryPasses
  cases c
  · have hnot : ev.name ∉ (tripEvents fieldTrips allTeachers).map Event.name :=
      hnames.noSharedName.not_mem .party .fieldtrip (by decide) hev
    rw [primaryPass_frame .fieldtrip volunteers (tripEvents fieldTrips allTeachers) _ hnot]
    exact primaryPass_length .party volunteers _ (hnames.names_nodup .party allTeachers) ev hev
      (hteachers.teachers_nodup parties _ hev) _ t
  · exact primaryPass_length .fieldtrip volunteers _ (hnames.names_nodup .fieldtrip allTeachers) ev hev
      (hteachers.teachers_nodup parties _ hev) _ t

/-- With distinct event names and no repeated teacher, the alternate passes append at most 2
entries to any list. -/
theorem alternatePasses_length (ToLower : String → String) (rnd rnd2 : Rand)
    (volunteers : List Volunteer)
    {parties : List PartyConfig} {fieldTrips : List FieldTripConfig} {allTeachers : List String}
    (hnames : DistinctEventNames parties fieldTrips)
    (hteachers : NoRepeatedTeacher fieldTrips allTeachers) (E t : String) :
    ((assignMaps ToLower rnd rnd2 volunteers parties fieldTrips allTeachers).assignments E t).length ≤
      ((primaryPasses ToLower rnd volunteers parties fieldTrips allTeachers).1.assignments E t).length
        + 2 := by
  unfold assignMaps
  have hP := alternatePass_length ToLower .party volunteers (partyEvents parties allTeachers)
    (hnames.names_nodup .party allTeachers)
    (fun ev hev => hteachers.teachers_nodup parties .party hev)
    ((primaryPasses ToLower rnd volunteers parties fieldTrips allTeachers).1, rnd2) E t
  have hT := alternatePass_length ToLower .fieldtrip volunteers (tripEvents fieldTrips allTeachers)
    (hnames.names_nodup .fieldtrip allTeachers)
    (fun ev hev => hteachers.teachers_nodup parties .fieldtrip hev)
    ((partyEvents parties allTeachers).foldl (alternateEvent ToLower .party volunteers)
      ((primaryPasses ToLower rnd volunteers parties fieldTrips allTeachers).1, rnd2)) E t
  dsimp only at hP hT
  by_cases hE : E ∈ (partyEvents parties allTeachers).map Event.name
  · obtain ⟨ev, hev, rfl⟩ := List.mem_map.1 hE
    have hnot : ev.name ∉ (tripEvents fieldTrips allTeachers).map Event.name :=
      hnames.noSharedName.not_mem .party .fieldtrip (by decide) hev
    have := hT.2 hnot
    have := hP.1
    omega
  · have := hP.2 hE
    have := hT.1
    omega

/-- The shape of a list of a configured event, for distinct event names and no repeated
teacher: at most `count` input records, then at most 2 flagged entries. -/
theorem row_shape (ToLower : String → String) (rnd rnd2 : Rand) (volunteers : List Volunteer)
    {parties : List PartyConfig} {fieldTrips : List FieldTripConfig} {allTeachers : List String}
    (hnames : DistinctEventNames parties fieldTrips)
    (hteachers : NoRepeatedTeacher fieldTrips allTeachers) {c : Category} {ev : Event}
    (hev : ev ∈ events c parties fieldTrips allTeachers) (t : String) :
    ∃ P B, assignVolunteers ToLower rnd rnd2 volunteers parties fieldTrips allTeachers ev.name t = P ++ B ∧
      P.length ≤ ev.count.toNat ∧ B.length ≤ 2 ∧ (∀ e ∈ P, e ∈ volunteers) ∧
      (∀ e ∈ B, e.Alternate = true) := by
  obtain ⟨B, hB⟩ := altInv_assignMaps ToLower rnd rnd2 volunteers parties fieldTrips allTeachers
  have hprim := primInv_primaryPasses ToLower rnd volunteers parties fieldTrips allTeachers
  refine ⟨_, B ev.name t, hB.app ev.name t, primaryPasses_length ToLower rnd volunteers hnames hteachers
    hev t, ?_, ?_, ?_⟩
  · have := alternatePasses_length ToLower rnd rnd2 volunteers hnames hteachers ev.name t
    rw [hB.app, List.length_append] at this
    omega
  · intro e he
    obtain ⟨_, _, _, _, h⟩ := hprim.sound ev.name t e he
    exact h.1
  · intro e he
    obtain ⟨_, _, v, _, _, _, rfl⟩ := hB.sound ev.name t e he
    rfl

theorem primaryCount_append_alternates {P B : List Volunteer}
    (hB : ∀ e ∈ B, e.Alternate = true) : primaryCount (P ++ B) ≤ P.length := by
  unfold primaryCount
  rw [List.countP_append]
  have h0 : B.countP (fun e => !e.Alternate) = 0 := by
    rw [List.countP_eq_zero]
    intro e he
    simp [hB e he]
  have := List.countP_le_length (fun e : Volunteer => !e.Alternate) (l := P)
  omega

theorem alternateCount_primaries_append {P B : List Volunteer}
    (hP : ∀ e ∈ P, e.Alternate = false) : alternateCount (P ++ B) ≤ B.length := by
  unfold alternateCount
  rw [List.countP_append]
  have h0 : P.countP (fun e => e.Alternate) = 0 := by
    rw [List.countP_eq_zero]
    intro e he
    simp [hP e he]
  have := List.countP_le_length (fun e : Volunteer => e.Alternate) (l := B)
  omega

/-- Where an entry of the final table comes from: an input record stored by a primary pass, or
the flagged copy of an input record appended by an alternate pass. -/
theorem entry_origin (ToLower : String → String) (rnd rnd2 : Rand) (volunteers : List Volunteer)
    (parties : List PartyConfig) (fieldTrips : List FieldTripConfig) (allTeachers : List String)
    {B : Table}
    (hB : AltInv ToLower volunteers parties fieldTrips allTeachers
      (primaryPasses ToLower rnd volunteers parties fieldTrips allTeachers).1
      (assignMaps ToLower rnd rnd2 volunteers parties fieldTrips allTeachers) B)
    (hvol : ∀ v ∈ volunteers, v.Alternate = false) {E T : String} {e : Volunteer}
    (he : e ∈ assignVolunteers ToLower rnd rnd2 volunteers parties fieldTrips allTeachers E T) :
    (e.Alternate = false ∧
      e ∈ (primaryPasses ToLower rnd volunteers parties fieldTrips allTeachers).1.assignments E T) ∨
    (e.Alternate = true ∧ e ∈ B E T) := by
  have hprim := primInv_primaryPasses ToLower rnd volunteers parties fieldTrips allTeachers
  unfold assignVolunteers at he
  rw [hB.app, List.mem_append] at he
  rcases he with he | he
  · obtain ⟨_, _, _, _, h⟩ := hprim.sound E T e he
    exact Or.inl ⟨hvol e h.1, he⟩
  · obtain ⟨_, _, v, _, _, _, rfl⟩ := hB.sound E T e he
    exact Or.inr ⟨rfl, he⟩

/-- An unflagged entry of the final table was stored by a primary pass. -/
theorem primary_entry_origin (ToLower : String → String) (rnd rnd2 : Rand)
    (volunteers : List Volunteer)
    (parties : List PartyConfig) (fieldTrips : List FieldTripConfig) (allTeachers : List String)
    {B : Table}
    (hB : AltInv ToLower volunteers parties fieldTrips allTeachers
      (primaryPasses ToLower rnd volunteers parties fieldTrips allTeachers).1
      (assignMaps ToLower rnd rnd2 volunteers parties fieldTrips allTeachers) B)
    {E T : String} {e : Volunteer}
    (he : e ∈ assignVolunteers ToLower rnd rnd2 volunteers parties fieldTrips allTeachers E T)
    (hflag : e.Alternate = false) :
    e ∈ (primaryPasses ToLower rnd volunteers parties fieldTrips allTeachers).1.assignments E T := by
  unfold assignVolunteers at he
  rw [hB.app, List.mem_append] at he
  rcases he with he | he
  · exact he
  · obtain ⟨_, _, v, _, _, _, rfl⟩ := hB.sound E T e he
    exact absurd hflag (by simp)

/-- When no field trip has the name of a party, the events named like an event of a category
all belong to that category. -/
theorem category_unique {parties : List PartyConfig} {fieldTrips : List FieldTripConfig}
    {allTeachers : List String} (hshared : NoSharedName parties fieldTrips) {c c' : Category}
    {E : String} (hE : E ∈ (events c parties fieldTrips allTeachers).map Event.name)
    {ev : Event} (hev : ev ∈ events c' parties fieldTrips allTeachers) (hname : ev.name = E) :
    c' = c := by
  by_contra hne
  exact hshared.not_mem c' c hne hev (hname ▸ hE)

theorem uniqueInCategory_primary (ToLower : String → String) (rnd rnd2 : Rand)
    (volunteers : List Volunteer) (parties : List PartyConfig)
    (fieldTrips : List FieldTripConfig) (allTeachers : List String) (c : Category) :
    UniqueInCategory ToLower false c
      (assignVolunteers ToLower rnd rnd2 volunteers parties fieldTrips allTeachers) := by
  obtain ⟨B, hB⟩ := altInv_assignMaps ToLower rnd rnd2 volunteers parties fieldTrips allTeachers
  have hprim := primInv_primaryPasses ToLower rnd volunteers parties fieldTrips allTeachers
  intro E₁ E₂ hne T₁ T₂ e₁ e₂ h₁ h₂ hc₁ hc₂ hf₁ hf₂
  replace h₁ := primary_entry_origin ToLower rnd rnd2 volunteers parties fieldTrips allTeachers
    hB h₁ hf₁
  replace h₂ := primary_entry_origin ToLower rnd rnd2 volunteers parties fieldTrips allTeachers
    hB h₂ hf₂
  exact hprim.uniq c E₁ T₁ E₂ T₂ e₁ e₂ (fun h => hne h.1) h₁ h₂ hc₁ hc₂

theorem uniqueInCategory_alternate (ToLower : String → String) (rnd rnd2 : Rand)
    (volunteers : List Volunteer) (parties : List PartyConfig)
    (fieldTrips : List FieldTripConfig) (allTeachers : List String)
    (hvol : ∀ v ∈ volunteers, v.Alternate = false) (c : Category) :
    UniqueInCategory ToLower true c
      (assignVolunteers ToLower rnd rnd2 volunteers parties fieldTrips allTeachers) := by
  obtain ⟨B, hB⟩ := altInv_assignMaps ToLower rnd rnd2 volunteers parties fieldTrips allTeachers
  intro E₁ E₂ hne T₁ T₂ e₁ e₂ h₁ h₂ hc₁ hc₂ hf₁ hf₂
  have origin : ∀ {E T : String} {e : Volunteer},
      e ∈ assignVolunteers ToLower rnd rnd2 volunteers parties fieldTrips allTeachers E T →
      e.Alternate = true → e ∈ B E T := by
    intro E T e he hf
    rcases entry_origin ToLower rnd rnd2 volunteers parties fieldTrips allTeachers hB hvol he
      with h | h
    · rw [h.1] at hf; exact absurd hf (by decide)
    · exact h.2
  exact hB.uniq c E₁ T₁ E₂ T₂ e₁ e₂ (fun h => hne h.1) (origin h₁ hf₁) (origin h₂ hf₂) hc₁ hc₂

theorem alternateCount_append (l₁ l₂ : List Volunteer) :
    alternateCount (l₁ ++ l₂) = alternateCount l₁ + alternateCount l₂ := by
  simp [alternateCount, List.countP_append]

theorem primaryCount_append (l₁ l₂ : List Volunteer) :
    primaryCount (l₁ ++ l₂) = primaryCount l₁ + primaryCount l₂ := by
  simp [primaryCount, List.countP_append]

theorem alternateCount_appendTo_le (a : Table) (event teacher : String) (v : Volunteer)
    (E t : String) : alternateCount (a E t) ≤ alternateCount (appendTo a event teacher v E t) := by
  unfold appendTo
  split_ifs
  · rw [alternateCount_append]; omega
  · exact le_rfl

theorem primaryCount_appendTo_le (a : Table) (event teacher : String) (v : Volunteer)
    (E t : String) : primaryCount (a E t) ≤ primaryCount (appendTo a event teacher v E t) := by
  unfold appendTo
  split_ifs
  · rw [primaryCount_append]; omega
  · exact le_rfl

theorem alternateCount_eq_length {B : List Volunteer} (h : ∀ e ∈ B, e.Alternate = true) :
    alternateCount B = B.length := by
  unfold alternateCount
  rw [List.countP_eq_length]
  exact h

theorem primaryCount_eq_length {B : List Volunteer} (h : ∀ e ∈ B, e.Alternate = false) :
    primaryCount B = B.length := by
  unfold primaryCount
  rw [List.countP_eq_length]
  intro e he
  simp [h e he]

theorem AltFilled.keepAlternate {ToLower : String → String} {volunteers : List Volunteer}
    {c : Category} {E t : String}
    {m : Maps} (h : AltFilled ToLower volunteers c E t m) (c' : Category) (event teacher : String)
    (v : Volunteer) : AltFilled ToLower volunteers c E t (m.addAlternate ToLower c' event teacher v) := by
  intro hlt x hx
  rw [addAlternate_assignments] at hlt
  have hle := alternateCount_appendTo_le m.assignments event teacher
    { v with Alternate := true } E t
  rcases h (by omega) x hx with h' | h'
  · left; rw [addAlternate_usedForThisEvent]; exact h'
  · right; exact addAlternate_usedAlt_mono m c' event teacher v c _ h'

theorem alternateTeacher_usedForThisEvent {ToLower : String → String} (c : Category)
    (event teacher : String)
    (cands : List Volunteer) (m : Maps) :
    (alternateTeacher ToLower c event teacher cands m).usedForThisEvent = m.usedForThisEvent :=
  alternateTeacher_inv (fun m' => m'.usedForThisEvent = m.usedForThisEvent) c event teacher
    cands
    (fun m' v _ _ _ hm' => by
      dsimp only at hm' ⊢
      rw [addAlternate_usedForThisEvent]; exact hm')
    m rfl

theorem AltFilled.ofTeacher {ToLower : String → String} {volunteers : List Volunteer} {c : Category}
    {E t : String}
    {cands : List Volunteer} (hcands : ∀ v, SignedUp volunteers c E t v → v ∈ cands)
    (m : Maps) : AltFilled ToLower volunteers c E t (alternateTeacher ToLower c E t cands m) := by
  obtain ⟨B, hB, -, halt, hall⟩ := alternateTeacher_row c E t cands m
  intro hlt x hx
  rw [hB, alternateCount_append, alternateCount_eq_length halt] at hlt
  rcases hall (by omega) x (hcands x hx) with h | h
  · left; rw [alternateTeacher_usedForThisEvent]; exact h
  · exact Or.inr h

theorem AltFilled.ofTeachers {ToLower : String → String} {volunteers : List Volunteer}
    {c : Category} {E t : String}
    (cands : String → List Volunteer)
    (hcands : ∀ v, SignedUp volunteers c E t v → v ∈ cands t) (ts : List String)
    (ht : t ∈ ts) (m : Maps) :
    AltFilled ToLower volunteers c E t
      (ts.foldl (fun m teacher => alternateTeacher ToLower c E teacher (cands teacher) m) m) :=
  foldl_establish (fun m teacher => alternateTeacher ToLower c E teacher (cands teacher) m)
    (AltFilled ToLower volunteers c E t) t
    (fun m => AltFilled.ofTeacher hcands m) ts ht
    (fun m t' _ _ hm => alternateTeacher_inv (AltFilled ToLower volunteers c E t) c E t' _
      (fun _ v _ _ _ hm' => hm'.keepAlternate c E t' v) m hm)
    m

theorem AltFilled.ofEvent {ToLower : String → String} {volunteers : List Volunteer} {c : Category}
    {ev : Event} {t : String}
    (ht : t ∈ ev.teachers) (st : Maps × Rand) :
    AltFilled ToLower volunteers c ev.name t (alternateEvent ToLower c volunteers st ev).1 :=
  AltFilled.ofTeachers
    (fun teacher => filterByTeacher
      (st.2.Shuffle (filterVolunteersByEvent volunteers c.eventType ev.name)).1 teacher)
    (fun _ hv => (mem_teacherCandidates _ _ _ _ _ _).2 hv) ev.teachers ht st.1

theorem AltFilled.ofPass {ToLower : String → String} {volunteers : List Volunteer} {c : Category}
    (evs : List Event)
    {ev : Event} (hev : ev ∈ evs) {t : String} (ht : t ∈ ev.teachers) (st : Maps × Rand) :
    AltFilled ToLower volunteers c ev.name t (evs.foldl (alternateEvent ToLower c volunteers) st).1 :=
  foldl_establish (alternateEvent ToLower c volunteers)
    (fun st' => AltFilled ToLower volunteers c ev.name t st'.1) ev
    (fun st' => AltFilled.ofEvent ht st') evs hev
    (fun st' b _ _ hst' => alternateEvent_inv (AltFilled ToLower volunteers c ev.name t) c volunteers b
      (fun _ t' v _ _ _ _ hm' => hm'.keepAlternate c b.name t' v) st' hst')
    st

theorem altFilled_assignMaps (ToLower : String → String) (rnd rnd2 : Rand)
    (volunteers : List Volunteer)
    (parties : List PartyConfig) (fieldTrips : List FieldTripConfig) (allTeachers : List String)
    {c : Category} {ev : Event} (hev : ev ∈ events c parties fieldTrips allTeachers)
    {t : String} (ht : t ∈ ev.teachers) :
    AltFilled ToLower volunteers c ev.name t
      (assignMaps ToLower rnd rnd2 volunteers parties fieldTrips allTeachers) := by
  unfold assignMaps
  cases c
  · exact alternatePass_inv (AltFilled ToLower volunteers .party ev.name t) .fieldtrip volunteers _
      (fun _ ev' t' v _ _ _ _ _ hm' => hm'.keepAlternate .fieldtrip ev'.name t' v) _
      (AltFilled.ofPass (partyEvents parties allTeachers) hev ht _)
  · exact AltFilled.ofPass (tripEvents fieldTrips allTeachers) hev ht _

/-- A name marked in the alternate map of a category at the end is carried by an alternate entry
of an event of that category. -/
theorem alternateIn_of_usedAlt (ToLower : String → String) (rnd rnd2 : Rand)
    (volunteers : List Volunteer)
    (parties : List PartyConfig) (fieldTrips : List FieldTripConfig) (allTeachers : List String)
    {c : Category} {k : String}
    (h : (assignMaps ToLower rnd rnd2 volunteers parties fieldTrips allTeachers).usedAlt c k = true) :
    ∃ ev ∈ events c parties fieldTrips allTeachers,
      AlternateIn ToLower (assignVolunteers ToLower rnd rnd2 volunteers parties fieldTrips allTeachers)
        ev.name k := by
  obtain ⟨B, hB⟩ := altInv_assignMaps ToLower rnd rnd2 volunteers parties fieldTrips allTeachers
  obtain ⟨E, t, e, he, hty, hk⟩ := hB.usedAlt_witness c k h
  obtain ⟨c', ev, v, hev, hname, hv, rfl⟩ := hB.sound E t e he
  have hc : c' = c := eventType_injective (hv.2.1.symm.trans hty)
  subst hc
  refine ⟨ev, hev, t, _, ?_, rfl, hk⟩
  unfold assignVolunteers
  rw [hB.app, hname]
  exact List.mem_append_right _ he

theorem primaryEvent_inv_of_reset {ToLower : String → String} (P : Maps → Prop) (c : Category)
    (volunteers : List Volunteer) (ev : Event)
    (hadd : ∀ m t v, t ∈ ev.teachers → SignedUp volunteers c ev.name t v →
      m.usedFor c (nameKey ToLower v.Name) = false → P m → P (m.addPrimary ToLower c ev.name t v))
    (st : Maps × Rand) (hst : P (st.1.resetEvent ev.name)) :
    P (primaryEvent ToLower c volunteers st ev).1 := by
  unfold primaryEvent
  exact foldl_inv
    (fun m teacher => primaryLoop ToLower c ev.name ev.count teacher
      (filterByTeacher (st.2.Shuffle
        (filterVolunteersByEvent volunteers c.eventType ev.name)).1 teacher) 0 m)
    P ev.teachers
    (fun m t ht hm => primaryLoop_inv P c ev.name ev.count t _
      (fun m v hv => hadd m t v ht ((mem_teacherCandidates _ _ _ _ _ _).1 hv)) 0 m hm)
    _ hst

/-- The rule of a primary pass over events with pairwise distinct names whose lists are all
empty at the start: each reset then meets an empty list. -/
theorem primaryPass_inv_fresh {ToLower : String → String} (P : Maps → Prop) (c : Category)
    (volunteers : List Volunteer) :
    ∀ (evs : List Event), (evs.map Event.name).Nodup →
      (∀ m ev, ev ∈ evs → (∀ t, m.assignments ev.name t = []) → P m →
        P (m.resetEvent ev.name)) →
      (∀ m ev t v, ev ∈ evs → t ∈ ev.teachers → SignedUp volunteers c ev.name t v →
        m.usedFor c (nameKey ToLower v.Name) = false → P m → P (m.addPrimary ToLower c ev.name t v)) →
      ∀ st : Maps × Rand, (∀ ev ∈ evs, ∀ t, st.1.assignments ev.name t = []) → P st.1 →
        P (evs.foldl (primaryEvent ToLower c volunteers) st).1
  | [], _, _, _, _, _, hst => hst
  | ev :: evs, hnd, hreset, hadd, st, hempty, hst => by
    rw [List.map_cons, List.nodup_cons] at hnd
    rw [List.foldl_cons]
    apply primaryPass_inv_fresh P c volunteers evs hnd.2
      (fun m b hb => hreset m b (List.mem_cons_of_mem _ hb))
      (fun m b t v hb => hadd m b t v (List.mem_cons_of_mem _ hb))
    · intro b hb t
      have hne : b.name ≠ ev.name := by
        intro heq
        exact hnd.1 (List.mem_map.2 ⟨b, hb, heq⟩)
      rw [primaryEvent_frame c volunteers st ev hne]
      exact hempty b (List.mem_cons_of_mem _ hb) t
    · exact primaryEvent_inv_of_reset P c volunteers ev
        (fun m t v => hadd m ev t v (List.mem_cons_self _ _)) st
        (hreset st.1 ev (List.mem_cons_self _ _) (hempty ev (List.mem_cons_self _ _)) hst)

theorem addPrimary_usedFor_mono {ToLower : String → String} (m : Maps) (c : Category)
    (event teacher : String)
    (v : Volunteer) (c' : Category) (k : String) (h : m.usedFor c' k = true) :
    (m.addPrimary ToLower c event teacher v).usedFor c' k = true := by
  by_cases hc : c' = c
  · subst hc; rw [addPrimary_usedFor_same, mark_eq_true]; exact Or.inr h
  · rw [addPrimary_usedFor_of_ne m hc]; exact h

theorem UsedHasEntry.keepReset {ToLower : String → String} {m : Maps} (h : UsedHasEntry ToLower m)
    {event : String}
    (hempty : ∀ t, m.assignments event t = []) : UsedHasEntry ToLower (m.resetEvent event) := by
  intro c k hk
  rw [resetEvent_usedFor] at hk
  obtain ⟨E, t, e, he, hty, hke⟩ := h c k hk
  refine ⟨E, t, e, ?_, hty, hke⟩
  have hE : E ≠ event := by
    rintro rfl
    rw [hempty t] at he
    exact absurd he (List.not_mem_nil _)
  simpa [hE] using he

theorem UsedHasEntry.keepPrimary {ToLower : String → String} {m : Maps} (h : UsedHasEntry ToLower m)
    {c : Category}
    {event teacher : String} {v : Volunteer} (hty : v.EventType = c.eventType) :
    UsedHasEntry ToLower (m.addPrimary ToLower c event teacher v) := by
  intro c' k hk
  have old : m.usedFor c' k = true →
      ∃ E t e, e ∈ (m.addPrimary ToLower c event teacher v).assignments E t ∧
        e.EventType = c'.eventType ∧ nameKey ToLower e.Name = k := by
    intro hk'
    obtain ⟨E, t, e, he, hty', hke⟩ := h c' k hk'
    exact ⟨E, t, e, by rw [addPrimary_assignments, mem_appendTo]; exact Or.inl he, hty', hke⟩
  by_cases hc : c' = c
  · subst hc
    rw [addPrimary_usedFor_same, mark_eq_true] at hk
    rcases hk with rfl | hk
    · exact ⟨event, teacher, v,
        by rw [addPrimary_assignments, mem_appendTo]; exact Or.inr ⟨rfl, rfl, rfl⟩, hty, rfl⟩
    · exact old hk
  · rw [addPrimary_usedFor_of_ne m hc] at hk
    exact old hk

theorem usedHasEntry_primaryPasses (ToLower : String → String) (rnd : Rand)
    (volunteers : List Volunteer)
    {parties : List PartyConfig} {fieldTrips : List FieldTripConfig} (allTeachers : List String)
    (hnames : DistinctEventNames parties fieldTrips) :
    UsedHasEntry ToLower (primaryPasses ToLower rnd volunteers parties fieldTrips allTeachers).1 := by
  unfold primaryPasses
  apply primaryPass_inv_fresh (UsedHasEntry ToLower) .fieldtrip volunteers
    (tripEvents fieldTrips allTeachers) (hnames.names_nodup .fieldtrip allTeachers)
    (fun m ev _ hempty hm => hm.keepReset hempty)
    (fun m ev t v _ _ hv _ hm => hm.keepPrimary hv.2.1)
  · intro ev hev t
    have hnot : ev.name ∉ (partyEvents parties allTeachers).map Event.name :=
      hnames.noSharedName.not_mem .fieldtrip .party (by decide) hev
    rw [primaryPass_frame .party volunteers (partyEvents parties allTeachers) _ hnot]
    rfl
  · apply primaryPass_inv_fresh (UsedHasEntry ToLower) .party volunteers
      (partyEvents parties allTeachers) (hnames.names_nodup .party allTeachers)
      (fun m ev _ hempty hm => hm.keepReset hempty)
      (fun m ev t v _ _ hv _ hm => hm.keepPrimary hv.2.1)
    · intro ev _ t; rfl
    · intro c k hk
      simp at hk

/-- With distinct event names and unflagged input, a name marked in the primary map of a
category at the end is carried by a primary entry of an event of that category. -/
theorem primaryIn_of_usedFor (ToLower : String → String) (rnd rnd2 : Rand)
    (volunteers : List Volunteer)
    (parties : List PartyConfig) (fieldTrips : List FieldTripConfig) (allTeachers : List String)
    (hnames : DistinctEventNames parties fieldTrips)
    (hvol : ∀ v ∈ volunteers, v.Alternate = false) {c : Category} {k : String}
    (h : (assignMaps ToLower rnd rnd2 volunteers parties fieldTrips allTeachers).usedFor c k = true) :
    ∃ ev ∈ events c parties fieldTrips allTeachers,
      PrimaryIn ToLower (assignVolunteers ToLower rnd rnd2 volunteers parties fieldTrips allTeachers)
        ev.name k := by
  obtain ⟨B, hB⟩ := altInv_assignMaps ToLower rnd rnd2 volunteers parties fieldTrips allTeachers
  have hprim := primInv_primaryPasses ToLower rnd volunteers parties fieldTrips allTeachers
  rw [hB.usedFor_eq] at h
  obtain ⟨E, t, e, he, hty, hk⟩ :=
    usedHasEntry_primaryPasses ToLower rnd volunteers allTeachers hnames c k h
  obtain ⟨c', ev, hev, hname, hv⟩ := hprim.sound E t e he
  have hc : c' = c := eventType_injective (hv.2.1.symm.trans hty)
  subst hc
  refine ⟨ev, hev, t, e, ?_, hvol e hv.1, hk⟩
  unfold assignVolunteers
  rw [hB.app, hname]
  exact List.mem_append_left _ he

theorem PrimFilled.stablePrimary {ToLower : String → String} {volunteers : List Volunteer}
    {c : Category} {E t : String}
    {count : Int} {m : Maps} (h : PrimFilled ToLower volunteers c E t count m) (c' : Category)
    (event teacher : String) (v : Volunteer) :
    PrimFilled ToLower volunteers c E t count (m.addPrimary ToLower c' event teacher v) := by
  intro hlt x hx
  rw [addPrimary_assignments] at hlt
  have hle := primaryCount_appendTo_le m.assignments event teacher v E t
  exact addPrimary_usedFor_mono m c' event teacher v c _ (h (by omega) x hx)

theorem PrimFilled.stableAlternate {ToLower : String → String} {volunteers : List Volunteer}
    {c : Category} {E t : String}
    {count : Int} {m : Maps} (h : PrimFilled ToLower volunteers c E t count m) (c' : Category)
    (event teacher : String) (v : Volunteer) :
    PrimFilled ToLower volunteers c E t count (m.addAlternate ToLower c' event teacher v) := by
  intro hlt x hx
  rw [addAlternate_assignments] at hlt
  have hle := primaryCount_appendTo_le m.assignments event teacher
    { v with Alternate := true } E t
  rw [addAlternate_usedFor]
  exact h (by omega) x hx

theorem PrimFilled.stableReset {ToLower : String → String} {volunteers : List Volunteer}
    {c : Category} {E t : String}
    {count : Int} {m : Maps} (h : PrimFilled ToLower volunteers c E t count m) {event : String}
    (hne : event ≠ E) : PrimFilled ToLower volunteers c E t count (m.resetEvent event) := by
  intro hlt x hx
  rw [resetEvent_assignments, if_neg (Ne.symm hne)] at hlt
  rw [resetEvent_usedFor]
  exact h hlt x hx

theorem PrimFilled.ofLoop {ToLower : String → String} {volunteers : List Volunteer} {c : Category}
    {E t : String}
    {count : Int} {cands : List Volunteer}
    (hcands : ∀ v, v ∈ cands ↔ SignedUp volunteers c E t v)
    (hvol : ∀ v ∈ volunteers, v.Alternate = false) (m : Maps) :
    PrimFilled ToLower volunteers c E t count (primaryLoop ToLower c E count t cands 0 m) := by
  obtain ⟨B, hB, hsub, hall⟩ := primaryLoop_row c E count t cands 0 m
  intro hlt x hx
  rw [hB, primaryCount_append,
    primaryCount_eq_length (fun e he => hvol e ((hcands e).1 (hsub e he)).1)] at hlt
  exact hall (by omega) x ((hcands x).2 hx)

theorem PrimFilled.ofLoops {ToLower : String → String} {volunteers : List Volunteer} {c : Category}
    {E t : String}
    {count : Int} (cands : String → List Volunteer)
    (hcands : ∀ v, v ∈ cands t ↔ SignedUp volunteers c E t v)
    (hvol : ∀ v ∈ volunteers, v.Alternate = false) (ts : List String) (ht : t ∈ ts)
    (m : Maps) :
    PrimFilled ToLower volunteers c E t count
      (ts.foldl (fun m teacher => primaryLoop ToLower c E count teacher (cands teacher) 0 m) m) :=
  foldl_establish (fun m teacher => primaryLoop ToLower c E count teacher (cands teacher) 0 m)
    (PrimFilled ToLower volunteers c E t count) t
    (fun m => PrimFilled.ofLoop hcands hvol m) ts ht
    (fun m t' _ _ hm => primaryLoop_inv (PrimFilled ToLower volunteers c E t count) c E count t' _
      (fun _ v _ _ hm' => hm'.stablePrimary c E t' v) 0 m hm)
    m

theorem PrimFilled.ofPrimaryEvent {ToLower : String → String} {volunteers : List Volunteer}
    {c : Category} {ev : Event} {t : String}
    (hvol : ∀ v ∈ volunteers, v.Alternate = false) (ht : t ∈ ev.teachers) (st : Maps × Rand) :
    PrimFilled ToLower volunteers c ev.name t ev.count (primaryEvent ToLower c volunteers st ev).1 :=
  PrimFilled.ofLoops
    (fun teacher => filterByTeacher
      (st.2.Shuffle (filterVolunteersByEvent volunteers c.eventType ev.name)).1 teacher)
    (fun _ => mem_teacherCandidates _ _ _ _ _ _) hvol ev.teachers ht (st.1.resetEvent ev.name)

theorem PrimFilled.ofPrimaryPass {ToLower : String → String} {volunteers : List Volunteer}
    {c : Category} (evs : List Event)
    (hnd : (evs.map Event.name).Nodup) (hvol : ∀ v ∈ volunteers, v.Alternate = false)
    {ev : Event} (hev : ev ∈ evs) {t : String} (ht : t ∈ ev.teachers) (st : Maps × Rand) :
    PrimFilled ToLower volunteers c ev.name t ev.count (evs.foldl (primaryEvent ToLower c volunteers) st).1 :=
  foldl_establish (primaryEvent ToLower c volunteers)
    (fun st' => PrimFilled ToLower volunteers c ev.name t ev.count st'.1) ev
    (fun st' => PrimFilled.ofPrimaryEvent hvol ht st') evs hev
    (fun st' b hb hne hst' =>
      primaryEvent_inv (PrimFilled ToLower volunteers c ev.name t ev.count) c volunteers b
        (fun _ hm => hm.stableReset (fun heq => hne (name_injOn hnd hb hev heq)))
        (fun _ t' v _ _ _ hm' => hm'.stablePrimary c b.name t' v) st' hst')
    st

theorem primFilled_assignMaps (ToLower : String → String) (rnd rnd2 : Rand)
    (volunteers : List Volunteer)
    (parties : List PartyConfig) (fieldTrips : List FieldTripConfig) (allTeachers : List String)
    (hnames : DistinctEventNames parties fieldTrips)
    (hvol : ∀ v ∈ volunteers, v.Alternate = false)
    {c : Category} {ev : Event} (hev : ev ∈ events c parties fieldTrips allTeachers)
    {t : String} (ht : t ∈ ev.teachers) :
    PrimFilled ToLower volunteers c ev.name t ev.count
      (assignMaps ToLower rnd rnd2 volunteers parties fieldTrips allTeachers) := by
  apply alternatePasses_inv ToLower (PrimFilled ToLower volunteers c ev.name t ev.count) rnd rnd2 volunteers
    parties fieldTrips allTeachers
    (fun _ c' ev' t' v _ _ _ _ _ hm => hm.stableAlternate c' ev'.name t' v)
  unfold primaryPasses
  cases c
  · exact primaryPass_inv (PrimFilled ToLower volunteers .party ev.name t ev.count) .fieldtrip
      volunteers (tripEvents fieldTrips allTeachers)
      (fun _ ev' hev' hm => hm.stableReset
        (hnames.noSharedName.ne .fieldtrip .party (by decide) hev' hev))
      (fun _ ev' t' v _ _ _ _ hm => hm.stablePrimary .fieldtrip ev'.name t' v) _
      (PrimFilled.ofPrimaryPass (partyEvents parties allTeachers)
        (hnames.names_nodup .party allTeachers) hvol hev ht _)
  · exact PrimFilled.ofPrimaryPass (tripEvents fieldTrips allTeachers)
      (hnames.names_nodup .fieldtrip allTeachers) hvol hev ht _

theorem StrictFirst.otherAlternate {ToLower : String → String} {volunteers : List Volunteer}
    {c : Category} {E t : String}
    {m : Maps} (h : StrictFirst ToLower volunteers c E t m) (c' : Category) {event teacher : String}
    (hne : ¬ (E = event ∧ t = teacher)) (v : Volunteer) :
    StrictFirst ToLower volunteers c E t (m.addAlternate ToLower c' event teacher v) := by
  refine ⟨?_, ?_⟩
  · intro k hk
    rw [addAlternate_usedForThisEvent] at hk
    rw [addAlternate_usedFor]
    exact h.1 k hk
  · rintro ⟨a, ha, hflag, hused⟩ x hx hfree
    rw [addAlternate_assignments, appendTo_of_ne hne] at ha
    rw [addAlternate_usedFor] at hused hfree
    exact addAlternate_usedAlt_mono m c' event teacher v c _ (h.2 ⟨a, ha, hflag, hused⟩ x hx hfree)

theorem StrictFirst.visit {ToLower : String → String} {volunteers : List Volunteer} {c : Category}
    {E t : String}
    {cands : List Volunteer} (hcands : ∀ v, SignedUp volunteers c E t v → v ∈ cands)
    {m : Maps} (h : StrictFirst ToLower volunteers c E t m) :
    StrictFirst ToLower volunteers c E t (alternateTeacher ToLower c E t cands m) := by
  obtain ⟨B₁, hB₁, -, -, -, hstrict₁, hall₁⟩ := alternateLoop_row c E t true cands 0 m
  unfold alternateTeacher
  dsimp only
  split_ifs with hlt
  · refine ⟨?_, ?_⟩
    · intro k hk
      rw [alternateLoop_usedForThisEvent, alternateLoop_usedForThisEvent] at hk
      rw [alternateLoop_usedFor, alternateLoop_usedFor]
      exact h.1 k hk
    · intro _ x hx hfree
      rw [alternateLoop_usedFor, alternateLoop_usedFor] at hfree
      rcases hall₁ hlt x (hcands x hx) with h' | h' | h'
      · rw [h'.2] at hfree; exact absurd hfree (by decide)
      · rw [h.1 _ h'] at hfree; exact absurd hfree (by decide)
      · exact alternateLoop_usedAlt_mono _ _ _ _ _ _ _ _ _ h'
  · refine ⟨?_, ?_⟩
    · intro k hk
      rw [alternateLoop_usedForThisEvent] at hk
      rw [alternateLoop_usedFor]
      exact h.1 k hk
    · rintro ⟨a, ha, hflag, hused⟩ x hx hfree
      rw [alternateLoop_usedFor] at hused hfree
      rw [hB₁, List.mem_append] at ha
      rcases ha with ha | ha
      · exact alternateLoop_usedAlt_mono _ _ _ _ _ _ _ _ _ (h.2 ⟨a, ha, hflag, hused⟩ x hx hfree)
      · rw [hstrict₁ rfl a ha] at hused
        exact absurd hused (by decide)

theorem StrictFirst.visits {ToLower : String → String} {volunteers : List Volunteer} {c : Category}
    {E t : String}
    (c' : Category) (event : String) (hother : c' ≠ c → event ≠ E)
    (cands : String → List Volunteer)
    (hcands : c' = c → event = E → ∀ v, SignedUp volunteers c E t v → v ∈ cands t)
    (ts : List String) (m : Maps) (h : StrictFirst ToLower volunteers c E t m) :
    StrictFirst ToLower volunteers c E t
      (ts.foldl (fun m teacher => alternateTeacher ToLower c' event teacher (cands teacher) m) m) :=
  foldl_inv (fun m teacher => alternateTeacher ToLower c' event teacher (cands teacher) m)
    (StrictFirst ToLower volunteers c E t) ts
    (fun m t' _ hm => by
      by_cases hsame : c' = c ∧ event = E ∧ t' = t
      · obtain ⟨rfl, rfl, rfl⟩ := hsame
        exact hm.visit (hcands rfl rfl)
      · have hne : ¬ (E = event ∧ t = t') := by
          rintro ⟨rfl, rfl⟩
          by_cases hc : c' = c
          · exact hsame ⟨hc, rfl, rfl⟩
          · exact hother hc rfl
        exact alternateTeacher_inv (StrictFirst ToLower volunteers c E t) c' event t' _
          (fun _ v _ _ _ hm' => hm'.otherAlternate c' hne v) m hm)
    m h

theorem StrictFirst.throughPass {ToLower : String → String} {volunteers : List Volunteer}
    {c : Category} {E t : String}
    (c' : Category) (evs : List Event) (hother : c' ≠ c → ∀ ev ∈ evs, ev.name ≠ E)
    (st : Maps × Rand) (h : StrictFirst ToLower volunteers c E t st.1) :
    StrictFirst ToLower volunteers c E t (evs.foldl (alternateEvent ToLower c' volunteers) st).1 :=
  foldl_inv (alternateEvent ToLower c' volunteers) (fun st' => StrictFirst ToLower volunteers c E t st'.1) evs
    (fun st' ev hev hst' =>
      StrictFirst.visits c' ev.name (fun hc => hother hc ev hev)
        (fun teacher => filterByTeacher
          (st'.2.Shuffle (filterVolunteersByEvent volunteers c'.eventType ev.name)).1 teacher)
        (fun hc hE v hv => by
          subst hc hE
          exact (mem_teacherCandidates _ _ _ _ _ _).2 hv)
        ev.teachers st'.1 hst')
    st h

theorem strictFirst_assignMaps (ToLower : String → String) (rnd rnd2 : Rand)
    (volunteers : List Volunteer)
    (parties : List PartyConfig) (fieldTrips : List FieldTripConfig) (allTeachers : List String)
    (hshared : NoSharedName parties fieldTrips)
    (hvol : ∀ v ∈ volunteers, v.Alternate = false)
    {c : Category} {ev : Event} (hev : ev ∈ events c parties fieldTrips allTeachers)
    (t : String) :
    StrictFirst ToLower volunteers c ev.name t
      (assignMaps ToLower rnd rnd2 volunteers parties fieldTrips allTeachers) := by
  have hprim := primInv_primaryPasses ToLower rnd volunteers parties fieldTrips allTeachers
  have hstart : StrictFirst ToLower volunteers c ev.name t
      (primaryPasses ToLower rnd volunteers parties fieldTrips allTeachers).1 := by
    refine ⟨?_, ?_⟩
    · intro k hk
      obtain ⟨t', e, he, rfl⟩ := hprim.usedEvent_witness ev.name k hk
      obtain ⟨c', ev', hev', hname, hs⟩ := hprim.sound ev.name t' e he
      have hc := category_unique hshared (List.mem_map.2 ⟨ev, hev, rfl⟩) hev' hname
      subst hc
      exact hprim.used _ ev.name t' e he hs.2.1
    · rintro ⟨a, ha, hflag, -⟩
      obtain ⟨_, _, _, _, hs⟩ := hprim.sound ev.name t a ha
      rw [hvol a hs.1] at hflag
      exact absurd hflag (by decide)
  unfold assignMaps
  apply StrictFirst.throughPass .fieldtrip (tripEvents fieldTrips allTeachers)
  · intro hc ev' hev'
    exact hshared.ne _ _ hc hev' hev
  · apply StrictFirst.throughPass .party (partyEvents parties allTeachers)
    · intro hc ev' hev'
      exact hshared.ne _ _ hc hev' hev
    · exact hstart

/-- Every entry of the final table is an input record signed up for the event and the teacher
it is stored under, or the flagged copy of such a record. -/
theorem entry_sound (ToLower : String → String) (rnd rnd2 : Rand) (volunteers : List Volunteer)
    (parties : List PartyConfig) (fieldTrips : List FieldTripConfig) (allTeachers : List String)
    {E T : String} {e : Volunteer}
    (he : e ∈ assignVolunteers ToLower rnd rnd2 volunteers parties fieldTrips allTeachers E T) :
    ∃ c ev v, ev ∈ events c parties fieldTrips allTeachers ∧ ev.name = E ∧
      SignedUp volunteers c E T v ∧ (e = v ∨ e = { v with Alternate := true }) := by
  obtain ⟨B, hB⟩ := altInv_assignMaps ToLower rnd rnd2 volunteers parties fieldTrips allTeachers
  have hprim := primInv_primaryPasses ToLower rnd volunteers parties fieldTrips allTeachers
  unfold assignVolunteers at he
  rw [hB.app, List.mem_append] at he
  rcases he with he | he
  · obtain ⟨c, ev, hev, hname, hv⟩ := hprim.sound E T e he
    exact ⟨c, ev, e, hev, hname, hv, Or.inl rfl⟩
  · obtain ⟨c, ev, v, hev, hname, hv, h⟩ := hB.sound E T e he
    exact ⟨c, ev, v, hev, hname, hv, Or.inr h⟩

/-! ## Teacher lists and zero counts -/

theorem tripTeachers_self (allTeachers : List String) :
    tripTeachers allTeachers allTeachers = allTeachers := by
  unfold tripTeachers
  split_ifs <;> rfl

theorem tripTeachers_all (allTeachers : List String) :
    tripTeachers ["ALL"] allTeachers = allTeachers := by
  simp [tripTeachers]

theorem tripEvents_all (pre post : List FieldTripConfig) (trip : EventConfig)
    (allTeachers : List String) :
    tripEvents (pre ++ ⟨trip, ["ALL"]⟩ :: post) allTeachers =
      tripEvents (pre ++ ⟨trip, allTeachers⟩ :: post) allTeachers := by
  simp [tripEvents, tripTeachers_self, tripTeachers_all]

theorem primaryLoop_of_nonpos {ToLower : String → String} (c : Category) (event : String)
    {count : Int} (hcount : count ≤ 0)
    (teacher : String) (cands : List Volunteer) (assigned : Nat) (m : Maps) :
    primaryLoop ToLower c event count teacher cands assigned m = m := by
  cases cands with
  | nil => rfl
  | cons v vs =>
    rw [primaryLoop, if_pos]
    omega

theorem primaryEvent_of_nonpos {ToLower : String → String} (c : Category)
    (volunteers : List Volunteer) (st : Maps × Rand)
    (ev : Event) (hcount : ev.count ≤ 0) :
    (primaryEvent ToLower c volunteers st ev).1 = st.1.resetEvent ev.name := by
  unfold primaryEvent
  exact foldl_inv
    (fun m teacher => primaryLoop ToLower c ev.name ev.count teacher
      (filterByTeacher (st.2.Shuffle
        (filterVolunteersByEvent volunteers c.eventType ev.name)).1 teacher) 0 m)
    (fun m => m = st.1.resetEvent ev.name) ev.teachers
    (fun m t _ hm => by
      dsimp only
      rw [primaryLoop_of_nonpos c ev.name hcount]
      exact hm)
    _ rfl

theorem primaryPass_nonpos {ToLower : String → String} (c : Category) (volunteers : List Volunteer)
    (evs : List Event)
    (hnames : (evs.map Event.name).Nodup) (ev : Event) (hev : ev ∈ evs)
    (hcount : ev.count ≤ 0) (st : Maps × Rand) (t : String) :
    (evs.foldl (primaryEvent ToLower c volunteers) st).1.assignments ev.name t = [] :=
  foldl_establish (primaryEvent ToLower c volunteers)
    (fun st' => st'.1.assignments ev.name t = []) ev
    (fun st' => by
      dsimp only
      rw [primaryEvent_of_nonpos c volunteers st' ev hcount]
      simp)
    evs hev
    (fun st' b hb hne hst' => by
      dsimp only at hst' ⊢
      rw [primaryEvent_frame c volunteers st' b
        (fun hE => hne (name_injOn hnames hb hev hE.symm))]
      exact hst')
    st

/-- With distinct event names, the list of an event whose count is at most 0 is empty after the
primary passes. -/
theorem primaryPasses_nonpos (ToLower : String → String) (rnd : Rand) (volunteers : List Volunteer)
    {parties : List PartyConfig} {fieldTrips : List FieldTripConfig} {allTeachers : List String}
    (hnames : DistinctEventNames parties fieldTrips) {c : Category} {ev : Event}
    (hev : ev ∈ events c parties fieldTrips allTeachers) (hcount : ev.count ≤ 0) (t : String) :
    (primaryPasses ToLower rnd volunteers parties fieldTrips allTeachers).1.assignments ev.name t = [] := by
  unfold primaryPasses
  cases c
  · have hnot : ev.name ∉ (tripEvents fieldTrips allTeachers).map Event.name :=
      hnames.noSharedName.not_mem .party .fieldtrip (by decide) hev
    rw [primaryPass_frame .fieldtrip volunteers (tripEvents fieldTrips allTeachers) _ hnot]
    exact primaryPass_nonpos .party volunteers _ (hnames.names_nodup .party allTeachers) ev hev
      hcount _ t
  · exact primaryPass_nonpos .fieldtrip volunteers _ (hnames.names_nodup .fieldtrip allTeachers)
      ev hev hcount _ t

theorem teacherInv_assignMaps (ToLower : String → String) (rnd rnd2 : Rand)
    (volunteers : List Volunteer)
    (parties : List PartyConfig) (fieldTrips : List FieldTripConfig) (allTeachers : List String) :
    TeacherInv parties fieldTrips allTeachers
      (assignMaps ToLower rnd rnd2 volunteers parties fieldTrips allTeachers) := by
  apply alternatePasses_inv ToLower (TeacherInv parties fieldTrips allTeachers) rnd rnd2 volunteers
    parties fieldTrips allTeachers
  · intro m c ev t v hev ht _ _ _ hm E t' e he
    rw [addAlternate_assignments, mem_appendTo] at he
    rcases he with he | ⟨rfl, rfl, -⟩
    · exact hm E t' e he
    · exact ⟨c, ev, hev, rfl, ht⟩
  · apply primaryPasses_inv ToLower (TeacherInv parties fieldTrips allTeachers) rnd volunteers
      parties fieldTrips allTeachers
    · intro E t e he
      simp at he
    · intro m c ev _ hm E t e he
      by_cases hE : E = ev.name
      · simp [hE] at he
      · simp only [resetEvent_assignments, hE, if_false] at he
        exact hm E t e he
    · intro m c ev t v hev ht _ _ hm E t' e he
      rw [addPrimary_assignments, mem_appendTo] at he
      rcases he with he | ⟨rfl, rfl, -⟩
      · exact hm E t' e he
      · exact ⟨c, ev, hev, rfl, ht⟩

/-- With distinct event names, a teacher with a non-empty list under the name of an event is
iterated by that event. -/
theorem teacher_of_nonempty (ToLower : String → String) (rnd rnd2 : Rand)
    (volunteers : List Volunteer)
    {parties : List PartyConfig} {fieldTrips : List FieldTripConfig} {allTeachers : List String}
    (hnames : DistinctEventNames parties fieldTrips) {c : Category} {ev : Event}
    (hev : ev ∈ events c parties fieldTrips allTeachers) {T : String}
    (hne : assignVolunteers ToLower rnd rnd2 volunteers parties fieldTrips allTeachers ev.name T ≠ []) :
    T ∈ ev.teachers := by
  obtain ⟨e, he⟩ := List.exists_mem_of_ne_nil _ hne
  obtain ⟨c', ev', hev', hname, hT⟩ :=
    teacherInv_assignMaps ToLower rnd rnd2 volunteers parties fieldTrips allTeachers ev.name T e he
  have hc := category_unique hnames.noSharedName (List.mem_map.2 ⟨ev, hev, rfl⟩) hev' hname
  subst hc
  have heq : ev' = ev := name_injOn (hnames.names_nodup c' allTeachers) hev' hev hname
  rw [← heq]
  exact hT

/-! ## Distinct names inside a list -/

theorem rowsDistinct_appendTo {ToLower : String → String} {a : Table} (h : RowsDistinct ToLower a)
    {event teacher : String}
    {v : Volunteer} (hv : ∀ e ∈ a event teacher, SameTypeDistinct ToLower e v) :
    RowsDistinct ToLower (appendTo a event teacher v) := by
  intro E t
  unfold appendTo
  split_ifs with hEt
  · obtain ⟨rfl, rfl⟩ := hEt
    rw [List.pairwise_append]
    refine ⟨h E t, List.pairwise_singleton _ _, ?_⟩
    intro x hx y hy
    rw [List.mem_singleton] at hy
    subst hy
    exact hv x hx
  · exact h E t

theorem primRows_primaryPasses (ToLower : String → String) (rnd : Rand)
    (volunteers : List Volunteer)
    (parties : List PartyConfig) (fieldTrips : List FieldTripConfig) (allTeachers : List String) :
    RowsDistinct ToLower (primaryPasses ToLower rnd volunteers parties fieldTrips allTeachers).1.assignments := by
  have h := primaryPasses_inv ToLower
    (fun m => PrimInv ToLower volunteers parties fieldTrips allTeachers m ∧ RowsDistinct ToLower m.assignments)
    rnd volunteers parties fieldTrips allTeachers
    ⟨PrimInv.empty _ _ _ _, fun _ _ => List.Pairwise.nil⟩
    (fun m _ ev _ hm => ⟨hm.1.afterReset ev.name, by
      intro E t
      by_cases hE : E = ev.name
      · simp [hE]
      · simpa [hE] using hm.2 E t⟩)
    (fun m c ev t v hev _ hv hfresh hm => ⟨hm.1.afterPrimary hev hv hfresh, by
      rw [addPrimary_assignments]
      apply rowsDistinct_appendTo hm.2
      intro e he hty hkey
      have := hm.1.used c ev.name t e he (hty.trans hv.2.1)
      rw [hkey, hfresh] at this
      exact absurd this (by decide)⟩)
  exact h.2

theorem altRows_assignMaps (ToLower : String → String) (rnd rnd2 : Rand)
    (volunteers : List Volunteer)
    (parties : List PartyConfig) (fieldTrips : List FieldTripConfig) (allTeachers : List String) :
    ∃ B, AltInv ToLower volunteers parties fieldTrips allTeachers
        (primaryPasses ToLower rnd volunteers parties fieldTrips allTeachers).1
        (assignMaps ToLower rnd rnd2 volunteers parties fieldTrips allTeachers) B ∧
      RowsDistinct ToLower B :=
  alternatePasses_inv ToLower
    (fun m => ∃ B, AltInv ToLower volunteers parties fieldTrips allTeachers
      (primaryPasses ToLower rnd volunteers parties fieldTrips allTeachers).1 m B ∧ RowsDistinct ToLower B)
    rnd rnd2 volunteers parties fieldTrips allTeachers
    (fun m c ev t v hev _ hv hevent hfresh ⟨B, hB, hrows⟩ =>
      ⟨_, hB.afterAlternate hev hv hevent hfresh, by
        apply rowsDistinct_appendTo hrows
        intro e he hty hkey
        have := hB.usedAlt c ev.name t e he (hty.trans hv.2.1)
        rw [hkey] at this
        exact absurd (this.symm.trans hfresh) (by decide)⟩)
    ⟨_, AltInv.start (primInv_primaryPasses ToLower rnd volunteers parties fieldTrips allTeachers).noAlt,
      fun _ _ => List.Pairwise.nil⟩

/-- When no field trip has the name of a party, the entries stored under the name of an event of
a category have the `EventType` of that category. -/
theorem entry_eventType (ToLower : String → String) (rnd rnd2 : Rand) (volunteers : List Volunteer)
    {parties : List PartyConfig} {fieldTrips : List FieldTripConfig} {allTeachers : List String}
    (hshared : NoSharedName parties fieldTrips) {c : Category} {ev : Event}
    (hev : ev ∈ events c parties fieldTrips allTeachers) {T : String} {e : Volunteer}
    (he : e ∈ assignVolunteers ToLower rnd rnd2 volunteers parties fieldTrips allTeachers ev.name T) :
    e.EventType = c.eventType := by
  obtain ⟨c', ev', v, hev', hname, hv, hor⟩ :=
    entry_sound ToLower rnd rnd2 volunteers parties fieldTrips allTeachers he
  have hc := category_unique hshared (List.mem_map.2 ⟨ev, hev, rfl⟩) hev' hname
  subst hc
  rcases hor with rfl | rfl
  · exact hv.2.1
  · exact hv.2.1

/-- When no field trip has the name of a party, two entries stored under the name of one event
at different places (another teacher, or another position of the same list) carry different
normalized names. -/
theorem event_keys_distinct (ToLower : String → String) (rnd rnd2 : Rand)
    (volunteers : List Volunteer)
    {parties : List PartyConfig} {fieldTrips : List FieldTripConfig} {allTeachers : List String}
    (hshared : NoSharedName parties fieldTrips) {c : Category} {ev : Event}
    (hev : ev ∈ events c parties fieldTrips allTeachers) :
    (∀ T₁ T₂ e₁ e₂, T₁ ≠ T₂ →
      e₁ ∈ assignVolunteers ToLower rnd rnd2 volunteers parties fieldTrips allTeachers ev.name T₁ →
      e₂ ∈ assignVolunteers ToLower rnd rnd2 volunteers parties fieldTrips allTeachers ev.name T₂ →
      nameKey ToLower e₁.Name ≠ nameKey ToLower e₂.Name) ∧
    (∀ T, ((assignVolunteers ToLower rnd rnd2 volunteers parties fieldTrips allTeachers ev.name T).map
      (fun e => nameKey ToLower e.Name)).Nodup) := by
  obtain ⟨B, hB, hrowsB⟩ := altRows_assignMaps ToLower rnd rnd2 volunteers parties fieldTrips allTeachers
  have hprim := primInv_primaryPasses ToLower rnd volunteers parties fieldTrips allTeachers
  have hrowsP := primRows_primaryPasses ToLower rnd volunteers parties fieldTrips allTeachers
  have hty : ∀ {T e}, e ∈ assignVolunteers ToLower rnd rnd2 volunteers parties fieldTrips allTeachers
      ev.name T → e.EventType = c.eventType :=
    fun he => entry_eventType ToLower rnd rnd2 volunteers hshared hev he
  have htable : ∀ T, assignVolunteers ToLower rnd rnd2 volunteers parties fieldTrips allTeachers
      ev.name T =
      (primaryPasses ToLower rnd volunteers parties fieldTrips allTeachers).1.assignments ev.name T ++
        B ev.name T := fun T => hB.app ev.name T
  have cross : ∀ T₁ T₂ e₁ e₂,
      e₁ ∈ (primaryPasses ToLower rnd volunteers parties fieldTrips allTeachers).1.assignments ev.name T₁ →
      e₂ ∈ B ev.name T₂ → nameKey ToLower e₁.Name ≠ nameKey ToLower e₂.Name := by
    intro T₁ T₂ e₁ e₂ h₁ h₂ hkey
    have k₁ := hprim.usedEvent ev.name T₁ e₁ h₁
    have k₂ := hB.notUsedEvent ev.name T₂ e₂ h₂
    rw [hkey, k₂] at k₁
    exact absurd k₁ (by decide)
  constructor
  · intro T₁ T₂ e₁ e₂ hne h₁ h₂
    have ty₁ := hty h₁
    have ty₂ := hty h₂
    rw [htable, List.mem_append] at h₁ h₂
    rcases h₁ with h₁ | h₁ <;> rcases h₂ with h₂ | h₂
    · exact hprim.uniq c ev.name T₁ ev.name T₂ e₁ e₂ (fun h => hne h.2) h₁ h₂ ty₁ ty₂
    · exact cross T₁ T₂ e₁ e₂ h₁ h₂
    · exact fun hkey => cross T₂ T₁ e₂ e₁ h₂ h₁ hkey.symm
    · exact hB.uniq c ev.name T₁ ev.name T₂ e₁ e₂ (fun h => hne h.2) h₁ h₂ ty₁ ty₂
  · intro T
    have hmem : ∀ e, e ∈ (primaryPasses ToLower rnd volunteers parties fieldTrips
        allTeachers).1.assignments ev.name T ++ B ev.name T → e.EventType = c.eventType := by
      intro e he
      rw [← htable] at he
      exact hty he
    rw [htable, List.Nodup, List.pairwise_map, List.pairwise_append]
    refine ⟨?_, ?_, fun e₁ h₁ e₂ h₂ => cross T T e₁ e₂ h₁ h₂⟩
    · exact (hrowsP ev.name T).imp_of_mem (fun {a b} ha hb h =>
        h ((hmem a (List.mem_append_left _ ha)).trans
          (hmem b (List.mem_append_left _ hb)).symm))
    · exact (hrowsB ev.name T).imp_of_mem (fun {a b} ha hb h =>
        h ((hmem a (List.mem_append_right _ ha)).trans
          (hmem b (List.mem_append_right _ hb)).symm))

theorem erase_pair {α : Type} [DecidableEq α] {l : List α} {p : α} (hp : p ∈ l)
    (hlen : l.length = 3) : ∃ b c, [p, b, c].Perm l := by
  have h := List.length_erase_of_mem hp
  rw [hlen] at h
  obtain ⟨b, c, hbc⟩ := List.length_eq_two.1 h
  exact ⟨b, c, by rw [← hbc]; exact (List.perm_cons_erase hp).symm⟩

/-! ## Dependence on the generators -/

theorem SameStream.ofIntn {r r' : Rand} (h : SameStream r r') (n : Nat) :
    (r.intn n).1 = (r'.intn n).1 ∧ SameStream (r.intn n).2 (r'.intn n).2 := by
  constructor
  · have := h 0
    simp only [Nat.add_zero] at this
    simp [Rand.intn, this]
  · intro i
    have := h (1 + i)
    simpa [Rand.intn, Nat.add_assoc] using this

theorem SameStream.ofShuffleLoop {α : Type} :
    ∀ (i : Nat) (r r' : Rand) (l : List α), SameStream r r' →
      (shuffleLoop i r l).1 = (shuffleLoop i r' l).1 ∧
        SameStream (shuffleLoop i r l).2 (shuffleLoop i r' l).2
  | 0, _, _, _, h => ⟨rfl, h⟩
  | i + 1, r, r', l, h => by
    have hn := h.ofIntn (i + 2)
    rw [VolunteerChooser.shuffleLoop, VolunteerChooser.shuffleLoop, hn.1]
    exact SameStream.ofShuffleLoop i _ _ _ hn.2

theorem SameStream.ofShuffle {α : Type} {r r' : Rand} (h : SameStream r r') (l : List α) :
    (r.Shuffle l).1 = (r'.Shuffle l).1 ∧ SameStream (r.Shuffle l).2 (r'.Shuffle l).2 :=
  SameStream.ofShuffleLoop _ r r' l h

theorem SameState.primaryStep {ToLower : String → String} (c : Category)
    (volunteers : List Volunteer) {st st' : Maps × Rand}
    (h : SameState st st') (ev : Event) :
    SameState (primaryEvent ToLower c volunteers st ev) (primaryEvent ToLower c volunteers st' ev) := by
  have hs := h.2.ofShuffle (filterVolunteersByEvent volunteers c.eventType ev.name)
  unfold primaryEvent SameState
  dsimp only
  rw [hs.1, h.1]
  exact ⟨rfl, hs.2⟩

theorem SameState.alternateStep {ToLower : String → String} (c : Category)
    (volunteers : List Volunteer)
    {st st' : Maps × Rand} (h : SameState st st') (ev : Event) :
    SameState (alternateEvent ToLower c volunteers st ev) (alternateEvent ToLower c volunteers st' ev) := by
  have hs := h.2.ofShuffle (filterVolunteersByEvent volunteers c.eventType ev.name)
  unfold alternateEvent SameState
  dsimp only
  rw [hs.1, h.1]
  exact ⟨rfl, hs.2⟩

theorem SameState.ofFold (f : Maps × Rand → Event → Maps × Rand)
    (hf : ∀ st st' ev, SameState st st' → SameState (f st ev) (f st' ev)) :
    ∀ (evs : List Event) (st st' : Maps × Rand), SameState st st' →
      SameState (evs.foldl f st) (evs.foldl f st')
  | [], _, _, h => h
  | ev :: evs, st, st', h => by
    rw [List.foldl_cons, List.foldl_cons]
    exact SameState.ofFold f hf evs _ _ (hf st st' ev h)

/-- The returned table depends on the two generators only through the values they deliver. -/
theorem assignVolunteers_sameStream {ToLower : String → String} {rnd rnd2 rnd' rnd2' : Rand}
    (h₁ : SameStream rnd rnd')
    (h₂ : SameStream rnd2 rnd2') (volunteers : List Volunteer) (parties : List PartyConfig)
    (fieldTrips : List FieldTripConfig) (allTeachers : List String) :
    assignVolunteers ToLower rnd rnd2 volunteers parties fieldTrips allTeachers =
      assignVolunteers ToLower rnd' rnd2' volunteers parties fieldTrips allTeachers := by
  have hprim : SameState (primaryPasses ToLower rnd volunteers parties fieldTrips allTeachers)
      (primaryPasses ToLower rnd' volunteers parties fieldTrips allTeachers) := by
    unfold primaryPasses
    apply SameState.ofFold (primaryEvent ToLower .fieldtrip volunteers)
      (fun _ _ ev h => h.primaryStep .fieldtrip volunteers ev)
    apply SameState.ofFold (primaryEvent ToLower .party volunteers)
      (fun _ _ ev h => h.primaryStep .party volunteers ev)
    exact ⟨rfl, h₁⟩
  have halt : SameState
      ((tripEvents fieldTrips allTeachers).foldl (alternateEvent ToLower .fieldtrip volunteers)
        ((partyEvents parties allTeachers).foldl (alternateEvent ToLower .party volunteers)
          ((primaryPasses ToLower rnd volunteers parties fieldTrips allTeachers).1, rnd2)))
      ((tripEvents fieldTrips allTeachers).foldl (alternateEvent ToLower .fieldtrip volunteers)
        ((partyEvents parties allTeachers).foldl (alternateEvent ToLower .party volunteers)
          ((primaryPasses ToLower rnd' volunteers parties fieldTrips allTeachers).1, rnd2'))) := by
    apply SameState.ofFold (alternateEvent ToLower .fieldtrip volunteers)
      (fun _ _ ev h => h.alternateStep .fieldtrip volunteers ev)
    apply SameState.ofFold (alternateEvent ToLower .party volunteers)
      (fun _ _ ev h => h.alternateStep .party volunteers ev)
    exact ⟨hprim.1, h₂⟩
  unfold assignVolunteers assignMaps
  rw [halt.1]

/-! ## The party passes and the field-trip passes -/

theorem PartyView.same (names : List String) (m : Maps) : PartyView names m m :=
  ⟨fun _ _ => rfl, fun _ _ => rfl, rfl, rfl⟩

theorem PartyView.flip {names : List String} {m m' : Maps} (h : PartyView names m m') :
    PartyView names m' m :=
  ⟨fun E hE => (h.1 E hE).symm, fun E hE => (h.2.1 E hE).symm, h.2.2.1.symm, h.2.2.2.symm⟩

theorem PartyView.chain {names : List String} {m m' m'' : Maps} (h : PartyView names m m')
    (h' : PartyView names m' m'') : PartyView names m m'' :=
  ⟨fun E hE => (h.1 E hE).trans (h'.1 E hE), fun E hE => (h.2.1 E hE).trans (h'.2.1 E hE),
    h.2.2.1.trans h'.2.2.1, h.2.2.2.trans h'.2.2.2⟩

theorem appendTo_other {a : Table} {event teacher : String} {v : Volunteer} {E : String}
    (h : E ≠ event) : appendTo a event teacher v E = a E := by
  funext t
  unfold appendTo
  rw [if_neg (fun hh => h hh.1)]

theorem PartyView.tripReset {names : List String} {m m' : Maps} (h : PartyView names m m')
    {event : String} (hE : event ∉ names) : PartyView names (m.resetEvent event) m' := by
  refine ⟨fun E hmem => ?_, fun E hmem => ?_, h.2.2.1, h.2.2.2⟩
  · have hne : E ≠ event := fun heq => hE (heq ▸ hmem)
    simpa [Maps.resetEvent, hne] using h.1 E hmem
  · have hne : E ≠ event := fun heq => hE (heq ▸ hmem)
    simpa [Maps.resetEvent, hne] using h.2.1 E hmem

theorem PartyView.tripPrimary {ToLower : String → String} {names : List String} {m m' : Maps}
    (h : PartyView names m m')
    {event : String} (hE : event ∉ names) (teacher : String) (v : Volunteer) :
    PartyView names (m.addPrimary ToLower .fieldtrip event teacher v) m' := by
  refine ⟨fun E hmem => ?_, fun E hmem => ?_, h.2.2.1, h.2.2.2⟩
  · have hne : E ≠ event := fun heq => hE (heq ▸ hmem)
    show appendTo m.assignments event teacher v E = _
    rw [appendTo_other hne]
    exact h.1 E hmem
  · have hne : E ≠ event := fun heq => hE (heq ▸ hmem)
    simpa [Maps.addPrimary, hne] using h.2.1 E hmem

theorem PartyView.tripAlternate {ToLower : String → String} {names : List String} {m m' : Maps}
    (h : PartyView names m m')
    {event : String} (hE : event ∉ names) (teacher : String) (v : Volunteer) :
    PartyView names (m.addAlternate ToLower .fieldtrip event teacher v) m' := by
  refine ⟨fun E hmem => ?_, fun E hmem => h.2.1 E hmem, h.2.2.1, h.2.2.2⟩
  have hne : E ≠ event := fun heq => hE (heq ▸ hmem)
  show appendTo m.assignments event teacher { v with Alternate := true } E = _
  rw [appendTo_other hne]
  exact h.1 E hmem

theorem PartyView.partyAlternate {ToLower : String → String} {names : List String} {m m' : Maps}
    (h : PartyView names m m')
    (event teacher : String) (v : Volunteer) :
    PartyView names (m.addAlternate ToLower .party event teacher v)
      (m'.addAlternate ToLower .party event teacher v) := by
  refine ⟨fun E hmem => ?_, fun E hmem => h.2.1 E hmem, h.2.2.1, ?_⟩
  · show appendTo m.assignments event teacher { v with Alternate := true } E =
      appendTo m'.assignments event teacher { v with Alternate := true } E
    funext t
    unfold appendTo
    rw [h.1 E hmem]
  · show mark m.usedAsAlternate (nameKey ToLower v.Name) = mark m'.usedAsAlternate (nameKey ToLower v.Name)
    rw [h.2.2.2]

theorem PartyView.partyLoop (ToLower : String → String) {names : List String} {event : String}
    (hE : event ∈ names)
    (teacher : String) (unique : Bool) :
    ∀ (cands : List Volunteer) (assigned : Nat) (m m' : Maps), PartyView names m m' →
      (alternateLoop ToLower .party event teacher unique cands assigned m).1 =
        (alternateLoop ToLower .party event teacher unique cands assigned m').1 ∧
      PartyView names (alternateLoop ToLower .party event teacher unique cands assigned m).2
        (alternateLoop ToLower .party event teacher unique cands assigned m').2
  | [], _, _, _, h => ⟨rfl, h⟩
  | v :: vs, assigned, m, m', h => by
    have h1 : m.usedFor .party = m'.usedFor .party := h.2.2.1
    have h2 : m.usedForThisEvent event = m'.usedForThisEvent event := h.2.1 event hE
    have h3 : m.usedAlt .party = m'.usedAlt .party := h.2.2.2
    rw [alternateLoop, alternateLoop, h1, h2, h3]
    split_ifs
    · exact ⟨rfl, h⟩
    · exact PartyView.partyLoop ToLower hE teacher unique vs _ _ _ (h.partyAlternate event teacher v)
    · exact PartyView.partyLoop ToLower hE teacher unique vs _ _ _ h

theorem PartyView.partyTeacher {ToLower : String → String} {names : List String} {event : String}
    (hE : event ∈ names)
    (teacher : String) (cands : List Volunteer) {m m' : Maps} (h : PartyView names m m') :
    PartyView names (alternateTeacher ToLower .party event teacher cands m)
      (alternateTeacher ToLower .party event teacher cands m') := by
  have hs := PartyView.partyLoop ToLower hE teacher true cands 0 m m' h
  unfold alternateTeacher
  dsimp only
  rw [hs.1]
  split_ifs
  · exact (PartyView.partyLoop ToLower hE teacher false cands _ _ _ hs.2).2
  · exact hs.2

theorem foldl_rel {σ α : Type} (f g : σ → α → σ) (R : σ → σ → Prop) :
    ∀ (l : List α), (∀ s s' a, a ∈ l → R s s' → R (f s a) (g s' a)) →
      ∀ s s', R s s' → R (l.foldl f s) (l.foldl g s')
  | [], _, _, _, h => h
  | a :: l, hstep, s, s', h => by
    rw [List.foldl_cons, List.foldl_cons]
    exact foldl_rel f g R l (fun s s' b hb => hstep s s' b (List.mem_cons_of_mem _ hb)) _ _
      (hstep s s' a (List.mem_cons_self _ _) h)

/-- The party candidates of an event are determined by the party volunteers. -/
theorem partyCandidates_eq {volunteers₁ volunteers₂ : List Volunteer}
    (hvol : volunteers₁.filter (fun v => decide (v.EventType = "party")) =
      volunteers₂.filter (fun v => decide (v.EventType = "party"))) (event : String) :
    filterVolunteersByEvent volunteers₁ Category.party.eventType event =
      filterVolunteersByEvent volunteers₂ Category.party.eventType event := by
  have h : ∀ l : List Volunteer,
      filterVolunteersByEvent l Category.party.eventType event =
        (l.filter (fun v => decide (v.EventType = "party"))).filter
          (fun v => decide (v.EventName = event)) := by
    intro l
    rw [filterVolunteersByEvent_eq_filter, List.filter_filter]
    congr 1
    funext v
    simp [Category.eventType, Bool.and_comm]
  rw [h, h, hvol]

theorem PartyState.partyStep {ToLower : String → String} {names : List String}
    {volunteers₁ volunteers₂ : List Volunteer}
    (hvol : volunteers₁.filter (fun v => decide (v.EventType = "party")) =
      volunteers₂.filter (fun v => decide (v.EventType = "party")))
    {st st' : Maps × Rand} (h : PartyState names st st') {ev : Event} (hE : ev.name ∈ names) :
    PartyState names (alternateEvent ToLower .party volunteers₁ st ev)
      (alternateEvent ToLower .party volunteers₂ st' ev) := by
  unfold alternateEvent PartyState
  dsimp only
  rw [partyCandidates_eq hvol ev.name, h.2]
  refine ⟨?_, rfl⟩
  exact foldl_rel
    (fun m teacher => alternateTeacher ToLower .party ev.name teacher
      (filterByTeacher (st'.2.Shuffle
        (filterVolunteersByEvent volunteers₂ Category.party.eventType ev.name)).1 teacher) m)
    (fun m teacher => alternateTeacher ToLower .party ev.name teacher
      (filterByTeacher (st'.2.Shuffle
        (filterVolunteersByEvent volunteers₂ Category.party.eventType ev.name)).1 teacher) m)
    (PartyView names) ev.teachers
    (fun _ _ teacher _ hm => PartyView.partyTeacher hE teacher _ hm) _ _ h.1

theorem primaryEvent_party_eq {ToLower : String → String} {volunteers₁ volunteers₂ : List Volunteer}
    (hvol : volunteers₁.filter (fun v => decide (v.EventType = "party")) =
      volunteers₂.filter (fun v => decide (v.EventType = "party"))) :
    primaryEvent ToLower .party volunteers₁ = primaryEvent ToLower .party volunteers₂ := by
  funext st ev
  unfold primaryEvent
  rw [partyCandidates_eq hvol ev.name]

/-- The party view at the end of a run is the party view of the run in which the field-trip
passes are left out. -/
theorem partyView_assignMaps (ToLower : String → String) (rnd rnd2 : Rand)
    (volunteers : List Volunteer)
    {parties : List PartyConfig} {fieldTrips : List FieldTripConfig}
    (allTeachers : List String) (names : List String)
    (hparty : ∀ ev ∈ partyEvents parties allTeachers, ev.name ∈ names)
    (hnot : ∀ ev ∈ tripEvents fieldTrips allTeachers, ev.name ∉ names) :
    PartyView names
      (assignMaps ToLower rnd rnd2 volunteers parties fieldTrips allTeachers)
      ((partyEvents parties allTeachers).foldl (alternateEvent ToLower .party volunteers)
        (((partyEvents parties allTeachers).foldl (primaryEvent ToLower .party volunteers)
          (Maps.empty, rnd)).1, rnd2)).1 := by
  have hprim : PartyView names
      (primaryPasses ToLower rnd volunteers parties fieldTrips allTeachers).1
      ((partyEvents parties allTeachers).foldl (primaryEvent ToLower .party volunteers)
        (Maps.empty, rnd)).1 := by
    unfold primaryPasses
    exact primaryPass_inv
      (fun m => PartyView names m
        ((partyEvents parties allTeachers).foldl (primaryEvent ToLower .party volunteers)
          (Maps.empty, rnd)).1)
      .fieldtrip volunteers (tripEvents fieldTrips allTeachers)
      (fun m ev hev hm => PartyView.tripReset hm (hnot ev hev))
      (fun m ev t v hev _ _ _ hm => PartyView.tripPrimary hm (hnot ev hev) t v)
      _ (PartyView.same _ _)
  unfold assignMaps
  apply alternatePass_inv
    (fun m => PartyView names m
      ((partyEvents parties allTeachers).foldl (alternateEvent ToLower .party volunteers)
        (((partyEvents parties allTeachers).foldl (primaryEvent ToLower .party volunteers)
          (Maps.empty, rnd)).1, rnd2)).1)
    .fieldtrip volunteers (tripEvents fieldTrips allTeachers)
    (fun m ev t v hev _ _ _ _ hm => PartyView.tripAlternate hm (hnot ev hev) t v)
  exact (foldl_rel (alternateEvent ToLower .party volunteers) (alternateEvent ToLower .party volunteers)
    (PartyState names) (partyEvents parties allTeachers)
    (fun _ _ ev hev hst => hst.partyStep rfl (hparty ev hev))
    ((primaryPasses ToLower rnd volunteers parties fieldTrips allTeachers).1, rnd2)
    (((partyEvents parties allTeachers).foldl (primaryEvent ToLower .party volunteers)
      (Maps.empty, rnd)).1, rnd2) ⟨hprim, rfl⟩).1

theorem partyEvents_name_mem {parties : List PartyConfig} {allTeachers : List String} :
    ∀ ev ∈ partyEvents parties allTeachers, ev.name ∈ parties.map (fun p => p.Name) := by
  intro ev hev
  obtain ⟨p, hp, rfl⟩ := List.mem_map.1 hev
  exact List.mem_map.2 ⟨p, hp, rfl⟩

theorem tripEvents_name_not_mem {parties : List PartyConfig} {fieldTrips : List FieldTripConfig}
    {allTeachers : List String} (hshared : NoSharedName parties fieldTrips) :
    ∀ ev ∈ tripEvents fieldTrips allTeachers, ev.name ∉ parties.map (fun p => p.Name) := by
  intro ev hev hmem
  obtain ⟨f, hf, rfl⟩ := List.mem_map.1 hev
  obtain ⟨p, hp, hname⟩ := List.mem_map.1 hmem
  exact hshared p hp f hf hname

/-! ## Phone numbers with single-byte digits -/

theorem utf8_single {l : List Char} (h : ∀ c ∈ l, c.toNat < 128) :
    utf8 l = l.map Char.toNat := by
  induction l with
  | nil => rfl
  | cons c cs ih =>
    have hc := h c (List.mem_cons_self _ _)
    rw [utf8, ih (fun x hx => h x (List.mem_cons_of_mem _ hx)), utf8Char, if_pos hc]
    rfl

/-- On inputs whose digits are all single-byte runes, `FormatPhoneNumber` returns the result
described for it: the ten digits formatted, or the input when it has not exactly 10 digits. -/
theorem formatPhoneNumber_single_byte (IsDigit : Char → Bool) (input : List Char)
    (h : ∀ c ∈ input, IsDigit c = true → c.toNat < 128) :
    FormatPhoneNumber IsDigit input = formatTenDigits IsDigit input := by
  have hd : ∀ c ∈ input.filter IsDigit, c.toNat < 128 := by
    intro c hc
    rw [List.mem_filter] at hc
    exact h c hc.1 hc.2
  unfold FormatPhoneNumber formatTenDigits
  dsimp only
  rw [utf8_single hd, List.length_map]
  by_cases hlen : (input.filter IsDigit).length = 10
  · rw [if_neg (not_not.2 hlen)]
    obtain ⟨d1, d2, d3, d4, d5, d6, d7, d8, d9, d10, heq⟩ :
        ∃ d1 d2 d3 d4 d5 d6 d7 d8 d9 d10, input.filter IsDigit =
          [d1, d2, d3, d4, d5, d6, d7, d8, d9, d10] := by
      match hm : input.filter IsDigit, hlen with
      | [d1, d2, d3, d4, d5, d6, d7, d8, d9, d10], _ =>
        exact ⟨d1, d2, d3, d4, d5, d6, d7, d8, d9, d10, rfl⟩
    rw [heq] at hd ⊢
    have k : ∀ c ∈ [d1, d2, d3, d4, d5, d6, d7, d8, d9, d10], c.toNat < 128 := hd
    dsimp only
    rw [utf8_single (fun c hc => k c (by simp at hc ⊢; tauto)),
      utf8_single (fun c hc => k c (by simp at hc ⊢; tauto)),
      utf8_single (fun c hc => k c (by simp at hc ⊢; tauto))]
    simp [byteSlice]
  · rw [if_pos hlen]
    split
    · rename_i heq
      rw [heq] at hlen
      exact absurd rfl hlen
    · rfl

/-! ## Sheet names -/

theorem mem_ReplaceAll {s : List Nat} {old : Nat} {new : List Nat} {x : Nat} :
    x ∈ ReplaceAll s old new ↔ (x ∈ s ∧ x ≠ old) ∨ (old ∈ s ∧ x ∈ new) := by
  induction s with
  | nil => simp [ReplaceAll]
  | cons b bs ih =>
    rw [ReplaceAll, List.mem_append, ih]
    by_cases hb : b = old
    · subst hb
      simp only [if_true, List.mem_cons, true_or, true_and]
      constructor
      · rintro (h | h | h)
        · exact Or.inr h
        · exact Or.inl ⟨Or.inr h.1, h.2⟩
        · exact Or.inr h.2
      · rintro (⟨h | h, hne⟩ | h)
        · exact absurd h hne
        · exact Or.inr (Or.inl ⟨h, hne⟩)
        · exact Or.inl h
    · simp only [if_neg hb, List.mem_cons, List.not_mem_nil, or_false]
      constructor
      · rintro (h | h | h)
        · exact Or.inl ⟨Or.inl h, h ▸ hb⟩
        · exact Or.inl ⟨Or.inr h.1, h.2⟩
        · exact Or.inr ⟨Or.inr h.1, h.2⟩
      · rintro (⟨h | h, hne⟩ | ⟨h | h, hx⟩)
        · exact Or.inl h
        · exact Or.inr (Or.inl ⟨h, hne⟩)
        · exact absurd h.symm hb
        · exact Or.inr (Or.inr ⟨h, hx⟩)

theorem mem_byteSlice {s : List Nat} {lo hi x : Nat} (h : x ∈ byteSlice s lo hi) : x ∈ s :=
  List.mem_of_mem_take (List.mem_of_mem_drop h)

theorem byteSlice_length_le (s : List Nat) (hi : Nat) : (byteSlice s 0 hi).length ≤ hi := by
  unfold byteSlice
  rw [List.drop_zero, List.length_take]
  exact Nat.min_le_left _ _

/-- The bytes of the name before the length test of `sanitizeSheetName`: none of the seven
bytes is left after the seven replacements. -/
theorem replaced_bytes {name : List Nat} {x : Nat}
    (hx : x ∈ ReplaceAll (ReplaceAll (ReplaceAll (ReplaceAll (ReplaceAll (ReplaceAll
      (ReplaceAll name 47 [45]) 92 [45]) 63 []) 42 []) 91 []) 93 []) 58 []) :
    x ∉ [47, 92, 63, 42, 91, 93, 58] := by
  simp only [mem_ReplaceAll, List.mem_singleton, List.not_mem_nil, and_false, or_false] at hx
  simp only [List.mem_cons, List.mem_singleton, List.not_mem_nil, or_false]
  omega

/-- Two runs of `sanitizeSheetName`: the bytes of `A/B:C?` give those of `A-BC`, and a name of
40 bytes is cut to its first 31 bytes. -/
theorem sanitizeSheetName_examples :
    sanitizeSheetName [65, 47, 66, 58, 67, 63] = [65, 45, 66, 67] ∧
      sanitizeSheetName (List.replicate 40 65) = List.replicate 31 65 := by
  decide

/-! ## Two spellings of one name -/

/-- Two records of one party and teacher whose names have the same key, with two primary slots:
one of them is stored and the other is skipped, in the primary pass by `usedForParty` and in the
alternate pass by `usedForThisEvent`.  With `strings.ToLower` for `ToLower` this is the input of
two spellings of one name that differ in the case of a letter outside ASCII. -/
theorem two_spellings_one_entry (ToLower : String → String) (a b : String)
    (h : ToLower a = ToLower b) :
    assignVolunteers ToLower Rand.zero Rand.zero
        [⟨a, "", "", "A", "party", "P", false⟩, ⟨b, "", "", "A", "party", "P", false⟩]
        [⟨"P", 2⟩] [] ["A"] "P" "A" =
      [⟨b, "", "", "A", "party", "P", false⟩] := by
  have hf : filterVolunteersByEvent
      [⟨a, "", "", "A", "party", "P", false⟩, ⟨b, "", "", "A", "party", "P", false⟩]
      Category.party.eventType "P" =
      [⟨a, "", "", "A", "party", "P", false⟩, ⟨b, "", "", "A", "party", "P", false⟩] := by
    rw [filterVolunteersByEvent_eq_filter]; rfl
  have hs : (Rand.zero.Shuffle
      [(⟨a, "", "", "A", "party", "P", false⟩ : Volunteer),
        ⟨b, "", "", "A", "party", "P", false⟩]).1 =
      [⟨b, "", "", "A", "party", "P", false⟩, ⟨a, "", "", "A", "party", "P", false⟩] := rfl
  have ht : filterByTeacher
      [⟨b, "", "", "A", "party", "P", false⟩, ⟨a, "", "", "A", "party", "P", false⟩] "A" =
      [⟨b, "", "", "A", "party", "P", false⟩, ⟨a, "", "", "A", "party", "P", false⟩] := by
    rw [filterByTeacher_eq_filter]; rfl
  simp [assignVolunteers, assignMaps, primaryPasses, partyEvents, tripEvents, primaryEvent,
    alternateEvent, hf, hs, ht, primaryLoop, alternateTeacher, alternateLoop, Maps.addPrimary,
    Maps.addAlternate, Maps.resetEvent, Maps.empty, Maps.usedFor, Maps.usedAlt, mark, appendTo,
    nameKey, h]

/-! ## The claims -/

/-- Claim C1, amended: when event names are pairwise distinct across parties and field trips and
no teacher list repeats a teacher, then for every generator pair, every configured event and
every teacher, the list stored under (event name, teacher) contains at most `max(Count, 0)`
primary entries. -/
theorem primary_quota_bound (ToLower : String → String) (rnd rnd2 : Rand)
    (volunteers : List Volunteer)
    (parties : List PartyConfig) (fieldTrips : List FieldTripConfig) (allTeachers : List String)
    (hnames : DistinctEventNames parties fieldTrips)
    (hteachers : NoRepeatedTeacher fieldTrips allTeachers) :
    (∀ p ∈ parties, ∀ T,
      (primaryCount (assignVolunteers ToLower rnd rnd2 volunteers parties fieldTrips allTeachers
        p.Name T) : Int) ≤ max p.Count 0) ∧
    (∀ f ∈ fieldTrips, ∀ T,
      (primaryCount (assignVolunteers ToLower rnd rnd2 volunteers parties fieldTrips allTeachers
        f.Name T) : Int) ≤ max f.Count 0) := by
  constructor
  · intro p hp T
    obtain ⟨P, B, hrow, hP, -, -, hB⟩ := row_shape ToLower rnd rnd2 volunteers hnames hteachers
      (mem_events_party.2 ⟨p, hp, rfl⟩) T
    dsimp only at hrow hP
    rw [hrow]
    have := primaryCount_append_alternates (P := P) hB
    omega
  · intro f hf T
    obtain ⟨P, B, hrow, hP, -, -, hB⟩ := row_shape ToLower rnd rnd2 volunteers hnames hteachers
      (mem_events_fieldtrip.2 ⟨f, hf, rfl⟩) T
    dsimp only at hrow hP
    rw [hrow]
    have := primaryCount_append_alternates (P := P) hB
    omega

/-- Claim C1 as stated fails on three inputs, shown with the list the code returns: a field trip
whose teacher list names a teacher twice receives 2 primary entries for a count of 1; of two
parties with the same name the first has count 0 and its list holds 1 primary entry; a party with
count -1 has 0 primary entries, which is more than its count. -/
theorem primary_quota_counterexample :
    (assignVolunteers asciiToLower Rand.zero Rand.zero
        [⟨"ann", "", "", "A", "fieldtrip", "Zoo", false⟩,
         ⟨"bob", "", "", "A", "fieldtrip", "Zoo", false⟩]
        [] [⟨⟨"Zoo", 1⟩, ["A", "A"]⟩] ["A"] "Zoo" "A" =
      [⟨"bob", "", "", "A", "fieldtrip", "Zoo", false⟩,
       ⟨"ann", "", "", "A", "fieldtrip", "Zoo", false⟩] ∧
    ¬ PrimaryQuota
        (assignVolunteers asciiToLower Rand.zero Rand.zero
          [⟨"ann", "", "", "A", "fieldtrip", "Zoo", false⟩,
           ⟨"bob", "", "", "A", "fieldtrip", "Zoo", false⟩]
          [] [⟨⟨"Zoo", 1⟩, ["A", "A"]⟩] ["A"])
        [] [⟨⟨"Zoo", 1⟩, ["A", "A"]⟩]) ∧
    (assignVolunteers asciiToLower Rand.zero Rand.zero [⟨"ann", "", "", "A", "party", "X", false⟩]
        [⟨"X", 0⟩, ⟨"X", 1⟩] [] ["A"] "X" "A" = [⟨"ann", "", "", "A", "party", "X", false⟩] ∧
    ¬ PrimaryQuota
        (assignVolunteers asciiToLower Rand.zero Rand.zero [⟨"ann", "", "", "A", "party", "X", false⟩]
          [⟨"X", 0⟩, ⟨"X", 1⟩] [] ["A"])
        [⟨"X", 0⟩, ⟨"X", 1⟩] []) ∧
    (assignVolunteers asciiToLower Rand.zero Rand.zero [] [⟨"X", -1⟩] [] ["A"] "X" "A" = [] ∧
    ¬ PrimaryQuota
        (assignVolunteers asciiToLower Rand.zero Rand.zero [] [⟨"X", -1⟩] [] ["A"])
        [⟨"X", -1⟩] []) := by
  refine ⟨⟨by decide, fun h => ?_⟩, ⟨by decide, fun h => ?_⟩, ⟨by decide, fun h => ?_⟩⟩
  · exact absurd (h.2 ⟨⟨"Zoo", 1⟩, ["A", "A"]⟩ (List.mem_cons_self _ _) "A") (by decide)
  · exact absurd (h.1 ⟨"X", 0⟩ (List.mem_cons_self _ _) "A") (by decide)
  · exact absurd (h.1 ⟨"X", -1⟩ (List.mem_cons_self _ _) "A") (by decide)

/-- The amended claim C1 applied to one party with count 1 and one field trip for all
teachers. -/
theorem primary_quota_bound_witness :
    DistinctEventNames [⟨"P", 1⟩] [⟨⟨"Zoo", 2⟩, ["ALL"]⟩] ∧
    NoRepeatedTeacher [⟨⟨"Zoo", 2⟩, ["ALL"]⟩] ["A", "B"] ∧
    (∀ p ∈ ([⟨"P", 1⟩] : List PartyConfig), ∀ T,
      (primaryCount (assignVolunteers asciiToLower Rand.zero Rand.zero
        [⟨"ann", "", "", "A", "party", "P", false⟩, ⟨"bob", "", "", "A", "party", "P", false⟩,
         ⟨"cy", "", "", "B", "fieldtrip", "Zoo", false⟩]
        [⟨"P", 1⟩] [⟨⟨"Zoo", 2⟩, ["ALL"]⟩] ["A", "B"] p.Name T) : Int) ≤ max p.Count 0) ∧
    (∀ f ∈ ([⟨⟨"Zoo", 2⟩, ["ALL"]⟩] : List FieldTripConfig), ∀ T,
      (primaryCount (assignVolunteers asciiToLower Rand.zero Rand.zero
        [⟨"ann", "", "", "A", "party", "P", false⟩, ⟨"bob", "", "", "A", "party", "P", false⟩,
         ⟨"cy", "", "", "B", "fieldtrip", "Zoo", false⟩]
        [⟨"P", 1⟩] [⟨⟨"Zoo", 2⟩, ["ALL"]⟩] ["A", "B"] f.Name T) : Int) ≤ max f.Count 0) :=
  ⟨by unfold DistinctEventNames; decide, by unfold NoRepeatedTeacher; decide,
    primary_quota_bound asciiToLower _ _ _ _ _ _ (by unfold DistinctEventNames; decide)
      (by unfold NoRepeatedTeacher; decide)⟩

/-- Claim C2, amended: when every input volunteer has `Alternate = false`, event names are
pairwise distinct across parties and field trips and no teacher list repeats a teacher, then for
every generator pair, every configured event and every teacher, the list stored under (event
name, teacher) contains at most 2 alternate entries, the strict stage and the relaxed retry
counted together. -/
theorem alternate_quota_bound (ToLower : String → String) (rnd rnd2 : Rand)
    (volunteers : List Volunteer)
    (parties : List PartyConfig) (fieldTrips : List FieldTripConfig) (allTeachers : List String)
    (hvol : ∀ v ∈ volunteers, v.Alternate = false)
    (hnames : DistinctEventNames parties fieldTrips)
    (hteachers : NoRepeatedTeacher fieldTrips allTeachers) :
    AlternateQuota (assignVolunteers ToLower rnd rnd2 volunteers parties fieldTrips allTeachers)
      parties fieldTrips := by
  constructor
  · intro p hp T
    obtain ⟨P, B, hrow, -, hB, hP, -⟩ := row_shape ToLower rnd rnd2 volunteers hnames hteachers
      (mem_events_party.2 ⟨p, hp, rfl⟩) T
    dsimp only at hrow
    rw [hrow]
    have := alternateCount_primaries_append (B := B) (fun e he => hvol e (hP e he))
    omega
  · intro f hf T
    obtain ⟨P, B, hrow, -, hB, hP, -⟩ := row_shape ToLower rnd rnd2 volunteers hnames hteachers
      (mem_events_fieldtrip.2 ⟨f, hf, rfl⟩) T
    dsimp only at hrow
    rw [hrow]
    have := alternateCount_primaries_append (B := B) (fun e he => hvol e (hP e he))
    omega

/-- Claim C2 as stated fails on three inputs, shown with the list the code returns: a field trip
whose teacher list names a teacher twice receives 3 alternate entries; a party and a field trip
with the same name share one list, which receives 3 alternate entries; input records that already
carry `Alternate = true` are stored as they are by the primary pass, 3 of them in one list. -/
theorem alternate_quota_counterexample :
    (assignVolunteers asciiToLower Rand.zero Rand.zero
        [⟨"ann", "", "", "A", "fieldtrip", "Zoo", false⟩,
         ⟨"bob", "", "", "A", "fieldtrip", "Zoo", false⟩,
         ⟨"cy", "", "", "A", "fieldtrip", "Zoo", false⟩]
        [] [⟨⟨"Zoo", 0⟩, ["A", "A"]⟩] ["A"] "Zoo" "A" =
      [⟨"bob", "", "", "A", "fieldtrip", "Zoo", true⟩,
       ⟨"cy", "", "", "A", "fieldtrip", "Zoo", true⟩,
       ⟨"ann", "", "", "A", "fieldtrip", "Zoo", true⟩] ∧
    ¬ AlternateQuota
        (assignVolunteers asciiToLower Rand.zero Rand.zero
          [⟨"ann", "", "", "A", "fieldtrip", "Zoo", false⟩,
           ⟨"bob", "", "", "A", "fieldtrip", "Zoo", false⟩,
           ⟨"cy", "", "", "A", "fieldtrip", "Zoo", false⟩]
          [] [⟨⟨"Zoo", 0⟩, ["A", "A"]⟩] ["A"])
        [] [⟨⟨"Zoo", 0⟩, ["A", "A"]⟩]) ∧
    (assignVolunteers asciiToLower Rand.zero Rand.zero
        [⟨"ann", "", "", "A", "party", "X", false⟩,
         ⟨"bob", "", "", "A", "party", "X", false⟩,
         ⟨"cy", "", "", "A", "fieldtrip", "X", false⟩]
        [⟨"X", 0⟩] [⟨⟨"X", 0⟩, ["A"]⟩] ["A"] "X" "A" =
      [⟨"bob", "", "", "A", "party", "X", true⟩,
       ⟨"ann", "", "", "A", "party", "X", true⟩,
       ⟨"cy", "", "", "A", "fieldtrip", "X", true⟩] ∧
    ¬ AlternateQuota
        (assignVolunteers asciiToLower Rand.zero Rand.zero
          [⟨"ann", "", "", "A", "party", "X", false⟩,
           ⟨"bob", "", "", "A", "party", "X", false⟩,
           ⟨"cy", "", "", "A", "fieldtrip", "X", false⟩]
          [⟨"X", 0⟩] [⟨⟨"X", 0⟩, ["A"]⟩] ["A"])
        [⟨"X", 0⟩] [⟨⟨"X", 0⟩, ["A"]⟩]) ∧
    (assignVolunteers asciiToLower Rand.zero Rand.zero
        [⟨"ann", "", "", "A", "party", "X", true⟩,
         ⟨"bob", "", "", "A", "party", "X", true⟩,
         ⟨"cy", "", "", "A", "party", "X", true⟩]
        [⟨"X", 3⟩] [] ["A"] "X" "A" =
      [⟨"bob", "", "", "A", "party", "X", true⟩,
       ⟨"cy", "", "", "A", "party", "X", true⟩,
       ⟨"ann", "", "", "A", "party", "X", true⟩] ∧
    ¬ AlternateQuota
        (assignVolunteers asciiToLower Rand.zero Rand.zero
          [⟨"ann", "", "", "A", "party", "X", true⟩,
           ⟨"bob", "", "", "A", "party", "X", true⟩,
           ⟨"cy", "", "", "A", "party", "X", true⟩]
          [⟨"X", 3⟩] [] ["A"])
        [⟨"X", 3⟩] []) := by
  refine ⟨⟨by decide, fun h => ?_⟩, ⟨by decide, fun h => ?_⟩, ⟨by decide, fun h => ?_⟩⟩
  · exact absurd (h.2 ⟨⟨"Zoo", 0⟩, ["A", "A"]⟩ (List.mem_cons_self _ _) "A") (by decide)
  · exact absurd (h.1 ⟨"X", 0⟩ (List.mem_cons_self _ _) "A") (by decide)
  · exact absurd (h.1 ⟨"X", 3⟩ (List.mem_cons_self _ _) "A") (by decide)

/-- The amended claim C2 applied to a party with three candidates under one teacher. -/
theorem alternate_quota_bound_witness :
    (∀ v ∈ ([⟨"ann", "", "", "A", "party", "P", false⟩,
        ⟨"bob", "", "", "A", "party", "P", false⟩, ⟨"cy", "", "", "A", "party", "P", false⟩,
        ⟨"dee", "", "", "A", "party", "P", false⟩] : List Volunteer), v.Alternate = false) ∧
    DistinctEventNames [⟨"P", 1⟩] [⟨⟨"Zoo", 2⟩, ["ALL"]⟩] ∧
    NoRepeatedTeacher [⟨⟨"Zoo", 2⟩, ["ALL"]⟩] ["A", "B"] ∧
    AlternateQuota
      (assignVolunteers asciiToLower Rand.zero Rand.zero
        [⟨"ann", "", "", "A", "party", "P", false⟩, ⟨"bob", "", "", "A", "party", "P", false⟩,
         ⟨"cy", "", "", "A", "party", "P", false⟩, ⟨"dee", "", "", "A", "party", "P", false⟩]
        [⟨"P", 1⟩] [⟨⟨"Zoo", 2⟩, ["ALL"]⟩] ["A", "B"])
      [⟨"P", 1⟩] [⟨⟨"Zoo", 2⟩, ["ALL"]⟩] :=
  ⟨by decide, by unfold DistinctEventNames; decide, by unfold NoRepeatedTeacher; decide,
    alternate_quota_bound asciiToLower _ _ _ _ _ _ (by decide) (by unfold DistinctEventNames; decide)
      (by unfold NoRepeatedTeacher; decide)⟩

/-- Claim C5: when every input volunteer has `Alternate = false`, then in the table returned by
`assignVolunteers`, for every event name and teacher, no normalized name occurs both on a primary
entry and on an alternate entry of that list, whichever stage appended the alternate. -/
theorem alternate_exclusivity (ToLower : String → String) (rnd rnd2 : Rand)
    (volunteers : List Volunteer)
    (parties : List PartyConfig) (fieldTrips : List FieldTripConfig) (allTeachers : List String)
    (hvol : ∀ v ∈ volunteers, v.Alternate = false) (E T : String) (e₁ e₂ : Volunteer)
    (h₁ : e₁ ∈ assignVolunteers ToLower rnd rnd2 volunteers parties fieldTrips allTeachers E T)
    (h₂ : e₂ ∈ assignVolunteers ToLower rnd rnd2 volunteers parties fieldTrips allTeachers E T)
    (hp : e₁.Alternate = false) (ha : e₂.Alternate = true) :
    nameKey ToLower e₁.Name ≠ nameKey ToLower e₂.Name := by
  obtain ⟨B, hB⟩ := altInv_assignMaps ToLower rnd rnd2 volunteers parties fieldTrips allTeachers
  have hprim := primInv_primaryPasses ToLower rnd volunteers parties fieldTrips allTeachers
  unfold assignVolunteers at h₁ h₂
  rw [hB.app, List.mem_append] at h₁ h₂
  have k₁ : (primaryPasses ToLower rnd volunteers parties fieldTrips allTeachers).1.usedForThisEvent E
      (nameKey ToLower e₁.Name) = true := by
    rcases h₁ with h₁ | h₁
    · exact hprim.usedEvent E T e₁ h₁
    · obtain ⟨_, _, v, _, _, _, rfl⟩ := hB.sound E T e₁ h₁
      exact absurd hp (by simp)
  have k₂ : (primaryPasses ToLower rnd volunteers parties fieldTrips allTeachers).1.usedForThisEvent E
      (nameKey ToLower e₂.Name) = false := by
    rcases h₂ with h₂ | h₂
    · obtain ⟨_, _, _, _, h⟩ := hprim.sound E T e₂ h₂
      rw [hvol e₂ h.1] at ha
      exact absurd ha (by decide)
    · exact hB.notUsedEvent E T e₂ h₂
  intro heq
  rw [heq, k₂] at k₁
  exact absurd k₁ (by decide)

/-- Claim C5 applied to a list holding one primary entry and one alternate entry. -/
theorem alternate_exclusivity_witness :
    (∀ v ∈ ([⟨"ann", "", "", "A", "party", "P", false⟩,
        ⟨"bob", "", "", "A", "party", "P", false⟩] : List Volunteer), v.Alternate = false) ∧
    (⟨"bob", "", "", "A", "party", "P", false⟩ : Volunteer) ∈
      assignVolunteers asciiToLower Rand.zero Rand.zero
        [⟨"ann", "", "", "A", "party", "P", false⟩, ⟨"bob", "", "", "A", "party", "P", false⟩]
        [⟨"P", 1⟩] [] ["A"] "P" "A" ∧
    (⟨"ann", "", "", "A", "party", "P", true⟩ : Volunteer) ∈
      assignVolunteers asciiToLower Rand.zero Rand.zero
        [⟨"ann", "", "", "A", "party", "P", false⟩, ⟨"bob", "", "", "A", "party", "P", false⟩]
        [⟨"P", 1⟩] [] ["A"] "P" "A" ∧
    nameKey asciiToLower "bob" ≠ nameKey asciiToLower "ann" :=
  ⟨by decide, by decide, by decide,
    alternate_exclusivity asciiToLower Rand.zero Rand.zero
      [⟨"ann", "", "", "A", "party", "P", false⟩, ⟨"bob", "", "", "A", "party", "P", false⟩]
      [⟨"P", 1⟩] [] ["A"] (by decide) "P" "A" ⟨"bob", "", "", "A", "party", "P", false⟩
      ⟨"ann", "", "", "A", "party", "P", true⟩ (by decide) (by decide) rfl rfl⟩

/-- Claim C6: every entry stored by `assignVolunteers` under (event name `E`, teacher `T`) comes
from an input record whose `EventName` is `E`, whose `Teacher` is `T` and whose `EventType` is
the category of a configured event named `E`; `Name`, `Email` and `Phone` are those of the input
record, and the entry differs from it at most in the `Alternate` flag. -/
theorem no_fabricated_volunteers (ToLower : String → String) (rnd rnd2 : Rand)
    (volunteers : List Volunteer)
    (parties : List PartyConfig) (fieldTrips : List FieldTripConfig) (allTeachers : List String)
    (E T : String) (e : Volunteer)
    (he : e ∈ assignVolunteers ToLower rnd rnd2 volunteers parties fieldTrips allTeachers E T) :
    ∃ v ∈ volunteers, v.EventName = E ∧ v.Teacher = T ∧
      ((v.EventType = "party" ∧ ∃ p ∈ parties, p.Name = E) ∨
        (v.EventType = "fieldtrip" ∧ ∃ f ∈ fieldTrips, f.Name = E)) ∧
      e.Name = v.Name ∧ e.Email = v.Email ∧ e.Phone = v.Phone ∧
      e = { v with Alternate := e.Alternate } := by
  obtain ⟨c, ev, v, hev, hname, hv, h⟩ :=
    entry_sound ToLower rnd rnd2 volunteers parties fieldTrips allTeachers he
  refine ⟨v, hv.1, hv.2.2.1, hv.2.2.2, ?_, ?_⟩
  · cases c
    · obtain ⟨p, hp, rfl⟩ := mem_events_party.1 hev
      exact Or.inl ⟨hv.2.1, p, hp, hname⟩
    · obtain ⟨f, hf, rfl⟩ := mem_events_fieldtrip.1 hev
      exact Or.inr ⟨hv.2.1, f, hf, hname⟩
  · rcases h with rfl | rfl <;> exact ⟨rfl, rfl, rfl, rfl⟩

/-- Claim C6 applied to the alternate entry of a list: it is the input record of `ann` with the
flag set. -/
theorem no_fabricated_volunteers_witness :
    (⟨"Ann", "ann@x.org", "555", "A", "party", "P", true⟩ : Volunteer) ∈
      assignVolunteers asciiToLower Rand.zero Rand.zero
        [⟨"Ann", "ann@x.org", "555", "A", "party", "P", false⟩,
         ⟨"bob", "", "", "A", "party", "P", false⟩]
        [⟨"P", 1⟩] [] ["A"] "P" "A" ∧
    ∃ v ∈ ([⟨"Ann", "ann@x.org", "555", "A", "party", "P", false⟩,
         ⟨"bob", "", "", "A", "party", "P", false⟩] : List Volunteer),
      v.EventName = "P" ∧ v.Teacher = "A" ∧
      ((v.EventType = "party" ∧ ∃ p ∈ ([⟨"P", 1⟩] : List PartyConfig), p.Name = "P") ∨
        (v.EventType = "fieldtrip" ∧ ∃ f ∈ ([] : List FieldTripConfig), f.Name = "P")) ∧
      "Ann" = v.Name ∧ "ann@x.org" = v.Email ∧ "555" = v.Phone ∧
      (⟨"Ann", "ann@x.org", "555", "A", "party", "P", true⟩ : Volunteer) =
        { v with Alternate := true } :=
  ⟨by decide,
    no_fabricated_volunteers asciiToLower Rand.zero Rand.zero
      [⟨"Ann", "ann@x.org", "555", "A", "party", "P", false⟩,
       ⟨"bob", "", "", "A", "party", "P", false⟩]
      [⟨"P", 1⟩] [] ["A"] "P" "A" ⟨"Ann", "ann@x.org", "555", "A", "party", "P", true⟩
      (by decide)⟩

/-- Claim C7: when event names are pairwise distinct across parties and field trips,
`allTeachers` and every field-trip teacher list contain no repeated teacher, every `Count` is at
least 0 and every input volunteer has `Alternate = false`, each (event, teacher) list returned by
`assignVolunteers` is a block of at most `Count` primary entries followed by a block of at most 2
alternate entries, so that no primary entry comes after an alternate entry. -/
theorem list_shape (ToLower : String → String) (rnd rnd2 : Rand) (volunteers : List Volunteer)
    (parties : List PartyConfig) (fieldTrips : List FieldTripConfig) (allTeachers : List String)
    (hnames : DistinctEventNames parties fieldTrips)
    (hteachers : NoRepeatedTeacher fieldTrips allTeachers)
    (hcount : (∀ p ∈ parties, 0 ≤ p.Count) ∧ (∀ f ∈ fieldTrips, 0 ≤ f.Count))
    (hvol : ∀ v ∈ volunteers, v.Alternate = false) :
    (∀ p ∈ parties, ∀ T,
      BlockShape (assignVolunteers ToLower rnd rnd2 volunteers parties fieldTrips allTeachers p.Name T)
        p.Count) ∧
    (∀ f ∈ fieldTrips, ∀ T,
      BlockShape (assignVolunteers ToLower rnd rnd2 volunteers parties fieldTrips allTeachers f.Name T)
        f.Count) := by
  constructor
  · intro p hp T
    obtain ⟨P, B, hrow, hlen, hB, hP, halt⟩ := row_shape ToLower rnd rnd2 volunteers hnames hteachers
      (mem_events_party.2 ⟨p, hp, rfl⟩) T
    dsimp only at hrow hlen
    have := hcount.1 p hp
    exact ⟨P, B, hrow, fun e he => hvol e (hP e he), halt, by omega, hB⟩
  · intro f hf T
    obtain ⟨P, B, hrow, hlen, hB, hP, halt⟩ := row_shape ToLower rnd rnd2 volunteers hnames hteachers
      (mem_events_fieldtrip.2 ⟨f, hf, rfl⟩) T
    dsimp only at hrow hlen
    have := hcount.2 f hf
    exact ⟨P, B, hrow, fun e he => hvol e (hP e he), halt, by omega, hB⟩

/-- Claim C7 applied to a party with count 1 and a field trip for all teachers. -/
theorem list_shape_witness :
    DistinctEventNames [⟨"P", 1⟩] [⟨⟨"Zoo", 2⟩, ["ALL"]⟩] ∧
    NoRepeatedTeacher [⟨⟨"Zoo", 2⟩, ["ALL"]⟩] ["A", "B"] ∧
    ((∀ p ∈ ([⟨"P", 1⟩] : List PartyConfig), 0 ≤ p.Count) ∧
      (∀ f ∈ ([⟨⟨"Zoo", 2⟩, ["ALL"]⟩] : List FieldTripConfig), 0 ≤ f.Count)) ∧
    (∀ v ∈ ([⟨"ann", "", "", "A", "party", "P", false⟩,
        ⟨"bob", "", "", "A", "party", "P", false⟩,
        ⟨"cy", "", "", "B", "fieldtrip", "Zoo", false⟩] : List Volunteer),
      v.Alternate = false) ∧
    (∀ p ∈ ([⟨"P", 1⟩] : List PartyConfig), ∀ T,
      BlockShape (assignVolunteers asciiToLower Rand.zero Rand.zero
        [⟨"ann", "", "", "A", "party", "P", false⟩, ⟨"bob", "", "", "A", "party", "P", false⟩,
         ⟨"cy", "", "", "B", "fieldtrip", "Zoo", false⟩]
        [⟨"P", 1⟩] [⟨⟨"Zoo", 2⟩, ["ALL"]⟩] ["A", "B"] p.Name T) p.Count) ∧
    (∀ f ∈ ([⟨⟨"Zoo", 2⟩, ["ALL"]⟩] : List FieldTripConfig), ∀ T,
      BlockShape (assignVolunteers asciiToLower Rand.zero Rand.zero
        [⟨"ann", "", "", "A", "party", "P", false⟩, ⟨"bob", "", "", "A", "party", "P", false⟩,
         ⟨"cy", "", "", "B", "fieldtrip", "Zoo", false⟩]
        [⟨"P", 1⟩] [⟨⟨"Zoo", 2⟩, ["ALL"]⟩] ["A", "B"] f.Name T) f.Count) :=
  ⟨by unfold DistinctEventNames; decide, by unfold NoRepeatedTeacher; decide, by decide,
    by decide,
    list_shape asciiToLower _ _ _ _ _ _ (by unfold DistinctEventNames; decide)
      (by unfold NoRepeatedTeacher; decide) (by decide) (by decide)⟩

/-- Claim C3: in the table returned by `assignVolunteers`, for every input (in particular when
every input volunteer has `Alternate = false`) and whatever the shuffles produce, no normalized
name is carried by primary entries of two different party events, nor by primary entries of two
different field-trip events: two party records, or two field-trip records, stored with
`Alternate = false` under different event names carry different normalized names. -/
theorem primary_uniqueness (ToLower : String → String) (rnd rnd2 : Rand)
    (volunteers : List Volunteer) (parties : List PartyConfig)
    (fieldTrips : List FieldTripConfig) (allTeachers : List String) :
    UniqueInCategory ToLower false .party
        (assignVolunteers ToLower rnd rnd2 volunteers parties fieldTrips allTeachers) ∧
      UniqueInCategory ToLower false .fieldtrip
        (assignVolunteers ToLower rnd rnd2 volunteers parties fieldTrips allTeachers) :=
  ⟨uniqueInCategory_primary ToLower rnd rnd2 volunteers parties fieldTrips allTeachers .party,
    uniqueInCategory_primary ToLower rnd rnd2 volunteers parties fieldTrips allTeachers
      .fieldtrip⟩

/-- Claim C3 applied to two parties and a volunteer signed up for both: `alice` is the primary
entry of `X`, and the primary entry of `Y` is `bob`. -/
theorem primary_uniqueness_witness :
    assignVolunteers asciiToLower Rand.zero Rand.zero
        [⟨"alice", "", "", "A", "party", "X", false⟩,
         ⟨"alice", "", "", "A", "party", "Y", false⟩,
         ⟨"bob", "", "", "A", "party", "Y", false⟩]
        [⟨"X", 1⟩, ⟨"Y", 1⟩] [⟨⟨"Zoo", 1⟩, ["A"]⟩] ["A"] "X" "A" =
      [⟨"alice", "", "", "A", "party", "X", false⟩] ∧
    assignVolunteers asciiToLower Rand.zero Rand.zero
        [⟨"alice", "", "", "A", "party", "X", false⟩,
         ⟨"alice", "", "", "A", "party", "Y", false⟩,
         ⟨"bob", "", "", "A", "party", "Y", false⟩]
        [⟨"X", 1⟩, ⟨"Y", 1⟩] [⟨⟨"Zoo", 1⟩, ["A"]⟩] ["A"] "Y" "A" =
      [⟨"bob", "", "", "A", "party", "Y", false⟩, ⟨"alice", "", "", "A", "party", "Y", true⟩] ∧
    UniqueInCategory asciiToLower false .party
      (assignVolunteers asciiToLower Rand.zero Rand.zero
        [⟨"alice", "", "", "A", "party", "X", false⟩,
         ⟨"alice", "", "", "A", "party", "Y", false⟩,
         ⟨"bob", "", "", "A", "party", "Y", false⟩]
        [⟨"X", 1⟩, ⟨"Y", 1⟩] [⟨⟨"Zoo", 1⟩, ["A"]⟩] ["A"]) ∧
    UniqueInCategory asciiToLower false .fieldtrip
      (assignVolunteers asciiToLower Rand.zero Rand.zero
        [⟨"alice", "", "", "A", "party", "X", false⟩,
         ⟨"alice", "", "", "A", "party", "Y", false⟩,
         ⟨"bob", "", "", "A", "party", "Y", false⟩]
        [⟨"X", 1⟩, ⟨"Y", 1⟩] [⟨⟨"Zoo", 1⟩, ["A"]⟩] ["A"]) :=
  ⟨by decide, by decide, primary_uniqueness asciiToLower _ _ _ _ _ _⟩

/-- Claim C4: when every input volunteer has `Alternate = false`, then in the table returned by
`assignVolunteers` no normalized name is carried by alternate entries of two different party
events, nor by alternate entries of two different field-trip events, the alternates admitted by
the relaxed retry included: two party records, or two field-trip records, stored with
`Alternate = true` under different event names carry different normalized names. -/
theorem alternate_uniqueness (ToLower : String → String) (rnd rnd2 : Rand)
    (volunteers : List Volunteer) (parties : List PartyConfig)
    (fieldTrips : List FieldTripConfig) (allTeachers : List String)
    (hvol : ∀ v ∈ volunteers, v.Alternate = false) :
    UniqueInCategory ToLower true .party
        (assignVolunteers ToLower rnd rnd2 volunteers parties fieldTrips allTeachers) ∧
      UniqueInCategory ToLower true .fieldtrip
        (assignVolunteers ToLower rnd rnd2 volunteers parties fieldTrips allTeachers) :=
  ⟨uniqueInCategory_alternate ToLower rnd rnd2 volunteers parties fieldTrips allTeachers hvol
      .party,
    uniqueInCategory_alternate ToLower rnd rnd2 volunteers parties fieldTrips allTeachers hvol
      .fieldtrip⟩

/-- Claim C4 applied to two parties without primary slots and a volunteer signed up for both:
`alice` is the alternate entry of `X`, and the alternate entry of `Y` is `bob`. -/
theorem alternate_uniqueness_witness :
    (∀ v ∈ ([⟨"alice", "", "", "A", "party", "X", false⟩,
        ⟨"alice", "", "", "A", "party", "Y", false⟩,
        ⟨"bob", "", "", "A", "party", "Y", false⟩] : List Volunteer), v.Alternate = false) ∧
    assignVolunteers asciiToLower Rand.zero Rand.zero
        [⟨"alice", "", "", "A", "party", "X", false⟩,
         ⟨"alice", "", "", "A", "party", "Y", false⟩,
         ⟨"bob", "", "", "A", "party", "Y", false⟩]
        [⟨"X", 0⟩, ⟨"Y", 0⟩] [⟨⟨"Zoo", 1⟩, ["A"]⟩] ["A"] "X" "A" =
      [⟨"alice", "", "", "A", "party", "X", true⟩] ∧
    assignVolunteers asciiToLower Rand.zero Rand.zero
        [⟨"alice", "", "", "A", "party", "X", false⟩,
         ⟨"alice", "", "", "A", "party", "Y", false⟩,
         ⟨"bob", "", "", "A", "party", "Y", false⟩]
        [⟨"X", 0⟩, ⟨"Y", 0⟩] [⟨⟨"Zoo", 1⟩, ["A"]⟩] ["A"] "Y" "A" =
      [⟨"bob", "", "", "A", "party", "Y", true⟩] ∧
    UniqueInCategory asciiToLower true .party
      (assignVolunteers asciiToLower Rand.zero Rand.zero
        [⟨"alice", "", "", "A", "party", "X", false⟩,
         ⟨"alice", "", "", "A", "party", "Y", false⟩,
         ⟨"bob", "", "", "A", "party", "Y", false⟩]
        [⟨"X", 0⟩, ⟨"Y", 0⟩] [⟨⟨"Zoo", 1⟩, ["A"]⟩] ["A"]) ∧
    UniqueInCategory asciiToLower true .fieldtrip
      (assignVolunteers asciiToLower Rand.zero Rand.zero
        [⟨"alice", "", "", "A", "party", "X", false⟩,
         ⟨"alice", "", "", "A", "party", "Y", false⟩,
         ⟨"bob", "", "", "A", "party", "Y", false⟩]
        [⟨"X", 0⟩, ⟨"Y", 0⟩] [⟨⟨"Zoo", 1⟩, ["A"]⟩] ["A"]) :=
  ⟨by decide, by decide, by decide, alternate_uniqueness asciiToLower _ _ _ _ _ _ (by decide)⟩

/-- Claim C8: with pairwise distinct event names across parties and field trips, for every event
`ev` of a category and every teacher `T` of its teacher set, if the returned list of `(ev, T)`
has fewer than 2 alternate entries then every input volunteer signed up for `ev` under `T` has a
normalized name that is a primary entry of `ev` or an alternate entry of some event of the
category of `ev`. -/
theorem relaxed_retry_fills (ToLower : String → String) (rnd rnd2 : Rand)
    (volunteers : List Volunteer)
    (parties : List PartyConfig) (fieldTrips : List FieldTripConfig) (allTeachers : List String)
    (_hnames : DistinctEventNames parties fieldTrips) (c : Category) (ev : Event)
    (hev : ev ∈ events c parties fieldTrips allTeachers) (T : String) (hT : T ∈ ev.teachers)
    (hfew : alternateCount
      (assignVolunteers ToLower rnd rnd2 volunteers parties fieldTrips allTeachers ev.name T) < 2)
    (v : Volunteer) (hv : SignedUp volunteers c ev.name T v) :
    PrimaryIn ToLower (assignVolunteers ToLower rnd rnd2 volunteers parties fieldTrips allTeachers) ev.name
        (nameKey ToLower v.Name) ∨
      ∃ ev' ∈ events c parties fieldTrips allTeachers,
        AlternateIn ToLower (assignVolunteers ToLower rnd rnd2 volunteers parties fieldTrips allTeachers)
          ev'.name (nameKey ToLower v.Name) := by
  obtain ⟨B, hB⟩ := altInv_assignMaps ToLower rnd rnd2 volunteers parties fieldTrips allTeachers
  have hprim := primInv_primaryPasses ToLower rnd volunteers parties fieldTrips allTeachers
  rcases altFilled_assignMaps ToLower rnd rnd2 volunteers parties fieldTrips allTeachers hev hT hfew v hv
    with h | h
  · rw [hB.usedEvent_eq] at h
    obtain ⟨t, e, he, hk⟩ := hprim.usedEvent_witness ev.name _ h
    have he' : e ∈ assignVolunteers ToLower rnd rnd2 volunteers parties fieldTrips allTeachers
        ev.name t := by
      unfold assignVolunteers
      rw [hB.app]
      exact List.mem_append_left _ he
    cases hflag : e.Alternate
    · exact Or.inl ⟨t, e, he', hflag, hk⟩
    · exact Or.inr ⟨ev, hev, t, e, he', hflag, hk⟩
  · exact Or.inr (alternateIn_of_usedAlt ToLower rnd rnd2 volunteers parties fieldTrips allTeachers h)

/-- Claim C8 applied to a party with two candidates under one teacher: the list holds one
alternate entry, and `bob`, who signed up, is the primary entry. -/
theorem relaxed_retry_fills_witness :
    DistinctEventNames [⟨"P", 1⟩] [] ∧
    (⟨"P", 1, ["A"]⟩ : Event) ∈ events .party [⟨"P", 1⟩] [] ["A"] ∧
    "A" ∈ (⟨"P", 1, ["A"]⟩ : Event).teachers ∧
    alternateCount
      (assignVolunteers asciiToLower Rand.zero Rand.zero
        [⟨"ann", "", "", "A", "party", "P", false⟩, ⟨"bob", "", "", "A", "party", "P", false⟩]
        [⟨"P", 1⟩] [] ["A"] "P" "A") < 2 ∧
    SignedUp
      [⟨"ann", "", "", "A", "party", "P", false⟩, ⟨"bob", "", "", "A", "party", "P", false⟩]
      .party "P" "A" ⟨"bob", "", "", "A", "party", "P", false⟩ ∧
    (PrimaryIn asciiToLower
        (assignVolunteers asciiToLower Rand.zero Rand.zero
          [⟨"ann", "", "", "A", "party", "P", false⟩, ⟨"bob", "", "", "A", "party", "P", false⟩]
          [⟨"P", 1⟩] [] ["A"]) "P" (nameKey asciiToLower "bob") ∨
      ∃ ev' ∈ events .party [⟨"P", 1⟩] [] ["A"],
        AlternateIn asciiToLower
          (assignVolunteers asciiToLower Rand.zero Rand.zero
            [⟨"ann", "", "", "A", "party", "P", false⟩, ⟨"bob", "", "", "A", "party", "P", false⟩]
            [⟨"P", 1⟩] [] ["A"]) ev'.name (nameKey asciiToLower "bob")) :=
  ⟨by unfold DistinctEventNames; decide, by decide, by decide, by decide,
    ⟨by decide, rfl, rfl, rfl⟩,
    relaxed_retry_fills asciiToLower Rand.zero Rand.zero
      [⟨"ann", "", "", "A", "party", "P", false⟩, ⟨"bob", "", "", "A", "party", "P", false⟩]
      [⟨"P", 1⟩] [] ["A"] (by unfold DistinctEventNames; decide) .party ⟨"P", 1, ["A"]⟩
      (by decide) "A" (by decide) (by decide) ⟨"bob", "", "", "A", "party", "P", false⟩
      ⟨by decide, rfl, rfl, rfl⟩⟩

/-- Claim C10: with pairwise distinct event names and input volunteers all having
`Alternate = false`, for every event `ev` of a category and every teacher `T` of its teacher
set, if the returned list of `(ev, T)` has fewer than `ev.count` primary entries then every
input volunteer signed up for `ev` under `T` has a normalized name that is a primary entry of
some event of the category of `ev`. -/
theorem primary_slots_exhaust (ToLower : String → String) (rnd rnd2 : Rand)
    (volunteers : List Volunteer)
    (parties : List PartyConfig) (fieldTrips : List FieldTripConfig) (allTeachers : List String)
    (hnames : DistinctEventNames parties fieldTrips)
    (hvol : ∀ v ∈ volunteers, v.Alternate = false) (c : Category) (ev : Event)
    (hev : ev ∈ events c parties fieldTrips allTeachers) (T : String) (hT : T ∈ ev.teachers)
    (hfew : (primaryCount
      (assignVolunteers ToLower rnd rnd2 volunteers parties fieldTrips allTeachers ev.name T) : Int)
        < ev.count)
    (v : Volunteer) (hv : SignedUp volunteers c ev.name T v) :
    ∃ ev' ∈ events c parties fieldTrips allTeachers,
      PrimaryIn ToLower (assignVolunteers ToLower rnd rnd2 volunteers parties fieldTrips allTeachers)
        ev'.name (nameKey ToLower v.Name) :=
  primaryIn_of_usedFor ToLower rnd rnd2 volunteers parties fieldTrips allTeachers hnames hvol
    (primFilled_assignMaps ToLower rnd rnd2 volunteers parties fieldTrips allTeachers hnames hvol hev hT
      hfew v hv)

/-- Claim C10 applied to two parties and one volunteer signed up for both: the list of the second
party stays empty, and the volunteer is the primary entry of the first. -/
theorem primary_slots_exhaust_witness :
    DistinctEventNames [⟨"X", 1⟩, ⟨"Y", 1⟩] [] ∧
    (∀ v ∈ ([⟨"alice", "", "", "A", "party", "X", false⟩,
        ⟨"alice", "", "", "A", "party", "Y", false⟩] : List Volunteer), v.Alternate = false) ∧
    (⟨"Y", 1, ["A"]⟩ : Event) ∈ events .party [⟨"X", 1⟩, ⟨"Y", 1⟩] [] ["A"] ∧
    "A" ∈ (⟨"Y", 1, ["A"]⟩ : Event).teachers ∧
    (primaryCount
      (assignVolunteers asciiToLower Rand.zero Rand.zero
        [⟨"alice", "", "", "A", "party", "X", false⟩,
         ⟨"alice", "", "", "A", "party", "Y", false⟩]
        [⟨"X", 1⟩, ⟨"Y", 1⟩] [] ["A"] "Y" "A") : Int) < 1 ∧
    SignedUp
      [⟨"alice", "", "", "A", "party", "X", false⟩, ⟨"alice", "", "", "A", "party", "Y", false⟩]
      .party "Y" "A" ⟨"alice", "", "", "A", "party", "Y", false⟩ ∧
    ∃ ev' ∈ events .party [⟨"X", 1⟩, ⟨"Y", 1⟩] [] ["A"],
      PrimaryIn asciiToLower
        (assignVolunteers asciiToLower Rand.zero Rand.zero
          [⟨"alice", "", "", "A", "party", "X", false⟩,
           ⟨"alice", "", "", "A", "party", "Y", false⟩]
          [⟨"X", 1⟩, ⟨"Y", 1⟩] [] ["A"]) ev'.name (nameKey asciiToLower "alice") :=
  ⟨by unfold DistinctEventNames; decide, by decide, by decide, by decide, by decide,
    ⟨by decide, rfl, rfl, rfl⟩,
    primary_slots_exhaust asciiToLower Rand.zero Rand.zero
      [⟨"alice", "", "", "A", "party", "X", false⟩, ⟨"alice", "", "", "A", "party", "Y", false⟩]
      [⟨"X", 1⟩, ⟨"Y", 1⟩] [] ["A"] (by unfold DistinctEventNames; decide) (by decide) .party
      ⟨"Y", 1, ["A"]⟩ (by decide) "A" (by decide) (by decide)
      ⟨"alice", "", "", "A", "party", "Y", false⟩ ⟨by decide, rfl, rfl, rfl⟩⟩

/-- Claim C9: with pairwise distinct event names and input volunteers all having
`Alternate = false`, if some alternate entry of the list of `(ev, T)` has a normalized name that
is a primary entry of some event of the category of `ev`, then every input volunteer signed up
for `ev` under `T` whose normalized name is a primary entry of no event of that category is an
alternate entry of some event of that category. -/
theorem strict_stage_priority (ToLower : String → String) (rnd rnd2 : Rand)
    (volunteers : List Volunteer)
    (parties : List PartyConfig) (fieldTrips : List FieldTripConfig) (allTeachers : List String)
    (hnames : DistinctEventNames parties fieldTrips)
    (hvol : ∀ v ∈ volunteers, v.Alternate = false) (c : Category) (ev : Event)
    (hev : ev ∈ events c parties fieldTrips allTeachers) (T : String) (a : Volunteer)
    (ha : a ∈ assignVolunteers ToLower rnd rnd2 volunteers parties fieldTrips allTeachers ev.name T)
    (hflag : a.Alternate = true)
    (hcommitted : ∃ ev' ∈ events c parties fieldTrips allTeachers,
      PrimaryIn ToLower (assignVolunteers ToLower rnd rnd2 volunteers parties fieldTrips allTeachers)
        ev'.name (nameKey ToLower a.Name))
    (v : Volunteer) (hv : SignedUp volunteers c ev.name T v)
    (hfree : ¬ ∃ ev' ∈ events c parties fieldTrips allTeachers,
      PrimaryIn ToLower (assignVolunteers ToLower rnd rnd2 volunteers parties fieldTrips allTeachers)
        ev'.name (nameKey ToLower v.Name)) :
    ∃ ev' ∈ events c parties fieldTrips allTeachers,
      AlternateIn ToLower (assignVolunteers ToLower rnd rnd2 volunteers parties fieldTrips allTeachers)
        ev'.name (nameKey ToLower v.Name) := by
  obtain ⟨B, hB⟩ := altInv_assignMaps ToLower rnd rnd2 volunteers parties fieldTrips allTeachers
  have hprim := primInv_primaryPasses ToLower rnd volunteers parties fieldTrips allTeachers
  have hstrict := strictFirst_assignMaps ToLower rnd rnd2 volunteers parties fieldTrips allTeachers
    hnames.noSharedName hvol hev T
  have hused : (assignMaps ToLower rnd rnd2 volunteers parties fieldTrips allTeachers).usedFor c
      (nameKey ToLower a.Name) = true := by
    obtain ⟨ev', hev', t', e, he, hef, hk⟩ := hcommitted
    replace he := primary_entry_origin ToLower rnd rnd2 volunteers parties fieldTrips allTeachers hB he
      hef
    obtain ⟨c', ev'', hev'', hname, hs⟩ := hprim.sound ev'.name t' e he
    have hc := category_unique hnames.noSharedName (List.mem_map.2 ⟨ev', hev', rfl⟩) hev'' hname
    subst hc
    rw [hB.usedFor_eq, ← hk]
    exact hprim.used _ ev'.name t' e he hs.2.1
  have hunused : (assignMaps ToLower rnd rnd2 volunteers parties fieldTrips allTeachers).usedFor c
      (nameKey ToLower v.Name) = false := by
    cases h : (assignMaps ToLower rnd rnd2 volunteers parties fieldTrips allTeachers).usedFor c
      (nameKey ToLower v.Name)
    · rfl
    · exact absurd (primaryIn_of_usedFor ToLower rnd rnd2 volunteers parties fieldTrips allTeachers hnames
        hvol h) hfree
  exact alternateIn_of_usedAlt ToLower rnd rnd2 volunteers parties fieldTrips allTeachers
    (hstrict.2 ⟨a, ha, hflag, hused⟩ v hv hunused)

/-- Claim C9 applied to two parties: `alice`, the primary of `X`, is an alternate of `Y` through
the relaxed retry, and `cy`, who signed up for `Y` and is a primary nowhere, is an alternate. -/
theorem strict_stage_priority_witness :
    DistinctEventNames [⟨"X", 1⟩, ⟨"Y", 1⟩] [] ∧
    (∀ v ∈ ([⟨"alice", "", "", "A", "party", "X", false⟩,
        ⟨"alice", "", "", "A", "party", "Y", false⟩, ⟨"bob", "", "", "A", "party", "Y", false⟩,
        ⟨"cy", "", "", "A", "party", "Y", false⟩] : List Volunteer), v.Alternate = false) ∧
    (⟨"Y", 1, ["A"]⟩ : Event) ∈ events .party [⟨"X", 1⟩, ⟨"Y", 1⟩] [] ["A"] ∧
    (⟨"alice", "", "", "A", "party", "Y", true⟩ : Volunteer) ∈
      assignVolunteers asciiToLower Rand.zero Rand.zero
        [⟨"alice", "", "", "A", "party", "X", false⟩,
         ⟨"alice", "", "", "A", "party", "Y", false⟩, ⟨"bob", "", "", "A", "party", "Y", false⟩,
         ⟨"cy", "", "", "A", "party", "Y", false⟩]
        [⟨"X", 1⟩, ⟨"Y", 1⟩] [] ["A"] "Y" "A" ∧
    (∃ ev' ∈ events .party [⟨"X", 1⟩, ⟨"Y", 1⟩] [] ["A"],
      PrimaryIn asciiToLower
        (assignVolunteers asciiToLower Rand.zero Rand.zero
          [⟨"alice", "", "", "A", "party", "X", false⟩,
           ⟨"alice", "", "", "A", "party", "Y", false⟩,
           ⟨"bob", "", "", "A", "party", "Y", false⟩, ⟨"cy", "", "", "A", "party", "Y", false⟩]
          [⟨"X", 1⟩, ⟨"Y", 1⟩] [] ["A"]) ev'.name (nameKey asciiToLower "alice")) ∧
    SignedUp
      [⟨"alice", "", "", "A", "party", "X", false⟩,
       ⟨"alice", "", "", "A", "party", "Y", false⟩, ⟨"bob", "", "", "A", "party", "Y", false⟩,
       ⟨"cy", "", "", "A", "party", "Y", false⟩]
      .party "Y" "A" ⟨"cy", "", "", "A", "party", "Y", false⟩ ∧
    (¬ ∃ ev' ∈ events .party [⟨"X", 1⟩, ⟨"Y", 1⟩] [] ["A"],
      PrimaryIn asciiToLower
        (assignVolunteers asciiToLower Rand.zero Rand.zero
          [⟨"alice", "", "", "A", "party", "X", false⟩,
           ⟨"alice", "", "", "A", "party", "Y", false⟩,
           ⟨"bob", "", "", "A", "party", "Y", false⟩, ⟨"cy", "", "", "A", "party", "Y", false⟩]
          [⟨"X", 1⟩, ⟨"Y", 1⟩] [] ["A"]) ev'.name (nameKey asciiToLower "cy")) ∧
    ∃ ev' ∈ events .party [⟨"X", 1⟩, ⟨"Y", 1⟩] [] ["A"],
      AlternateIn asciiToLower
        (assignVolunteers asciiToLower Rand.zero Rand.zero
          [⟨"alice", "", "", "A", "party", "X", false⟩,
           ⟨"alice", "", "", "A", "party", "Y", false⟩,
           ⟨"bob", "", "", "A", "party", "Y", false⟩, ⟨"cy", "", "", "A", "party", "Y", false⟩]
          [⟨"X", 1⟩, ⟨"Y", 1⟩] [] ["A"]) ev'.name (nameKey asciiToLower "cy") := by
  have hcommitted : ∃ ev' ∈ events .party [⟨"X", 1⟩, ⟨"Y", 1⟩] [] ["A"],
      PrimaryIn asciiToLower
        (assignVolunteers asciiToLower Rand.zero Rand.zero
          [⟨"alice", "", "", "A", "party", "X", false⟩,
           ⟨"alice", "", "", "A", "party", "Y", false⟩,
           ⟨"bob", "", "", "A", "party", "Y", false⟩, ⟨"cy", "", "", "A", "party", "Y", false⟩]
          [⟨"X", 1⟩, ⟨"Y", 1⟩] [] ["A"]) ev'.name (nameKey asciiToLower "alice") :=
    ⟨⟨"X", 1, ["A"]⟩, by decide, "A", ⟨"alice", "", "", "A", "party", "X", false⟩, by decide,
      rfl, rfl⟩
  have hfree : ¬ ∃ ev' ∈ events .party [⟨"X", 1⟩, ⟨"Y", 1⟩] [] ["A"],
      PrimaryIn asciiToLower
        (assignVolunteers asciiToLower Rand.zero Rand.zero
          [⟨"alice", "", "", "A", "party", "X", false⟩,
           ⟨"alice", "", "", "A", "party", "Y", false⟩,
           ⟨"bob", "", "", "A", "party", "Y", false⟩, ⟨"cy", "", "", "A", "party", "Y", false⟩]
          [⟨"X", 1⟩, ⟨"Y", 1⟩] [] ["A"]) ev'.name (nameKey asciiToLower "cy") := by
    rintro ⟨ev', -, T', e, he, hef, hk⟩
    obtain ⟨c, -, v, -, -, ⟨hmem, -, hname, hteacher⟩, hor⟩ := entry_sound asciiToLower _ _ _ _ _ _ he
    rcases hor with rfl | rfl
    · rw [← hname, ← hteacher] at he
      simp only [List.mem_cons, List.mem_singleton, List.not_mem_nil, or_false] at hmem
      rcases hmem with rfl | rfl | rfl | rfl
      · exact absurd hk (by decide)
      · exact absurd hk (by decide)
      · exact absurd hk (by decide)
      · exact absurd he (by decide)
    · exact absurd hef (by simp)
  exact ⟨by unfold DistinctEventNames; decide, by decide, by decide, by decide, hcommitted,
    ⟨by decide, rfl, rfl, rfl⟩, hfree,
    strict_stage_priority asciiToLower Rand.zero Rand.zero _ [⟨"X", 1⟩, ⟨"Y", 1⟩] [] ["A"]
      (by unfold DistinctEventNames; decide) (by decide) .party ⟨"Y", 1, ["A"]⟩ (by decide)
      "A" ⟨"alice", "", "", "A", "party", "Y", true⟩ (by decide) rfl hcommitted
      ⟨"cy", "", "", "A", "party", "Y", false⟩ ⟨by decide, rfl, rfl, rfl⟩ hfree⟩

/-- Claim C12: for every input and every generator pair, `assignVolunteers` returns the same
table when the teacher list of a field trip is the one-element list `ALL` as when it is
`allTeachers` itself; the teacher list both passes iterate for such a trip is `allTeachers`. -/
theorem all_sentinel_resolution (ToLower : String → String) (rnd rnd2 : Rand)
    (volunteers : List Volunteer)
    (parties : List PartyConfig) (pre post : List FieldTripConfig) (trip : EventConfig)
    (allTeachers : List String) :
    assignVolunteers ToLower rnd rnd2 volunteers parties (pre ++ ⟨trip, ["ALL"]⟩ :: post) allTeachers =
      assignVolunteers ToLower rnd rnd2 volunteers parties (pre ++ ⟨trip, allTeachers⟩ :: post)
        allTeachers ∧
    ∀ ev ∈ tripEvents [⟨trip, ["ALL"]⟩] allTeachers, ev.teachers = allTeachers := by
  constructor
  · unfold assignVolunteers assignMaps primaryPasses
    rw [tripEvents_all]
  · intro ev hev
    simp only [tripEvents, List.map_cons, List.map_nil, List.mem_singleton] at hev
    rw [hev]
    exact tripTeachers_all allTeachers

/-- Claim C16: `filterVolunteersByEvent` returns the sublist of the records whose `EventType`
and `EventName` both equal the arguments, and `filterByTeacher` the sublist of the records whose
`Teacher` equals the argument, the comparisons being equality of strings; being the library
filter of the input list, the results keep the relative order and the multiplicity of the
records. -/
theorem candidate_filters (volunteers : List Volunteer) (eventType eventName teacher : String) :
    filterVolunteersByEvent volunteers eventType eventName =
        volunteers.filter (fun v => decide (v.EventType = eventType ∧ v.EventName = eventName)) ∧
      filterByTeacher volunteers teacher =
        volunteers.filter (fun v => decide (v.Teacher = teacher)) :=
  ⟨filterVolunteersByEvent_eq_filter volunteers eventType eventName,
    filterByTeacher_eq_filter volunteers teacher⟩

/-- Claim C17, amended: for every `int64` seed other than 0, the seed given to the primary
generator differs from the seed given to the alternate generator, `seed * 2` in 64-bit
wrap-around arithmetic. -/
theorem seeds_differ (seed : Int) (hmin : -9223372036854775808 ≤ seed)
    (hmax : seed ≤ 9223372036854775807) (hne : seed ≠ 0) :
    (mainSeeds seed).1 ≠ (mainSeeds seed).2 := by
  unfold mainSeeds wrapInt64
  dsimp only
  omega

/-- Claim C17 as stated fails at the seed 0, an `int64` the flag accepts: both generators are
seeded with 0. -/
theorem seeds_differ_counterexample :
    (-9223372036854775808 : Int) ≤ 0 ∧ (0 : Int) ≤ 9223372036854775807 ∧
      (mainSeeds 0).1 = (mainSeeds 0).2 := by
  decide

/-- The amended claim C17 applied to the default seed 42: the generators are seeded with 42 and
84. -/
theorem seeds_differ_witness :
    (-9223372036854775808 : Int) ≤ 42 ∧ (42 : Int) ≤ 9223372036854775807 ∧ (42 : Int) ≠ 0 ∧
      (mainSeeds 42).1 ≠ (mainSeeds 42).2 :=
  ⟨by decide, by decide, by decide, seeds_differ 42 (by decide) (by decide) (by decide)⟩

/-- Claim C11, amended: for every input with pairwise distinct event names in which a party has
`Count = 0`, `assignVolunteers` stores no primary entry for that party: every entry of every
teacher's list for it carries `Alternate = true`, appended by the alternate pass, which does not
look at the count. -/
theorem zero_count_no_primary (ToLower : String → String) (rnd rnd2 : Rand)
    (volunteers : List Volunteer)
    (parties : List PartyConfig) (fieldTrips : List FieldTripConfig) (allTeachers : List String)
    (hnames : DistinctEventNames parties fieldTrips) (p : PartyConfig) (hp : p ∈ parties)
    (hcount : p.Count = 0) (T : String) (e : Volunteer)
    (he : e ∈ assignVolunteers ToLower rnd rnd2 volunteers parties fieldTrips allTeachers p.Name T) :
    e.Alternate = true := by
  obtain ⟨B, hB⟩ := altInv_assignMaps ToLower rnd rnd2 volunteers parties fieldTrips allTeachers
  have hev : (⟨p.Name, p.Count, allTeachers⟩ : Event) ∈
      events .party parties fieldTrips allTeachers := mem_events_party.2 ⟨p, hp, rfl⟩
  have hempty := primaryPasses_nonpos ToLower rnd volunteers hnames hev (le_of_eq hcount) T
  dsimp only at hempty
  unfold assignVolunteers at he
  rw [hB.app, hempty, List.nil_append] at he
  obtain ⟨_, _, v, _, _, _, rfl⟩ := hB.sound p.Name T e he
  rfl

/-- Claim C11 as stated fails on two inputs, shown with the list the code returns: a party with
count 0 and one candidate receives that candidate as an alternate; of two parties with the same
name the first has count 0 and its list holds the primary entry of the second. -/
theorem zero_count_counterexample :
    (assignVolunteers asciiToLower Rand.zero Rand.zero [⟨"ann", "", "", "A", "party", "P", false⟩]
        [⟨"P", 0⟩] [] ["A"] "P" "A" = [⟨"ann", "", "", "A", "party", "P", true⟩] ∧
      ¬ ZeroCountEmpty
        (assignVolunteers asciiToLower Rand.zero Rand.zero [⟨"ann", "", "", "A", "party", "P", false⟩]
          [⟨"P", 0⟩] [] ["A"])
        [⟨"P", 0⟩]) ∧
    (assignVolunteers asciiToLower Rand.zero Rand.zero [⟨"ann", "", "", "A", "party", "P", false⟩]
        [⟨"P", 0⟩, ⟨"P", 1⟩] [] ["A"] "P" "A" = [⟨"ann", "", "", "A", "party", "P", false⟩] ∧
      ¬ ZeroCountEmpty
        (assignVolunteers asciiToLower Rand.zero Rand.zero [⟨"ann", "", "", "A", "party", "P", false⟩]
          [⟨"P", 0⟩, ⟨"P", 1⟩] [] ["A"])
        [⟨"P", 0⟩, ⟨"P", 1⟩]) := by
  refine ⟨⟨by decide, fun h => ?_⟩, ⟨by decide, fun h => ?_⟩⟩
  · exact absurd (h ⟨"P", 0⟩ (List.mem_cons_self _ _) rfl "A") (by decide)
  · exact absurd (h ⟨"P", 0⟩ (List.mem_cons_self _ _) rfl "A") (by decide)

/-- The amended claim C11 applied to a party with count 0 and one candidate: the stored entry is
the flagged copy of the candidate. -/
theorem zero_count_no_primary_witness :
    DistinctEventNames [⟨"P", 0⟩] [] ∧
    (⟨"P", 0⟩ : PartyConfig) ∈ ([⟨"P", 0⟩] : List PartyConfig) ∧
    (⟨"P", 0⟩ : PartyConfig).Count = 0 ∧
    (⟨"ann", "", "", "A", "party", "P", true⟩ : Volunteer) ∈
      assignVolunteers asciiToLower Rand.zero Rand.zero [⟨"ann", "", "", "A", "party", "P", false⟩]
        [⟨"P", 0⟩] [] ["A"] "P" "A" ∧
    (⟨"ann", "", "", "A", "party", "P", true⟩ : Volunteer).Alternate = true :=
  ⟨by unfold DistinctEventNames; decide, by decide, rfl, by decide,
    zero_count_no_primary asciiToLower Rand.zero Rand.zero [⟨"ann", "", "", "A", "party", "P", false⟩]
      [⟨"P", 0⟩] [] ["A"] (by unfold DistinctEventNames; decide) ⟨"P", 0⟩ (by decide) rfl "A"
      ⟨"ann", "", "", "A", "party", "P", true⟩ (by decide)⟩

/-- Claim C13: with pairwise distinct event names, every teacher that has a non-empty list under
a field trip in the table returned by `assignVolunteers` belongs to the teacher set of that trip
(its configured list, or `allTeachers` when the list is the `ALL` sentinel), every teacher with a
non-empty list under a party belongs to `allTeachers`, and every entry stored under a field trip
is a volunteer of a teacher of its teacher set. -/
theorem teacher_set_respected (ToLower : String → String) (rnd rnd2 : Rand)
    (volunteers : List Volunteer)
    (parties : List PartyConfig) (fieldTrips : List FieldTripConfig) (allTeachers : List String)
    (hnames : DistinctEventNames parties fieldTrips) :
    (∀ f ∈ fieldTrips, ∀ T,
      assignVolunteers ToLower rnd rnd2 volunteers parties fieldTrips allTeachers f.Name T ≠ [] →
        T ∈ tripTeachers f.Teachers allTeachers) ∧
    (∀ p ∈ parties, ∀ T,
      assignVolunteers ToLower rnd rnd2 volunteers parties fieldTrips allTeachers p.Name T ≠ [] →
        T ∈ allTeachers) ∧
    (∀ f ∈ fieldTrips, ∀ T, ∀ e ∈
      assignVolunteers ToLower rnd rnd2 volunteers parties fieldTrips allTeachers f.Name T,
        e.Teacher ∈ tripTeachers f.Teachers allTeachers) := by
  have trip : ∀ f ∈ fieldTrips, ∀ T,
      assignVolunteers ToLower rnd rnd2 volunteers parties fieldTrips allTeachers f.Name T ≠ [] →
        T ∈ tripTeachers f.Teachers allTeachers := fun f hf T hne =>
    teacher_of_nonempty ToLower rnd rnd2 volunteers hnames (c := .fieldtrip)
      (mem_events_fieldtrip.2 ⟨f, hf, rfl⟩) hne
  refine ⟨trip, ?_, ?_⟩
  · intro p hp T hne
    exact teacher_of_nonempty ToLower rnd rnd2 volunteers hnames (c := .party)
      (mem_events_party.2 ⟨p, hp, rfl⟩) hne
  · intro f hf T e he
    obtain ⟨_, _, v, _, _, hv, hor⟩ :=
      entry_sound ToLower rnd rnd2 volunteers parties fieldTrips allTeachers he
    have hT : e.Teacher = T := by
      rcases hor with rfl | rfl
      · exact hv.2.2.2
      · exact hv.2.2.2
    rw [hT]
    exact trip f hf T (List.ne_nil_of_mem he)

/-- Claim C13 applied to a field trip restricted to teacher `A` with volunteers under `A` and
`B`, and a party for all teachers. -/
theorem teacher_set_respected_witness :
    DistinctEventNames [⟨"P", 1⟩] [⟨⟨"Zoo", 1⟩, ["A"]⟩] ∧
    ((∀ f ∈ ([⟨⟨"Zoo", 1⟩, ["A"]⟩] : List FieldTripConfig), ∀ T,
      assignVolunteers asciiToLower Rand.zero Rand.zero
        [⟨"ann", "", "", "A", "fieldtrip", "Zoo", false⟩,
         ⟨"bob", "", "", "B", "fieldtrip", "Zoo", false⟩,
         ⟨"cy", "", "", "B", "party", "P", false⟩]
        [⟨"P", 1⟩] [⟨⟨"Zoo", 1⟩, ["A"]⟩] ["A", "B"] f.Name T ≠ [] →
        T ∈ tripTeachers f.Teachers ["A", "B"]) ∧
    (∀ p ∈ ([⟨"P", 1⟩] : List PartyConfig), ∀ T,
      assignVolunteers asciiToLower Rand.zero Rand.zero
        [⟨"ann", "", "", "A", "fieldtrip", "Zoo", false⟩,
         ⟨"bob", "", "", "B", "fieldtrip", "Zoo", false⟩,
         ⟨"cy", "", "", "B", "party", "P", false⟩]
        [⟨"P", 1⟩] [⟨⟨"Zoo", 1⟩, ["A"]⟩] ["A", "B"] p.Name T ≠ [] →
        T ∈ ["A", "B"]) ∧
    (∀ f ∈ ([⟨⟨"Zoo", 1⟩, ["A"]⟩] : List FieldTripConfig), ∀ T, ∀ e ∈
      assignVolunteers asciiToLower Rand.zero Rand.zero
        [⟨"ann", "", "", "A", "fieldtrip", "Zoo", false⟩,
         ⟨"bob", "", "", "B", "fieldtrip", "Zoo", false⟩,
         ⟨"cy", "", "", "B", "party", "P", false⟩]
        [⟨"P", 1⟩] [⟨⟨"Zoo", 1⟩, ["A"]⟩] ["A", "B"] f.Name T,
        e.Teacher ∈ tripTeachers f.Teachers ["A", "B"])) :=
  ⟨by unfold DistinctEventNames; decide,
    teacher_set_respected asciiToLower _ _ _ _ _ _ (by unfold DistinctEventNames; decide)⟩

/-- Claim C19: with pairwise distinct event names across parties and field trips, for every
event name of the returned table and every normalized name, at most one entry of that event
carries that name, counted over all teachers and over primary and alternate entries together:
two entries of the event with the same normalized name stand under the same teacher at the same
position. -/
theorem no_person_twice (ToLower : String → String) (rnd rnd2 : Rand) (volunteers : List Volunteer)
    (parties : List PartyConfig) (fieldTrips : List FieldTripConfig) (allTeachers : List String)
    (hnames : DistinctEventNames parties fieldTrips) (E T₁ T₂ : String) (i₁ i₂ : Nat)
    (e₁ e₂ : Volunteer)
    (h₁ : (assignVolunteers ToLower rnd rnd2 volunteers parties fieldTrips allTeachers
      E T₁)[i₁]? = some e₁)
    (h₂ : (assignVolunteers ToLower rnd rnd2 volunteers parties fieldTrips allTeachers
      E T₂)[i₂]? = some e₂)
    (hkey : nameKey ToLower e₁.Name = nameKey ToLower e₂.Name) : T₁ = T₂ ∧ i₁ = i₂ := by
  obtain ⟨c, ev, _, hev, rfl, _, _⟩ :=
    entry_sound ToLower rnd rnd2 volunteers parties fieldTrips allTeachers (List.getElem?_mem h₁)
  obtain ⟨hcross, hrow⟩ := event_keys_distinct ToLower rnd rnd2 volunteers hnames.noSharedName hev
  have hT : T₁ = T₂ := by
    by_contra hne
    exact hcross T₁ T₂ e₁ e₂ hne (List.getElem?_mem h₁) (List.getElem?_mem h₂) hkey
  subst hT
  refine ⟨rfl, ?_⟩
  have hnd := List.nodup_iff_getElem?_ne_getElem?.1 (hrow T₁)
  have k₁ : ((assignVolunteers ToLower rnd rnd2 volunteers parties fieldTrips allTeachers
      ev.name T₁).map (fun e => nameKey ToLower e.Name))[i₁]? = some (nameKey ToLower e₁.Name) := by
    rw [List.getElem?_map, h₁]; rfl
  have k₂ : ((assignVolunteers ToLower rnd rnd2 volunteers parties fieldTrips allTeachers
      ev.name T₁).map (fun e => nameKey ToLower e.Name))[i₂]? = some (nameKey ToLower e₁.Name) := by
    rw [List.getElem?_map, h₂, hkey]; rfl
  have len₁ : i₁ < ((assignVolunteers ToLower rnd rnd2 volunteers parties fieldTrips allTeachers
      ev.name T₁).map (fun e => nameKey ToLower e.Name)).length := by
    by_contra hge
    rw [List.getElem?_eq_none (by omega)] at k₁
    exact absurd k₁ (by simp)
  have len₂ : i₂ < ((assignVolunteers ToLower rnd rnd2 volunteers parties fieldTrips allTeachers
      ev.name T₁).map (fun e => nameKey ToLower e.Name)).length := by
    by_contra hge
    rw [List.getElem?_eq_none (by omega)] at k₂
    exact absurd k₂ (by simp)
  rcases Nat.lt_trichotomy i₁ i₂ with hlt | heq | hgt
  · exact absurd (k₁.trans k₂.symm) (hnd i₁ i₂ hlt len₂)
  · exact heq
  · exact absurd (k₂.trans k₁.symm) (hnd i₂ i₁ hgt len₁)

/-- Claim C19 applied to a parent who signed up for party `P` under teachers `A` and `B`: the
entry under `A` at position 0 is the only entry of `P` with the normalized name `ann`. -/
theorem no_person_twice_witness :
    DistinctEventNames [⟨"P", 1⟩] [] ∧
    (assignVolunteers asciiToLower Rand.zero Rand.zero
      [⟨"Ann", "", "", "A", "party", "P", false⟩, ⟨"ANN", "", "", "B", "party", "P", false⟩]
      [⟨"P", 1⟩] [] ["A", "B"] "P" "A")[0]? = some ⟨"Ann", "", "", "A", "party", "P", false⟩ ∧
    ∀ (T₂ : String) (i₂ : Nat) (e₂ : Volunteer),
      (assignVolunteers asciiToLower Rand.zero Rand.zero
        [⟨"Ann", "", "", "A", "party", "P", false⟩, ⟨"ANN", "", "", "B", "party", "P", false⟩]
        [⟨"P", 1⟩] [] ["A", "B"] "P" T₂)[i₂]? = some e₂ →
      nameKey asciiToLower (⟨"Ann", "", "", "A", "party", "P", false⟩ : Volunteer).Name = nameKey asciiToLower e₂.Name →
      "A" = T₂ ∧ 0 = i₂ :=
  ⟨by unfold DistinctEventNames; decide, by decide,
    fun T₂ i₂ e₂ h₂ hkey =>
      no_person_twice asciiToLower _ _ _ _ _ _ (by unfold DistinctEventNames; decide) "P" "A" T₂ 0 i₂ _ e₂
        (by decide) h₂ hkey⟩

/-- Claim C14 (scenario A): with the single party `Fall Fest` of count 1, teachers `Smith` and
`Jones`, no field trips and exactly three volunteers, all signed up for `Fall Fest` under
`Smith` (records as the reader builds them, with `Alternate = false`), for every pair of
generators the list of `Smith` is one primary entry `p`, which is one of the three, followed by
at most 2 alternate entries taken from the other two records `b` and `c`, and the list of
`Jones` is empty. -/
theorem scenario_fall_fest (ToLower : String → String) (rnd rnd2 : Rand) (v₁ v₂ v₃ : Volunteer)
    (hsigned : SmithSignup v₁ ∧ SmithSignup v₂ ∧ SmithSignup v₃)
    (hflag : v₁.Alternate = false ∧ v₂.Alternate = false ∧ v₃.Alternate = false) :
    ∃ p b c alts, [p, b, c].Perm [v₁, v₂, v₃] ∧
      assignVolunteers ToLower rnd rnd2 [v₁, v₂, v₃] [⟨"Fall Fest", 1⟩] [] ["Smith", "Jones"]
        "Fall Fest" "Smith" = p :: alts ∧
      p.Alternate = false ∧ alts.length ≤ 2 ∧ (∀ e ∈ alts, e.Alternate = true) ∧
      alts.Subperm [{ b with Alternate := true }, { c with Alternate := true }] ∧
      assignVolunteers ToLower rnd rnd2 [v₁, v₂, v₃] [⟨"Fall Fest", 1⟩] [] ["Smith", "Jones"]
        "Fall Fest" "Jones" = [] := by
  have hnames : DistinctEventNames [⟨"Fall Fest", 1⟩] [] := by
    unfold DistinctEventNames; decide
  have hteachers : NoRepeatedTeacher [] ["Smith", "Jones"] := ⟨by decide, by simp⟩
  have hev : (⟨"Fall Fest", 1, ["Smith", "Jones"]⟩ : Event) ∈
      events .party [⟨"Fall Fest", 1⟩] [] ["Smith", "Jones"] :=
    mem_events_party.2 ⟨_, List.mem_singleton.2 rfl, rfl⟩
  have hvol : ∀ v ∈ [v₁, v₂, v₃], v.Alternate = false := by
    intro v hv
    simp only [List.mem_cons, List.mem_singleton, List.not_mem_nil, or_false] at hv
    rcases hv with rfl | rfl | rfl
    · exact hflag.1
    · exact hflag.2.1
    · exact hflag.2.2
  have hsmith : ∀ v ∈ [v₁, v₂, v₃], SmithSignup v := by
    intro v hv
    simp only [List.mem_cons, List.mem_singleton, List.not_mem_nil, or_false] at hv
    rcases hv with rfl | rfl | rfl
    · exact hsigned.1
    · exact hsigned.2.1
    · exact hsigned.2.2
  obtain ⟨B, hB, hrowsB⟩ :=
    altRows_assignMaps ToLower rnd rnd2 [v₁, v₂, v₃] [⟨"Fall Fest", 1⟩] [] ["Smith", "Jones"]
  have hprim := primInv_primaryPasses ToLower rnd [v₁, v₂, v₃] [⟨"Fall Fest", 1⟩] [] ["Smith", "Jones"]
  have hPlen := primaryPasses_length ToLower rnd [v₁, v₂, v₃] hnames hteachers hev "Smith"
  have hBlen := alternatePasses_length ToLower rnd rnd2 [v₁, v₂, v₃] hnames hteachers "Fall Fest" "Smith"
  have happ := hB.app "Fall Fest" "Smith"
  have hBalt : ∀ E t, ∀ e ∈ B E t, e.Alternate = true := by
    intro E t e he
    obtain ⟨_, _, v, _, _, _, rfl⟩ := hB.sound E t e he
    rfl
  -- the primary block is not empty
  have hPne : (primaryPasses ToLower rnd [v₁, v₂, v₃] [⟨"Fall Fest", 1⟩] [] ["Smith", "Jones"]).1.assignments
      "Fall Fest" "Smith" ≠ [] := by
    intro hnil
    have hfilled := primFilled_assignMaps ToLower rnd rnd2 [v₁, v₂, v₃] [⟨"Fall Fest", 1⟩] []
      ["Smith", "Jones"] hnames hvol hev (t := "Smith") (by simp)
    have hcount : (primaryCount ((assignMaps ToLower rnd rnd2 [v₁, v₂, v₃] [⟨"Fall Fest", 1⟩] []
        ["Smith", "Jones"]).assignments "Fall Fest" "Smith") : Int) < 1 := by
      rw [happ, hnil, List.nil_append]
      have : primaryCount (B "Fall Fest" "Smith") = 0 := by
        unfold primaryCount
        rw [List.countP_eq_zero]
        intro e he
        simp [hBalt _ _ e he]
      rw [this]; decide
    have hused := hfilled hcount v₁
      ⟨List.mem_cons_self _ _, hsigned.1.1, hsigned.1.2.1, hsigned.1.2.2⟩
    obtain ⟨ev, hev', T, e, he, hflag', _⟩ := primaryIn_of_usedFor ToLower rnd rnd2 [v₁, v₂, v₃]
      [⟨"Fall Fest", 1⟩] [] ["Smith", "Jones"] hnames hvol hused
    obtain ⟨p, hp, rfl⟩ := mem_events_party.1 hev'
    rw [List.mem_singleton] at hp
    subst hp
    have hin := primary_entry_origin ToLower rnd rnd2 [v₁, v₂, v₃] [⟨"Fall Fest", 1⟩] []
      ["Smith", "Jones"] hB he hflag'
    obtain ⟨_, _, _, _, hs⟩ := hprim.sound _ _ e hin
    have hT : T = "Smith" := hs.2.2.2.symm.trans (hsmith e hs.1).2.2
    subst hT
    dsimp only at hin
    rw [hnil] at hin
    exact absurd hin (List.not_mem_nil _)
  obtain ⟨p, hP⟩ : ∃ p, (primaryPasses ToLower rnd [v₁, v₂, v₃] [⟨"Fall Fest", 1⟩] []
      ["Smith", "Jones"]).1.assignments "Fall Fest" "Smith" = [p] := by
    have h1 : ((primaryPasses ToLower rnd [v₁, v₂, v₃] [⟨"Fall Fest", 1⟩] []
      ["Smith", "Jones"]).1.assignments "Fall Fest" "Smith").length = 1 := by
      have := List.length_pos.2 hPne
      have h' : (1 : Int).toNat = 1 := rfl
      dsimp only at hPlen
      omega
    exact List.length_eq_one.1 h1
  have hpin : p ∈ (primaryPasses ToLower rnd [v₁, v₂, v₃] [⟨"Fall Fest", 1⟩] []
      ["Smith", "Jones"]).1.assignments "Fall Fest" "Smith" := by
    rw [hP]; exact List.mem_singleton.2 rfl
  obtain ⟨_, _, _, _, hps⟩ := hprim.sound _ _ p hpin
  obtain ⟨b, c, hperm⟩ := erase_pair hps.1 rfl
  refine ⟨p, b, c, B "Fall Fest" "Smith", hperm, ?_, hvol p hps.1, ?_, hBalt _ _, ?_, ?_⟩
  · unfold assignVolunteers
    rw [happ, hP]; rfl
  · rw [happ, hP] at hBlen
    simp only [List.length_append, List.length_singleton] at hBlen
    omega
  · apply List.subperm_of_subset
    · have hty : ∀ e ∈ B "Fall Fest" "Smith", e.EventType = "party" := by
        intro e he
        obtain ⟨_, _, v, _, _, hs, rfl⟩ := hB.sound _ _ e he
        exact (hsmith v hs.1).1
      have hpair : (B "Fall Fest" "Smith").Pairwise (fun x y => x ≠ y) :=
        (hrowsB "Fall Fest" "Smith").imp_of_mem (fun {x y} hx hy h hxy =>
          h ((hty x hx).trans (hty y hy).symm) (by rw [hxy]))
      exact hpair
    · intro e he
      have hnot := hB.notUsedEvent _ _ e he
      obtain ⟨_, _, v, _, _, hs, rfl⟩ := hB.sound _ _ e he
      have hyes := hprim.usedEvent _ _ p hpin
      have hvp : v ≠ p := by
        rintro rfl
        rw [hyes] at hnot
        exact absurd hnot (by decide)
      have hv : v ∈ [p, b, c] := hperm.mem_iff.2 hs.1
      simp only [List.mem_cons, List.mem_singleton, List.not_mem_nil, or_false] at hv ⊢
      rcases hv with h | rfl | rfl
      · exact absurd h hvp
      · exact Or.inl rfl
      · exact Or.inr rfl
  · rw [List.eq_nil_iff_forall_not_mem]
    intro e he
    obtain ⟨_, _, v, _, _, hs, _⟩ := entry_sound ToLower rnd rnd2 _ _ _ _ he
    have := hs.2.2.2.symm.trans (hsmith v hs.1).2.2
    exact absurd this (by decide)

/-- Claim C14 applied to the records `ann`, `bob` and `cy`. -/
theorem scenario_fall_fest_witness :
    (SmithSignup ⟨"ann", "", "", "Smith", "party", "Fall Fest", false⟩ ∧
     SmithSignup ⟨"bob", "", "", "Smith", "party", "Fall Fest", false⟩ ∧
     SmithSignup ⟨"cy", "", "", "Smith", "party", "Fall Fest", false⟩) ∧
    ∃ p b c alts,
      [p, b, c].Perm [⟨"ann", "", "", "Smith", "party", "Fall Fest", false⟩,
        ⟨"bob", "", "", "Smith", "party", "Fall Fest", false⟩,
        ⟨"cy", "", "", "Smith", "party", "Fall Fest", false⟩] ∧
      assignVolunteers asciiToLower Rand.zero Rand.zero
        [⟨"ann", "", "", "Smith", "party", "Fall Fest", false⟩,
         ⟨"bob", "", "", "Smith", "party", "Fall Fest", false⟩,
         ⟨"cy", "", "", "Smith", "party", "Fall Fest", false⟩]
        [⟨"Fall Fest", 1⟩] [] ["Smith", "Jones"] "Fall Fest" "Smith" = p :: alts ∧
      p.Alternate = false ∧ alts.length ≤ 2 ∧ (∀ e ∈ alts, e.Alternate = true) ∧
      alts.Subperm [{ b with Alternate := true }, { c with Alternate := true }] ∧
      assignVolunteers asciiToLower Rand.zero Rand.zero
        [⟨"ann", "", "", "Smith", "party", "Fall Fest", false⟩,
         ⟨"bob", "", "", "Smith", "party", "Fall Fest", false⟩,
         ⟨"cy", "", "", "Smith", "party", "Fall Fest", false⟩]
        [⟨"Fall Fest", 1⟩] [] ["Smith", "Jones"] "Fall Fest" "Jones" = [] :=
  ⟨⟨by unfold SmithSignup; decide, by unfold SmithSignup; decide, by unfold SmithSignup; decide⟩,
    scenario_fall_fest asciiToLower Rand.zero Rand.zero _ _ _
      ⟨by unfold SmithSignup; decide, by unfold SmithSignup; decide,
        by unfold SmithSignup; decide⟩
      ⟨rfl, rfl, rfl⟩⟩

/-- Claim C20: two runs with the same generators, the same parties, the same `allTeachers` and
the same party volunteers in the same order, in each of which no field trip has the name of a
party, return the same lists under every party name, whatever the field-trip configurations and
the other volunteers of the two runs are. -/
theorem party_independence (ToLower : String → String) (rnd rnd2 : Rand)
    (volunteers₁ volunteers₂ : List Volunteer)
    (parties : List PartyConfig) (fieldTrips₁ fieldTrips₂ : List FieldTripConfig)
    (allTeachers : List String)
    (hvol : volunteers₁.filter (fun v => decide (v.EventType = "party")) =
      volunteers₂.filter (fun v => decide (v.EventType = "party")))
    (h₁ : NoSharedName parties fieldTrips₁) (h₂ : NoSharedName parties fieldTrips₂) :
    ∀ p ∈ parties, ∀ T,
      assignVolunteers ToLower rnd rnd2 volunteers₁ parties fieldTrips₁ allTeachers p.Name T =
        assignVolunteers ToLower rnd rnd2 volunteers₂ parties fieldTrips₂ allTeachers p.Name T := by
  intro p hp T
  have v₁ := partyView_assignMaps ToLower rnd rnd2 volunteers₁ allTeachers
    (parties.map (fun p => p.Name)) partyEvents_name_mem (tripEvents_name_not_mem h₁)
  have v₂ := partyView_assignMaps ToLower rnd rnd2 volunteers₂ allTeachers
    (parties.map (fun p => p.Name)) partyEvents_name_mem (tripEvents_name_not_mem h₂)
  have hmid : PartyState (parties.map (fun p => p.Name))
      ((partyEvents parties allTeachers).foldl (alternateEvent ToLower .party volunteers₁)
        (((partyEvents parties allTeachers).foldl (primaryEvent ToLower .party volunteers₁)
          (Maps.empty, rnd)).1, rnd2))
      ((partyEvents parties allTeachers).foldl (alternateEvent ToLower .party volunteers₂)
        (((partyEvents parties allTeachers).foldl (primaryEvent ToLower .party volunteers₂)
          (Maps.empty, rnd)).1, rnd2)) := by
    rw [primaryEvent_party_eq hvol]
    exact foldl_rel (alternateEvent ToLower .party volunteers₁) (alternateEvent ToLower .party volunteers₂)
      (PartyState (parties.map (fun p => p.Name))) (partyEvents parties allTeachers)
      (fun _ _ ev hev hst => hst.partyStep hvol (partyEvents_name_mem ev hev))
      _ _ ⟨PartyView.same _ _, rfl⟩
  have hall := (v₁.chain hmid.1).chain v₂.flip
  unfold assignVolunteers
  rw [hall.1 p.Name (List.mem_map.2 ⟨p, hp, rfl⟩)]

/-- Claim C20 applied to two runs with the party `P` and the party volunteers `ann` and `bob`:
one with the field trip `Zoo` and its volunteer `cy`, one with the field trip `Farm` and its
volunteer `dan` placed between the two party volunteers. -/
theorem party_independence_witness :
    List.filter (fun v => decide (v.EventType = "party"))
        [(⟨"ann", "", "", "A", "party", "P", false⟩ : Volunteer),
         ⟨"bob", "", "", "A", "party", "P", false⟩,
         ⟨"cy", "", "", "A", "fieldtrip", "Zoo", false⟩] =
      List.filter (fun v => decide (v.EventType = "party"))
        [(⟨"ann", "", "", "A", "party", "P", false⟩ : Volunteer),
         ⟨"dan", "", "", "A", "fieldtrip", "Farm", false⟩,
         ⟨"bob", "", "", "A", "party", "P", false⟩] ∧
    NoSharedName [⟨"P", 1⟩] [⟨⟨"Zoo", 1⟩, ["ALL"]⟩] ∧
    NoSharedName [⟨"P", 1⟩] [⟨⟨"Farm", 2⟩, ["A"]⟩] ∧
    ∀ p ∈ ([⟨"P", 1⟩] : List PartyConfig), ∀ T,
      assignVolunteers asciiToLower Rand.zero Rand.zero
          [⟨"ann", "", "", "A", "party", "P", false⟩,
           ⟨"bob", "", "", "A", "party", "P", false⟩,
           ⟨"cy", "", "", "A", "fieldtrip", "Zoo", false⟩]
          [⟨"P", 1⟩] [⟨⟨"Zoo", 1⟩, ["ALL"]⟩] ["A"] p.Name T =
        assignVolunteers asciiToLower Rand.zero Rand.zero
          [⟨"ann", "", "", "A", "party", "P", false⟩,
           ⟨"dan", "", "", "A", "fieldtrip", "Farm", false⟩,
           ⟨"bob", "", "", "A", "party", "P", false⟩]
          [⟨"P", 1⟩] [⟨⟨"Farm", 2⟩, ["A"]⟩] ["A"] p.Name T :=
  ⟨by decide, by unfold NoSharedName; decide, by unfold NoSharedName; decide,
    party_independence asciiToLower Rand.zero Rand.zero _ _ _ _ _ _ (by decide)
      (by unfold NoSharedName; decide) (by unfold NoSharedName; decide)⟩

/-- Claim C18 at inputs with digits outside ASCII: when `IsDigit` accepts U+0660
(ARABIC-INDIC DIGIT ZERO, two bytes in UTF-8), the input of ten such digits has exactly 10 digit
characters and is returned unchanged, because its digits take 20 bytes, and the input of five
such digits is formatted, because its digits take 10 bytes; neither is the result the claim
describes. -/
theorem formatPhoneNumber_multibyte_digits (IsDigit : Char → Bool)
    (h : IsDigit (Char.ofNat 1632) = true) :
    ((List.replicate 10 (Char.ofNat 1632)).filter IsDigit).length = 10 ∧
    FormatPhoneNumber IsDigit (List.replicate 10 (Char.ofNat 1632)) =
      utf8 (List.replicate 10 (Char.ofNat 1632)) ∧
    FormatPhoneNumber IsDigit (List.replicate 10 (Char.ofNat 1632)) ≠
      formatTenDigits IsDigit (List.replicate 10 (Char.ofNat 1632)) ∧
    ((List.replicate 5 (Char.ofNat 1632)).filter IsDigit).length = 5 ∧
    FormatPhoneNumber IsDigit (List.replicate 5 (Char.ofNat 1632)) =
      [40, 217, 160, 217, 41, 32, 160, 217, 160, 45, 217, 160, 217, 160] ∧
    FormatPhoneNumber IsDigit (List.replicate 5 (Char.ofNat 1632)) ≠
      formatTenDigits IsDigit (List.replicate 5 (Char.ofNat 1632)) := by
  have h10 : (List.replicate 10 (Char.ofNat 1632)).filter IsDigit =
      List.replicate 10 (Char.ofNat 1632) := by
    simp [List.replicate, List.filter, h]
  have h5 : (List.replicate 5 (Char.ofNat 1632)).filter IsDigit =
      List.replicate 5 (Char.ofNat 1632) := by
    simp [List.replicate, List.filter, h]
  have e10 : FormatPhoneNumber IsDigit (List.replicate 10 (Char.ofNat 1632)) =
      utf8 (List.replicate 10 (Char.ofNat 1632)) := by
    unfold FormatPhoneNumber
    rw [h10]
    decide
  have e5 : FormatPhoneNumber IsDigit (List.replicate 5 (Char.ofNat 1632)) =
      [40, 217, 160, 217, 41, 32, 160, 217, 160, 45, 217, 160, 217, 160] := by
    unfold FormatPhoneNumber
    rw [h5]
    decide
  have s10 : formatTenDigits IsDigit (List.replicate 10 (Char.ofNat 1632)) =
      [40, 217, 160, 217, 160, 217, 160, 41, 32, 217, 160, 217, 160, 217, 160, 45,
        217, 160, 217, 160, 217, 160, 217, 160] := by
    unfold formatTenDigits
    rw [h10]
    decide
  have s5 : formatTenDigits IsDigit (List.replicate 5 (Char.ofNat 1632)) =
      utf8 (List.replicate 5 (Char.ofNat 1632)) := by
    unfold formatTenDigits
    rw [h5]
    decide
  refine ⟨by rw [h10]; rfl, e10, ?_, by rw [h5]; rfl, e5, ?_⟩
  · rw [e10, s10]; decide
  · rw [e5, s5]; decide

/-- Claim C18: the theorem applied to the predicate accepting the ASCII digits and U+0660. -/
theorem formatPhoneNumber_multibyte_digits_witness :
    (fun c : Char => decide (c.toNat = 1632 ∨ (48 ≤ c.toNat ∧ c.toNat ≤ 57)))
      (Char.ofNat 1632) = true ∧
    ((List.replicate 10 (Char.ofNat 1632)).filter
      (fun c : Char => decide (c.toNat = 1632 ∨ (48 ≤ c.toNat ∧ c.toNat ≤ 57)))).length = 10 ∧
    FormatPhoneNumber (fun c : Char => decide (c.toNat = 1632 ∨ (48 ≤ c.toNat ∧ c.toNat ≤ 57)))
        (List.replicate 10 (Char.ofNat 1632)) =
      utf8 (List.replicate 10 (Char.ofNat 1632)) ∧
    FormatPhoneNumber (fun c : Char => decide (c.toNat = 1632 ∨ (48 ≤ c.toNat ∧ c.toNat ≤ 57)))
        (List.replicate 10 (Char.ofNat 1632)) ≠
      formatTenDigits (fun c : Char => decide (c.toNat = 1632 ∨ (48 ≤ c.toNat ∧ c.toNat ≤ 57)))
        (List.replicate 10 (Char.ofNat 1632)) ∧
    ((List.replicate 5 (Char.ofNat 1632)).filter
      (fun c : Char => decide (c.toNat = 1632 ∨ (48 ≤ c.toNat ∧ c.toNat ≤ 57)))).length = 5 ∧
    FormatPhoneNumber (fun c : Char => decide (c.toNat = 1632 ∨ (48 ≤ c.toNat ∧ c.toNat ≤ 57)))
        (List.replicate 5 (Char.ofNat 1632)) =
      [40, 217, 160, 217, 41, 32, 160, 217, 160, 45, 217, 160, 217, 160] ∧
    FormatPhoneNumber (fun c : Char => decide (c.toNat = 1632 ∨ (48 ≤ c.toNat ∧ c.toNat ≤ 57)))
        (List.replicate 5 (Char.ofNat 1632)) ≠
      formatTenDigits (fun c : Char => decide (c.toNat = 1632 ∨ (48 ≤ c.toNat ∧ c.toNat ≤ 57)))
        (List.replicate 5 (Char.ofNat 1632)) :=
  ⟨by decide,
    formatPhoneNumber_multibyte_digits
      (fun c : Char => decide (c.toNat = 1632 ∨ (48 ≤ c.toNat ∧ c.toNat ≤ 57)))
      (by decide)⟩

/-- Claim C21: for every input string, the result of `sanitizeSheetName` is at most 31 bytes
long and contains none of the seven characters slash, backslash, question mark, asterisk,
opening square bracket, closing square bracket and colon (the bytes 47, 92, 63, 42, 91, 93 and
58). -/
theorem sanitizeSheetName_usable (name : List Nat) :
    (sanitizeSheetName name).length ≤ 31 ∧
      ∀ b ∈ [47, 92, 63, 42, 91, 93, 58], b ∉ sanitizeSheetName name := by
  unfold sanitizeSheetName
  dsimp only
  split_ifs with hlen
  · refine ⟨byteSlice_length_le _ 31, fun b hb hmem => ?_⟩
    exact replaced_bytes (mem_byteSlice hmem) hb
  · exact ⟨by omega, fun b hb hmem => replaced_bytes hmem hb⟩

end VolunteerChooser
